import Mathlib

/-!
# MIDI byte <-> sequencer event coder (`src/seq/seq_midi_event.c`)

A shallow embedding of the coder of `seq_midi_event.c` and theorems about it.

Conventions of the embedding.

* C `int`/`long`/`unsigned int` values are `Int` or `Nat` without wrap-around; bytes
  (`unsigned char`) are `Nat`.  Every value the code stores into a byte is already below 256
  (masked input byte, 7-bit masked data, status byte).  On a signed `int`, `x & 0x7f` is
  `x % 128` and `x >> 7` is the arithmetic shift.
* The one place where a `long` is handed to an `int` parameter, the call of an extension
  routine with `count`, narrows the value to 32 bits (`long_to_int`).
* A byte buffer reached through a pointer is a total map `Mem` from index to byte.  A store is
  performed at the index the code computes, whatever the capacity that was allocated for
  the buffer; capacities are the separate numbers `bufsize` / `count`.
* The `data` union of `snd_seq_event_t` is flattened: `channel` is the common first byte of
  `data.note` and `data.control` (the source relies on it), the other members are separate
  fields.
* `ev->flags` is split in the two-bit length field (`flags & SND_SEQ_EVENT_LENGTH_MASK`) and the
  remaining bits, which the coder never touches.
-/

namespace SeqMidiEvent

/-- Modelled from the spec: the event discriminants `SND_SEQ_EVENT_*` are declared in a header
that is not part of the sources; the constructors are the names used in `seq_midi_event.c`,
`OTHER n` stands for any further discriminant of the sequencer. -/
inductive snd_seq_event_type_t where
  | SND_SEQ_EVENT_NOTEOFF
  | SND_SEQ_EVENT_NOTEON
  | SND_SEQ_EVENT_KEYPRESS
  | SND_SEQ_EVENT_CONTROLLER
  | SND_SEQ_EVENT_PGMCHANGE
  | SND_SEQ_EVENT_CHANPRESS
  | SND_SEQ_EVENT_PITCHBEND
  | SND_SEQ_EVENT_NONE
  | SND_SEQ_EVENT_SYSEX
  | SND_SEQ_EVENT_QFRAME
  | SND_SEQ_EVENT_SONGPOS
  | SND_SEQ_EVENT_SONGSEL
  | SND_SEQ_EVENT_TUNE_REQUEST
  | SND_SEQ_EVENT_CLOCK
  | SND_SEQ_EVENT_START
  | SND_SEQ_EVENT_CONTINUE
  | SND_SEQ_EVENT_STOP
  | SND_SEQ_EVENT_SENSING
  | SND_SEQ_EVENT_RESET
  | SND_SEQ_EVENT_CONTROL14
  | SND_SEQ_EVENT_NONREGPARAM
  | SND_SEQ_EVENT_REGPARAM
  | OTHER (n : Nat)
  deriving DecidableEq

export snd_seq_event_type_t (SND_SEQ_EVENT_NOTEOFF SND_SEQ_EVENT_NOTEON SND_SEQ_EVENT_KEYPRESS
  SND_SEQ_EVENT_CONTROLLER SND_SEQ_EVENT_PGMCHANGE SND_SEQ_EVENT_CHANPRESS
  SND_SEQ_EVENT_PITCHBEND SND_SEQ_EVENT_NONE SND_SEQ_EVENT_SYSEX SND_SEQ_EVENT_QFRAME
  SND_SEQ_EVENT_SONGPOS SND_SEQ_EVENT_SONGSEL SND_SEQ_EVENT_TUNE_REQUEST SND_SEQ_EVENT_CLOCK
  SND_SEQ_EVENT_START SND_SEQ_EVENT_CONTINUE SND_SEQ_EVENT_STOP SND_SEQ_EVENT_SENSING
  SND_SEQ_EVENT_RESET SND_SEQ_EVENT_CONTROL14 SND_SEQ_EVENT_NONREGPARAM SND_SEQ_EVENT_REGPARAM)

/-- Modelled from the spec: the value of `ev->flags & SND_SEQ_EVENT_LENGTH_MASK`; the header
declaring the flags is not part of the sources.  The source names the fixed, the ordinary
variable and the `VARIPC` framing; `RESERVED` is the fourth value of the two-bit field. -/
inductive snd_seq_event_length_t where
  | SND_SEQ_EVENT_LENGTH_FIXED
  | SND_SEQ_EVENT_LENGTH_VARIABLE
  | SND_SEQ_EVENT_LENGTH_VARIPC
  | SND_SEQ_EVENT_LENGTH_RESERVED
  deriving DecidableEq

export snd_seq_event_length_t (SND_SEQ_EVENT_LENGTH_FIXED SND_SEQ_EVENT_LENGTH_VARIABLE
  SND_SEQ_EVENT_LENGTH_VARIPC SND_SEQ_EVENT_LENGTH_RESERVED)

/-- Bytes reached through a pointer: index to byte. -/
abbrev Mem := Int → Nat

/-- The assignment `m[i] = v`. -/
def store (m : Mem) (i : Int) (v : Nat) : Mem :=
  fun j => if j = i then v else m j

/-- The call `memcpy(dst, src, n)`. -/
def memcpy (dst src : Mem) (n : Int) : Mem :=
  fun j => if 0 ≤ j ∧ j < n then src j else dst j

/-- The first `n` bytes of a buffer, as a list. -/
def bytes_of (m : Mem) (n : Int) : List Nat :=
  (List.range n.toNat).map (fun (i : Nat) => m (Int.ofNat i))

/-- The expression `x & 0x7f` on a two's-complement `int`, as the byte it is stored into. -/
def and7f (x : Int) : Nat := (x % 128).toNat

/-- The sequencer event, restricted to the fields the coder reads or writes. -/
structure snd_seq_event_t where
  type : snd_seq_event_type_t
  length : snd_seq_event_length_t
  flags_other : Nat
  channel : Nat
  note : Nat
  velocity : Nat
  param : Nat
  value : Int
  ext_len : Int
  ext_ptr : Mem

/-- The coder state `struct snd_midi_event`. -/
structure snd_midi_event where
  qlen : Int
  read : Int
  type : Int
  lastcmd : Nat
  bufsize : Int
  buf : Mem

/-- queue type: from 0 to 7 are normal commands (note off, on, etc.) -/
def ST_NOTEOFF : Nat := 0
def ST_NOTEON : Nat := 1
/-- queue type: from 8 to 15 are events for 0xf0-0xf7 -/
def ST_SPECIAL : Nat := 8
def ST_SYSEX : Nat := ST_SPECIAL

/-- Modelled from the spec: MIDI status byte of the first real-time message (Clock), from a
header that is not part of the sources. -/
def MIDI_CMD_COMMON_CLOCK : Nat := 0xf8
/-- Modelled from the spec: MIDI status byte opening a SysEx message. -/
def MIDI_CMD_COMMON_SYSEX : Nat := 0xf0
/-- Modelled from the spec: MIDI SysEx terminator. -/
def MIDI_CMD_COMMON_SYSEX_END : Nat := 0xf7
/-- Modelled from the spec: MIDI status byte of a controller change on channel 0. -/
def MIDI_CMD_CONTROL : Nat := 0xb0

/-- The `errno.h` code behind "not found". -/
def ENOENT : Int := 2
/-- The `errno.h` code behind "no space". -/
def ENOMEM : Int := 12
/-- The `errno.h` code behind "invalid event". -/
def EINVAL : Int := 22

/-- encode note event -/
def note_event (dev : snd_midi_event) (ev : snd_seq_event_t) : snd_seq_event_t :=
  { ev with channel := dev.buf 0 &&& 0x0f, note := dev.buf 1, velocity := dev.buf 2 }

/-- encode one parameter controls -/
def one_param_ctrl_event (dev : snd_midi_event) (ev : snd_seq_event_t) : snd_seq_event_t :=
  { ev with channel := dev.buf 0 &&& 0x0f, value := (dev.buf 1 : Int) }

/-- encode pitch wheel change -/
def pitchbend_ctrl_event (dev : snd_midi_event) (ev : snd_seq_event_t) : snd_seq_event_t :=
  { ev with channel := dev.buf 0 &&& 0x0f,
            value := (dev.buf 2 : Int) * 128 + (dev.buf 1 : Int) - 8192 }

/-- encode midi control change -/
def two_param_ctrl_event (dev : snd_midi_event) (ev : snd_seq_event_t) : snd_seq_event_t :=
  { ev with channel := dev.buf 0 &&& 0x0f, param := dev.buf 1, value := (dev.buf 2 : Int) }

/-- encode one parameter value -/
def one_param_event (dev : snd_midi_event) (ev : snd_seq_event_t) : snd_seq_event_t :=
  { ev with value := (dev.buf 1 : Int) }

/-- encode song position -/
def songpos_event (dev : snd_midi_event) (ev : snd_seq_event_t) : snd_seq_event_t :=
  { ev with value := (dev.buf 2 : Int) * 128 + (dev.buf 1 : Int) }

/-- decode note event: writes `buf[0]`, `buf[1]` where `buf` is the pointer `xbuf + off`. -/
def note_decode (ev : snd_seq_event_t) (xbuf : Mem) (off : Int) : Mem :=
  store (store xbuf off (ev.note &&& 0x7f)) (off + 1) (ev.velocity &&& 0x7f)

/-- decode one parameter controls -/
def one_param_decode (ev : snd_seq_event_t) (xbuf : Mem) (off : Int) : Mem :=
  store xbuf off (and7f ev.value)

/-- decode pitch wheel change -/
def pitchbend_decode (ev : snd_seq_event_t) (xbuf : Mem) (off : Int) : Mem :=
  let value : Int := ev.value + 8192
  store (store xbuf off (and7f value)) (off + 1) (and7f (value >>> (7 : Nat)))

/-- decode midi control change -/
def two_param_decode (ev : snd_seq_event_t) (xbuf : Mem) (off : Int) : Mem :=
  store (store xbuf off (ev.param &&& 0x7f)) (off + 1) (and7f ev.value)

/-- decode song position -/
def songpos_decode (ev : snd_seq_event_t) (xbuf : Mem) (off : Int) : Mem :=
  store (store xbuf off (and7f ev.value)) (off + 1) (and7f (ev.value >>> (7 : Nat)))

/-- An entry of the `status_event` table; a `NULL` routine is `none`. -/
structure status_event_list_t where
  event : snd_seq_event_type_t
  qlen : Int
  encode : Option (snd_midi_event → snd_seq_event_t → snd_seq_event_t)
  decode : Option (snd_seq_event_t → Mem → Int → Mem)

/-- The table `status_event[]`. -/
def status_event : List status_event_list_t := [
  -- 0x80 - 0xf0
  ⟨SND_SEQ_EVENT_NOTEOFF, 2, some note_event, some note_decode⟩,
  ⟨SND_SEQ_EVENT_NOTEON, 2, some note_event, some note_decode⟩,
  ⟨SND_SEQ_EVENT_KEYPRESS, 2, some note_event, some note_decode⟩,
  ⟨SND_SEQ_EVENT_CONTROLLER, 2, some two_param_ctrl_event, some two_param_decode⟩,
  ⟨SND_SEQ_EVENT_PGMCHANGE, 1, some one_param_ctrl_event, some one_param_decode⟩,
  ⟨SND_SEQ_EVENT_CHANPRESS, 1, some one_param_ctrl_event, some one_param_decode⟩,
  ⟨SND_SEQ_EVENT_PITCHBEND, 2, some pitchbend_ctrl_event, some pitchbend_decode⟩,
  ⟨SND_SEQ_EVENT_NONE, 0, none, none⟩,
  -- 0xf0 - 0xff
  ⟨SND_SEQ_EVENT_SYSEX, 1, none, none⟩,
  ⟨SND_SEQ_EVENT_QFRAME, 1, some one_param_event, some one_param_decode⟩,
  ⟨SND_SEQ_EVENT_SONGPOS, 2, some songpos_event, some songpos_decode⟩,
  ⟨SND_SEQ_EVENT_SONGSEL, 1, some one_param_event, some one_param_decode⟩,
  ⟨SND_SEQ_EVENT_NONE, 0, none, none⟩,
  ⟨SND_SEQ_EVENT_NONE, 0, none, none⟩,
  ⟨SND_SEQ_EVENT_TUNE_REQUEST, 0, none, none⟩,
  ⟨SND_SEQ_EVENT_NONE, 0, none, none⟩,
  ⟨SND_SEQ_EVENT_CLOCK, 0, none, none⟩,
  ⟨SND_SEQ_EVENT_NONE, 0, none, none⟩,
  ⟨SND_SEQ_EVENT_START, 0, none, none⟩,
  ⟨SND_SEQ_EVENT_CONTINUE, 0, none, none⟩,
  ⟨SND_SEQ_EVENT_STOP, 0, none, none⟩,
  ⟨SND_SEQ_EVENT_NONE, 0, none, none⟩,
  ⟨SND_SEQ_EVENT_SENSING, 0, none, none⟩,
  ⟨SND_SEQ_EVENT_RESET, 0, none, none⟩]

/-- The access `status_event[i]`.  An index outside the table is an out-of-bounds read in the
source; here it yields an empty entry, and `status_index_ok` tells the two apart. -/
def status_event_at (i : Int) : status_event_list_t :=
  match i with
  | Int.ofNat n => status_event.getD n ⟨SND_SEQ_EVENT_NONE, 0, none, none⟩
  | Int.negSucc _ => ⟨SND_SEQ_EVENT_NONE, 0, none, none⟩

/-- The index is inside `status_event[]`. -/
def status_index_ok (i : Int) : Prop := 0 ≤ i ∧ i < 24

instance (i : Int) : Decidable (status_index_ok i) := by
  unfold status_index_ok; infer_instance

/-- initialize record -/
def reset_encode (dev : snd_midi_event) : snd_midi_event :=
  { dev with read := 0, qlen := 0, type := 0 }

def snd_midi_event_reset_encode (dev : snd_midi_event) : snd_midi_event :=
  reset_encode dev

def snd_midi_event_reset_decode (dev : snd_midi_event) : snd_midi_event :=
  { dev with lastcmd := 0xff }

def snd_midi_event_init (dev : snd_midi_event) : snd_midi_event :=
  snd_midi_event_reset_decode (snd_midi_event_reset_encode dev)

/-- The state-machine part of `snd_midi_event_encode_byte` for a byte below 0xf8 (already
masked): the `if (dev->qlen > 0) ... else ...` statement. -/
def encode_byte_accumulate (dev : snd_midi_event) (c : Nat) : snd_midi_event :=
  if dev.qlen > 0 then
    -- rest of command
    let dev := { dev with buf := store dev.buf dev.read c, read := dev.read + 1 }
    if dev.type ≠ (ST_SYSEX : Int) then { dev with qlen := dev.qlen - 1 } else dev
  else
    -- new command
    let dev := { dev with read := 1 }
    if c &&& 0x80 ≠ 0 then
      let dev := { dev with buf := store dev.buf 0 c }
      let dev :=
        if c &&& 0xf0 = 0xf0 then -- special events
          { dev with type := (((c &&& 0x0f) + ST_SPECIAL : Nat) : Int) }
        else
          { dev with type := (((c >>> 4) &&& 0x07 : Nat) : Int) }
      { dev with qlen := (status_event_at dev.type).qlen }
    else
      -- process this byte as argument
      let dev := { dev with buf := store dev.buf dev.read c, read := dev.read + 1 }
      { dev with qlen := (status_event_at dev.type).qlen - 1 }

/-- read one byte and encode to sequencer event: returns the code (1 if MIDI bytes are encoded
to an event, 0 data is not finished), the new state and the event structure. -/
def snd_midi_event_encode_byte (dev : snd_midi_event) (c : Int) (ev : snd_seq_event_t) :
    Int × snd_midi_event × snd_seq_event_t :=
  let c : Nat := (c % 256).toNat
  if c ≥ MIDI_CMD_COMMON_CLOCK then
    -- real-time event
    (1, dev, { ev with type := (status_event_at ((ST_SPECIAL + c - 0xf0 : Nat) : Int)).event,
                       length := SND_SEQ_EVENT_LENGTH_FIXED })
  else
    let dev := encode_byte_accumulate dev c
    if dev.qlen = 0 then
      let ev := { ev with type := (status_event_at dev.type).event,
                          length := SND_SEQ_EVENT_LENGTH_FIXED }
      match (status_event_at dev.type).encode with
      | some encode => (1, dev, encode dev ev) -- set data values
      | none => (1, dev, ev)
    else if dev.type = (ST_SYSEX : Int) then
      if c = MIDI_CMD_COMMON_SYSEX_END ∨ dev.read ≥ dev.bufsize then
        let ev := { ev with length := SND_SEQ_EVENT_LENGTH_VARIABLE,
                            ext_len := dev.read, ext_ptr := dev.buf }
        if c ≠ MIDI_CMD_COMMON_SYSEX_END then
          (1, { dev with read := 0 }, ev) -- continue to parse
        else
          (1, reset_encode dev, ev) -- all parsed
      else (0, dev, ev)
    else (0, dev, ev)

/-- The loop of `snd_midi_event_encode` over the bytes that are left. -/
def encode_loop (dev : snd_midi_event) (ev : snd_seq_event_t) (result : Int) :
    List Int → Int × snd_midi_event × snd_seq_event_t
  | [] => (result, dev, ev)
  | c :: cs =>
    let r := snd_midi_event_encode_byte dev c ev
    if r.1 < 0 then (r.1, r.2.1, r.2.2)
    else if r.1 > 0 then (result + 1, r.2.1, r.2.2)
    else encode_loop r.2.1 r.2.2 (result + 1) cs

/-- read bytes and encode to sequencer event if finished: return the size of encoded bytes.
The input `buf`, `count` is the list of the `count` bytes. -/
def snd_midi_event_encode (dev : snd_midi_event) (buf : List Int) (ev : snd_seq_event_t) :
    Int × snd_midi_event × snd_seq_event_t :=
  encode_loop dev { ev with type := SND_SEQ_EVENT_NONE } 0 buf

/-- The search loop `for (type = 0; type < numberof(ary); type++)` over a table of which the
entries from index `type` on are left: the first index whose entry has the event kind. -/
def find_event_from (t : snd_seq_event_type_t) :
    List status_event_list_t → Nat → Option Nat
  | [], _ => none
  | e :: es, type => if t = e.event then some type else find_event_from t es (type + 1)

/-- The search loop over `status_event[]` of the decoder (`goto __found` is `some type`). -/
def find_status_event (t : snd_seq_event_type_t) : Option Nat :=
  find_event_from t status_event 0

/-- The conversion of a `long` argument to an `int` parameter (32 bits, two's complement): the
value is kept when it is in -2^31 .. 2^31 - 1 and reduced modulo 2^32 into that range
otherwise. -/
def long_to_int (x : Int) : Int := (x + 2147483648) % 4294967296 - 2147483648

/-- decode 14bit control; the parameter `count` is an `int`. -/
def extra_decode_ctrl14 (dev : snd_midi_event) (buf : Mem) (count : Int)
    (ev : snd_seq_event_t) : Int × snd_midi_event × Mem :=
  if ev.param < 32 then
    if count < 5 then (-ENOMEM, dev, buf)
    else
      let buf := store buf 0 (MIDI_CMD_CONTROL ||| (ev.channel &&& 0x0f))
      let buf := store buf 1 ev.param
      let buf := store buf 2 (and7f (ev.value >>> (7 : Nat)))
      let buf := store buf 3 (ev.param + 32)
      let buf := store buf 4 (and7f ev.value)
      (5, { dev with lastcmd := buf 0 }, buf)
  else
    if count < 3 then (-ENOMEM, dev, buf)
    else
      let buf := store buf 0 (MIDI_CMD_CONTROL ||| (ev.channel &&& 0x0f))
      let buf := store buf 1 (ev.param &&& 0x7f)
      let buf := store buf 4 (and7f ev.value)
      (3, { dev with lastcmd := buf 0 }, buf)

/-- An entry of the `extra_event` table; the third parameter of `decode` is an `int`. -/
structure extra_event_list_t where
  event : snd_seq_event_type_t
  decode : snd_midi_event → Mem → Int → snd_seq_event_t → Int × snd_midi_event × Mem

/-- The table `extra_event[]`. -/
def extra_event : List extra_event_list_t := [
  ⟨SND_SEQ_EVENT_CONTROL14, extra_decode_ctrl14⟩]

/-- The status byte computed at `__found` for table index `type`. -/
def decode_cmd (type : Nat) (ev : snd_seq_event_t) : Nat :=
  if type ≥ ST_SPECIAL then 0xf0 + (type - ST_SPECIAL)
  else -- data.note.channel and data.control.channel is identical
    0x80 ||| (type <<< 4) ||| (ev.channel &&& 0x0f)

/-- The code of `snd_midi_event_decode` from the label `__found` on.  The local array `xbuf`,
uninitialised in the source, starts cleared: every byte that `memcpy` takes from it has been
written before (an entry without decode routine has `qlen` 0 or is the SysEx entry). -/
def decode_found (dev : snd_midi_event) (buf : Mem) (count : Int) (ev : snd_seq_event_t)
    (type : Nat) : Int × snd_midi_event × Mem :=
  let cmd := decode_cmd type ev
  if cmd = MIDI_CMD_COMMON_SYSEX then
    let qlen : Int := ev.ext_len
    if count < qlen then (-ENOMEM, dev, buf)
    else if ev.length = SND_SEQ_EVENT_LENGTH_FIXED ∨ ev.length = SND_SEQ_EVENT_LENGTH_VARIPC then
      (-EINVAL, dev, buf) -- invalid event
    else (qlen, { dev with buf := memcpy dev.buf ev.ext_ptr qlen }, buf)
  else
    let xbuf : Mem := fun _ => 0
    if cmd &&& 0xf0 = 0xf0 ∨ dev.lastcmd ≠ cmd then
      let dev := { dev with lastcmd := cmd }
      let xbuf := store xbuf 0 cmd
      let xbuf := match (status_event_at type).decode with
        | some decode => decode ev xbuf 1
        | none => xbuf
      let qlen := (status_event_at type).qlen + 1
      if count < qlen then (-ENOMEM, dev, buf)
      else (qlen, dev, memcpy buf xbuf qlen)
    else
      let xbuf := match (status_event_at type).decode with
        | some decode => decode ev xbuf 0
        | none => xbuf
      let qlen := (status_event_at type).qlen
      if count < qlen then (-ENOMEM, dev, buf)
      else (qlen, dev, memcpy buf xbuf qlen)

/-- decode from a sequencer event to midi bytes: returns the size of decoded midi events (or a
negative error code), the new state and the destination buffer `buf` of capacity `count`.
`count` is a `long`; the extension routine takes an `int`, so the call narrows it. -/
def snd_midi_event_decode (dev : snd_midi_event) (buf : Mem) (count : Int)
    (ev : snd_seq_event_t) : Int × snd_midi_event × Mem :=
  if ev.type = SND_SEQ_EVENT_NONE then (-ENOENT, dev, buf)
  else
    match find_status_event ev.type with
    | some type => decode_found dev buf count ev type
    | none =>
      match extra_event.find? (fun e => decide (ev.type = e.event)) with
      | some e => e.decode dev buf (long_to_int count) ev
      | none => (-ENOENT, dev, buf)

/-- Feeds bytes one at a time to `snd_midi_event_encode_byte`, handing the state and the event
structure of each call to the next, and lists what every call returned. -/
def feed (dev : snd_midi_event) (ev : snd_seq_event_t) :
    List Int → List (Int × snd_midi_event × snd_seq_event_t)
  | [] => []
  | c :: cs =>
    let r := snd_midi_event_encode_byte dev c ev
    r :: feed r.2.1 r.2.2 cs

/-! ## Vocabulary of the statements -/

/-- An event structure with every field cleared. -/
def zero_event : snd_seq_event_t :=
  ⟨SND_SEQ_EVENT_NONE, SND_SEQ_EVENT_LENGTH_FIXED, 0, 0, 0, 0, 0, 0, 0, fun _ => 0⟩

/-- A freshly initialised coder state of the given capacity (buffer cleared). -/
def new_state (bufsize : Int) : snd_midi_event :=
  snd_midi_event_init ⟨0, 0, 0, 0, bufsize, fun _ => 0⟩

/-- The seven channel-voice event kinds. -/
def channel_voice_kinds : List snd_seq_event_type_t :=
  [SND_SEQ_EVENT_NOTEOFF, SND_SEQ_EVENT_NOTEON, SND_SEQ_EVENT_KEYPRESS,
   SND_SEQ_EVENT_CONTROLLER, SND_SEQ_EVENT_PGMCHANGE, SND_SEQ_EVENT_CHANPRESS,
   SND_SEQ_EVENT_PITCHBEND]

/-- The data bytes of an event: what the decode routine of table slot `type` writes. -/
def payload_bytes (type : Nat) (ev : snd_seq_event_t) : List Nat :=
  match (status_event_at type).decode with
  | some decode => bytes_of (decode ev (fun _ => 0) 0) (status_event_at type).qlen
  | none => []

/-- The event a completed fixed-length message produces: kind and framing from the table, then
the pack routine of the slot. -/
def fixed_event (dev : snd_midi_event) (ev : snd_seq_event_t) : snd_seq_event_t :=
  match (status_event_at dev.type).encode with
  | some encode =>
    encode dev { ev with type := (status_event_at dev.type).event,
                         length := SND_SEQ_EVENT_LENGTH_FIXED }
  | none => { ev with type := (status_event_at dev.type).event,
                      length := SND_SEQ_EVENT_LENGTH_FIXED }

/-- The bytes a call of `snd_midi_event_decode` produced: the first `n` bytes of the destination
buffer, `n` the value returned (none when the call failed). -/
def decoded_bytes (dev : snd_midi_event) (buf : Mem) (count : Int) (ev : snd_seq_event_t) :
    List Nat :=
  bytes_of (snd_midi_event_decode dev buf count ev).2.2 (snd_midi_event_decode dev buf count ev).1

/-- The in-range payload of a channel-voice event: note, velocity, param and 7-bit value in
0..127, pitch-bend value in -8192..8191. -/
def payload_in_range (ev : snd_seq_event_t) : Prop :=
  match ev.type with
  | SND_SEQ_EVENT_NOTEOFF => ev.note < 128 ∧ ev.velocity < 128
  | SND_SEQ_EVENT_NOTEON => ev.note < 128 ∧ ev.velocity < 128
  | SND_SEQ_EVENT_KEYPRESS => ev.note < 128 ∧ ev.velocity < 128
  | SND_SEQ_EVENT_CONTROLLER => ev.param < 128 ∧ 0 ≤ ev.value ∧ ev.value < 128
  | SND_SEQ_EVENT_PGMCHANGE => 0 ≤ ev.value ∧ ev.value < 128
  | SND_SEQ_EVENT_CHANPRESS => 0 ≤ ev.value ∧ ev.value < 128
  | SND_SEQ_EVENT_PITCHBEND => -8192 ≤ ev.value ∧ ev.value ≤ 8191
  | _ => True

instance (ev : snd_seq_event_t) : Decidable (payload_in_range ev) := by
  unfold payload_in_range; split <;> infer_instance

/-- Two channel-voice events have the same kind, the same channel and the same payload fields:
note and velocity for the note kinds, param and value for a controller change, value for
program change, channel pressure and pitch bend. -/
def same_voice_event (a b : snd_seq_event_t) : Prop :=
  a.type = b.type ∧ a.channel = b.channel ∧
  match a.type with
  | SND_SEQ_EVENT_NOTEOFF => a.note = b.note ∧ a.velocity = b.velocity
  | SND_SEQ_EVENT_NOTEON => a.note = b.note ∧ a.velocity = b.velocity
  | SND_SEQ_EVENT_KEYPRESS => a.note = b.note ∧ a.velocity = b.velocity
  | SND_SEQ_EVENT_CONTROLLER => a.param = b.param ∧ a.value = b.value
  | SND_SEQ_EVENT_PGMCHANGE => a.value = b.value
  | SND_SEQ_EVENT_CHANPRESS => a.value = b.value
  | SND_SEQ_EVENT_PITCHBEND => a.value = b.value
  | _ => True

instance (a b : snd_seq_event_t) : Decidable (same_voice_event a b) := by
  unfold same_voice_event; split <;> infer_instance

/-- The return codes of a run of `feed`. -/
def return_codes (rs : List (Int × snd_midi_event × snd_seq_event_t)) : List Int :=
  rs.map (fun r => r.1)

/-- Two event structures that differ at most in the kind and in the length framing. -/
def same_but_kind (a b : snd_seq_event_t) : Prop :=
  b = { a with type := b.type, length := b.length }

/-- The chunk an event carries: `data.ext.len` bytes at `data.ext.ptr`. -/
def chunk_of (r : Int × snd_midi_event × snd_seq_event_t) : List Nat :=
  bytes_of r.2.2.ext_ptr r.2.2.ext_len

/-- The number of calls of a run that returned 1. -/
def complete_count : List (Int × snd_midi_event × snd_seq_event_t) → Nat
  | [] => 0
  | r :: rs => if r.1 = 1 then complete_count rs + 1 else complete_count rs

/-- The chunks of the calls of a run that returned 1, one after the other. -/
def emitted_bytes : List (Int × snd_midi_event × snd_seq_event_t) → List Nat
  | [] => []
  | r :: rs => if r.1 = 1 then chunk_of r ++ emitted_bytes rs else emitted_bytes rs

/-- A controller change on channel 2: controller 7, value 100. -/
def controller_7_100 : snd_seq_event_t :=
  { zero_event with type := SND_SEQ_EVENT_CONTROLLER, channel := 2, param := 7, value := 100 }

/-- A controller change on channel 2: controller 10, value 64. -/
def controller_10_64 : snd_seq_event_t :=
  { zero_event with type := SND_SEQ_EVENT_CONTROLLER, channel := 2, param := 10, value := 64 }

/-- The state and the event structure after feeding bytes one at a time to
`snd_midi_event_encode_byte`. -/
def feed_end (dev : snd_midi_event) (ev : snd_seq_event_t) :
    List Int → snd_midi_event × snd_seq_event_t
  | [] => (dev, ev)
  | c :: cs =>
    feed_end (snd_midi_event_encode_byte dev c ev).2.1 (snd_midi_event_encode_byte dev c ev).2.2 cs

/-- The status-table slot of a status byte: the type nibble for 0x80..0xEF, the byte itself for
0xF0..0xFF. -/
def status_slot (s : Nat) : Nat :=
  if s &&& 0xf0 = 0xf0 then 8 + (s - 0xf0) else (s >>> 4) &&& 0x07

/-- The status bytes of the single messages other than SysEx: channel voice 0x80..0xEF, system
common 0xF1, 0xF2, 0xF3, 0xF6, real time 0xF8, 0xFA, 0xFB, 0xFC, 0xFE, 0xFF. -/
def wire_status (s : Nat) : Prop :=
  (0x80 ≤ s ∧ s ≤ 0xEF) ∨ s ∈ [0xF1, 0xF2, 0xF3, 0xF6, 0xF8, 0xFA, 0xFB, 0xFC, 0xFE, 0xFF]

instance (s : Nat) : Decidable (wire_status s) := by
  unfold wire_status; infer_instance

/-- The index of the store `dev->buf[..] = c` a call of `snd_midi_event_encode_byte` performs:
`dev->read` for the rest of a command, 0 for a status byte, 1 for a data byte that opens a
message (after `dev->read = 1`); a real-time byte stores nothing. -/
def encode_byte_store_index (dev : snd_midi_event) (c : Int) : Option Int :=
  let c : Nat := (c % 256).toNat
  if c ≥ MIDI_CMD_COMMON_CLOCK then none
  else if dev.qlen > 0 then some dev.read
  else if c &&& 0x80 ≠ 0 then some 0
  else some 1

/-- The index of the access `status_event[..]` a call of `snd_midi_event_encode_byte` performs:
`ST_SPECIAL + c - 0xf0` for a real-time byte, `dev->type` after the accumulation step
otherwise. -/
def encode_byte_table_index (dev : snd_midi_event) (c : Int) : Int :=
  let c : Nat := (c % 256).toNat
  if c ≥ MIDI_CMD_COMMON_CLOCK then ((ST_SPECIAL + c - 0xf0 : Nat) : Int)
  else (encode_byte_accumulate dev c).type

/-- The invariant of the accumulation state for a capacity of at least 3: either a SysEx
message is open (`qlen` stays 1, `read` below the capacity), or a fixed-length slot is current
and `read`, `qlen` stay within the three bytes of the longest message. -/
def encode_inv (s : snd_midi_event) : Prop :=
  3 ≤ s.bufsize ∧ 0 ≤ s.read ∧
  ((s.type = 8 ∧ s.qlen = 1 ∧ s.read < s.bufsize) ∨
   (((0 ≤ s.type ∧ s.type ≤ 6) ∨ (9 ≤ s.type ∧ s.type ≤ 15)) ∧ s.read ≤ 3 ∧
     -1 ≤ s.qlen ∧ s.qlen ≤ 2 ∧ (0 < s.qlen → 1 ≤ s.read ∧ s.read + s.qlen ≤ 3)))

/-- The invariant of the pending length for every capacity. -/
def qlen_inv (s : snd_midi_event) : Prop :=
  status_index_ok s.type ∧ -1 ≤ s.qlen ∧ s.qlen ≤ 2 ∧
  (s.qlen = -1 → (status_event_at s.type).qlen = 0)

/-! ## Memory and table lemmas -/

theorem store_apply (m : Mem) (i : Int) (v : Nat) (j : Int) :
    store m i v j = if j = i then v else m j := rfl

theorem memcpy_apply (dst src : Mem) (n j : Int) :
    memcpy dst src n j = if 0 ≤ j ∧ j < n then src j else dst j := rfl

theorem find_status_event_sound (k : snd_seq_event_type_t) (t : Nat)
    (h : find_status_event k = some t) : t < 24 ∧ (status_event_at t).event = k := by
  cases k <;> first
    | (have h2 : some _ = some t := h
       cases h2
       exact ⟨by decide, rfl⟩)
    | (exfalso; revert h; simp [find_status_event, status_event, find_event_from])

theorem decode_of_found (dev : snd_midi_event) (buf : Mem) (count : Int) (ev : snd_seq_event_t)
    (t : Nat) (hn : ev.type ≠ SND_SEQ_EVENT_NONE) (h : find_status_event ev.type = some t) :
    snd_midi_event_decode dev buf count ev = decode_found dev buf count ev t := by
  simp [snd_midi_event_decode, hn, h]

theorem voice_cmd_bits : ∀ t : Fin 7, ∀ a : Fin 16,
    0x80 ≤ (0x80 ||| (t.val <<< 4) ||| a.val) ∧
    (0x80 ||| (t.val <<< 4) ||| a.val) < 0xf0 ∧
    (0x80 ||| (t.val <<< 4) ||| a.val) &&& 0x80 ≠ 0 ∧
    (0x80 ||| (t.val <<< 4) ||| a.val) &&& 0xf0 ≠ 0xf0 ∧
    ((0x80 ||| (t.val <<< 4) ||| a.val) >>> 4) &&& 0x07 = t.val ∧
    (0x80 ||| (t.val <<< 4) ||| a.val) &&& 0x0f = a.val := by decide

theorem and_0f_lt (x : Nat) : x &&& 0x0f < 16 := by
  have := @Nat.and_le_right x 0x0f
  omega

theorem decode_cmd_voice (t : Nat) (ev : snd_seq_event_t) (ht : t < 7) :
    0x80 ≤ decode_cmd t ev ∧ decode_cmd t ev < 0xf0 ∧ decode_cmd t ev &&& 0x80 ≠ 0 ∧
    decode_cmd t ev &&& 0xf0 ≠ 0xf0 ∧ (decode_cmd t ev >>> 4) &&& 0x07 = t ∧
    decode_cmd t ev &&& 0x0f = ev.channel &&& 0x0f := by
  have h := voice_cmd_bits ⟨t, ht⟩ ⟨ev.channel &&& 0x0f, and_0f_lt _⟩
  have h8 : ¬ (t ≥ ST_SPECIAL) := by simp [ST_SPECIAL]; omega
  simpa [decode_cmd, h8] using h

theorem decode_cmd_special (t : Nat) (ev : snd_seq_event_t) (ht : 8 ≤ t) :
    decode_cmd t ev = 0xf0 + (t - 8) := by
  simp [decode_cmd, ST_SPECIAL, ht]

/-- The status byte of a found event other than SysEx is not 0xf0. -/
theorem decode_cmd_ne_sysex (t : Nat) (ev : snd_seq_event_t)
    (h : find_status_event ev.type = some t) (hn : ev.type ≠ SND_SEQ_EVENT_NONE)
    (hs : ev.type ≠ SND_SEQ_EVENT_SYSEX) : decode_cmd t ev ≠ MIDI_CMD_COMMON_SYSEX := by
  obtain ⟨h24, hev⟩ := find_status_event_sound _ _ h
  by_cases h7 : t < 7
  · have := (decode_cmd_voice t ev h7).2.1
    simp [MIDI_CMD_COMMON_SYSEX]; omega
  · have h8 : 8 ≤ t := by
      rcases Nat.lt_or_ge t 8 with h' | h'
      · have : t = 7 := by omega
        subst this
        exact absurd hev.symm hn
      · exact h'
    rw [decode_cmd_special t ev h8]
    intro hc
    have : t = 8 := by simp [MIDI_CMD_COMMON_SYSEX] at hc; omega
    subst this
    exact hs hev.symm

theorem channel_voice_slot (k : snd_seq_event_type_t) (t : Nat)
    (hk : k ∈ channel_voice_kinds) (h : find_status_event k = some t) : t < 7 := by
  simp only [channel_voice_kinds, List.mem_cons, List.mem_singleton, List.not_mem_nil,
    or_false] at hk
  rcases hk with hk | hk | hk | hk | hk | hk | hk <;> subst hk <;>
    (have h2 : some _ = some t := h
     cases h2
     decide)

theorem channel_voice_found (k : snd_seq_event_type_t) (hk : k ∈ channel_voice_kinds) :
    ∃ t, t < 7 ∧ find_status_event k = some t ∧ k ≠ SND_SEQ_EVENT_NONE ∧
      k ≠ SND_SEQ_EVENT_SYSEX := by
  simp only [channel_voice_kinds, List.mem_cons, List.mem_singleton, List.not_mem_nil,
    or_false] at hk
  rcases hk with hk | hk | hk | hk | hk | hk | hk <;> subst hk
  · exact ⟨0, by decide, rfl, by decide, by decide⟩
  · exact ⟨1, by decide, rfl, by decide, by decide⟩
  · exact ⟨2, by decide, rfl, by decide, by decide⟩
  · exact ⟨3, by decide, rfl, by decide, by decide⟩
  · exact ⟨4, by decide, rfl, by decide, by decide⟩
  · exact ⟨5, by decide, rfl, by decide, by decide⟩
  · exact ⟨6, by decide, rfl, by decide, by decide⟩

/-- After decoding a status-table event other than SysEx, `lastcmd` is its status byte,
whatever the capacity was. -/
theorem decode_found_lastcmd (dev : snd_midi_event) (buf : Mem) (count : Int)
    (ev : snd_seq_event_t) (t : Nat) (hc : decode_cmd t ev ≠ MIDI_CMD_COMMON_SYSEX) :
    (decode_found dev buf count ev t).2.1.lastcmd = decode_cmd t ev := by
  unfold decode_found
  simp only [hc, if_false]
  split_ifs with h1 h2 h3
  · rfl
  · rfl
  · simp only [not_or, ne_eq, not_not] at h1; exact h1.2
  · simp only [not_or, ne_eq, not_not] at h1; exact h1.2

/-- The scratch buffer `xbuf` after the decode routine of slot `type` ran at offset `off`. -/
theorem decode_found_status_eq (dev : snd_midi_event) (buf : Mem) (count : Int)
    (ev : snd_seq_event_t) (t : Nat) (hc : decode_cmd t ev ≠ MIDI_CMD_COMMON_SYSEX)
    (hl : decode_cmd t ev &&& 0xf0 = 0xf0 ∨ dev.lastcmd ≠ decode_cmd t ev)
    (hcount : (status_event_at t).qlen + 1 ≤ count) :
    decode_found dev buf count ev t =
      ((status_event_at t).qlen + 1, { dev with lastcmd := decode_cmd t ev },
        memcpy buf (match (status_event_at t).decode with
          | some decode => decode ev (store (fun _ => 0) 0 (decode_cmd t ev)) 1
          | none => store (fun _ => 0) 0 (decode_cmd t ev)) ((status_event_at t).qlen + 1)) := by
  have hcn : ¬ count < (status_event_at t).qlen + 1 := by omega
  unfold decode_found
  dsimp only
  rw [if_neg hc, if_pos hl, if_neg hcn]

theorem decode_found_running_eq (dev : snd_midi_event) (buf : Mem) (count : Int)
    (ev : snd_seq_event_t) (t : Nat) (hc : decode_cmd t ev ≠ MIDI_CMD_COMMON_SYSEX)
    (hl : ¬ (decode_cmd t ev &&& 0xf0 = 0xf0 ∨ dev.lastcmd ≠ decode_cmd t ev))
    (hcount : (status_event_at t).qlen ≤ count) :
    decode_found dev buf count ev t =
      ((status_event_at t).qlen, dev,
        memcpy buf (match (status_event_at t).decode with
          | some decode => decode ev (fun _ => 0) 0
          | none => fun _ => 0) (status_event_at t).qlen) := by
  have hcn : ¬ count < (status_event_at t).qlen := by omega
  unfold decode_found
  dsimp only
  rw [if_neg hc, if_neg hl, if_neg hcn]

theorem bytes_of_memcpy (dst src : Mem) (n : Int) :
    bytes_of (memcpy dst src n) n = bytes_of src n := by
  unfold bytes_of
  apply List.map_congr_left
  intro i hi
  have h1 : ((i : Nat) : Int) < n := by
    have := List.mem_range.mp hi
    omega
  simp [memcpy_apply, h1]

theorem status_event_at_0 : status_event_at 0 =
    ⟨SND_SEQ_EVENT_NOTEOFF, 2, some note_event, some note_decode⟩ := rfl

theorem status_event_at_1 : status_event_at 1 =
    ⟨SND_SEQ_EVENT_NOTEON, 2, some note_event, some note_decode⟩ := rfl

theorem status_event_at_2 : status_event_at 2 =
    ⟨SND_SEQ_EVENT_KEYPRESS, 2, some note_event, some note_decode⟩ := rfl

theorem status_event_at_3 : status_event_at 3 =
    ⟨SND_SEQ_EVENT_CONTROLLER, 2, some two_param_ctrl_event, some two_param_decode⟩ := rfl

theorem status_event_at_4 : status_event_at 4 =
    ⟨SND_SEQ_EVENT_PGMCHANGE, 1, some one_param_ctrl_event, some one_param_decode⟩ := rfl

theorem status_event_at_5 : status_event_at 5 =
    ⟨SND_SEQ_EVENT_CHANPRESS, 1, some one_param_ctrl_event, some one_param_decode⟩ := rfl

theorem status_event_at_6 : status_event_at 6 =
    ⟨SND_SEQ_EVENT_PITCHBEND, 2, some pitchbend_ctrl_event, some pitchbend_decode⟩ := rfl

theorem status_event_at_8 : status_event_at 8 = ⟨SND_SEQ_EVENT_SYSEX, 1, none, none⟩ := rfl

theorem bytes_of_1 (m : Mem) : bytes_of m 1 = [m 0] := rfl

theorem bytes_of_2 (m : Mem) : bytes_of m 2 = [m 0, m 1] := rfl

theorem bytes_of_3 (m : Mem) : bytes_of m 3 = [m 0, m 1, m 2] := rfl

theorem payload_bytes_at_one (t : Nat) (ev : snd_seq_event_t) (cmd : Nat) (ht : t < 7) :
    bytes_of (match (status_event_at t).decode with
          | some decode => decode ev (store (fun _ => 0) 0 cmd) 1
          | none => store (fun _ => 0) 0 cmd) ((status_event_at t).qlen + 1) =
      cmd :: payload_bytes t ev := by
  interval_cases t <;>
    simp only [Nat.cast_ofNat, Nat.cast_zero, Nat.cast_one, status_event_at_0, status_event_at_1,
      status_event_at_2, status_event_at_3, status_event_at_4, status_event_at_5,
      status_event_at_6, payload_bytes] <;>
    norm_num only <;>
    simp only [bytes_of_1, bytes_of_2, bytes_of_3, note_decode, two_param_decode,
      one_param_decode, pitchbend_decode, store_apply] <;>
    norm_num

theorem payload_bytes_at_zero (t : Nat) (ev : snd_seq_event_t) (ht : t < 7) :
    bytes_of (match (status_event_at t).decode with
          | some decode => decode ev (fun _ => 0) 0
          | none => fun _ => 0) (status_event_at t).qlen = payload_bytes t ev := by
  interval_cases t <;>
    simp only [Nat.cast_ofNat, Nat.cast_zero, Nat.cast_one, status_event_at_0, status_event_at_1,
      status_event_at_2, status_event_at_3, status_event_at_4, status_event_at_5,
      status_event_at_6, payload_bytes]

/-- A channel-voice event decoded on a state whose `lastcmd` is another byte: status byte and
data bytes. -/
theorem decode_voice_status (dev : snd_midi_event) (buf : Mem) (count : Int)
    (ev : snd_seq_event_t) (t : Nat) (hf : find_status_event ev.type = some t) (ht : t < 7)
    (hl : dev.lastcmd ≠ decode_cmd t ev) (hcount : (status_event_at t).qlen + 1 ≤ count) :
    (snd_midi_event_decode dev buf count ev).1 = (status_event_at t).qlen + 1 ∧
    (snd_midi_event_decode dev buf count ev).2.1 = { dev with lastcmd := decode_cmd t ev } ∧
    bytes_of (snd_midi_event_decode dev buf count ev).2.2 ((status_event_at t).qlen + 1) =
      decode_cmd t ev :: payload_bytes t ev := by
  have hv := decode_cmd_voice t ev ht
  have hc : decode_cmd t ev ≠ MIDI_CMD_COMMON_SYSEX := by
    simp [MIDI_CMD_COMMON_SYSEX]; omega
  have hn : ev.type ≠ SND_SEQ_EVENT_NONE := by
    intro h
    rw [h] at hf
    have h2 : some 7 = some t := hf
    cases h2
    omega
  rw [decode_of_found dev buf count ev t hn hf,
    decode_found_status_eq dev buf count ev t hc (Or.inr hl) hcount]
  refine ⟨rfl, rfl, ?_⟩
  simp only [bytes_of_memcpy]
  exact payload_bytes_at_one t ev _ ht

/-- A channel-voice event decoded on a state whose `lastcmd` is its status byte: data bytes
only. -/
theorem decode_voice_running (dev : snd_midi_event) (buf : Mem) (count : Int)
    (ev : snd_seq_event_t) (t : Nat) (hf : find_status_event ev.type = some t) (ht : t < 7)
    (hl : dev.lastcmd = decode_cmd t ev) (hcount : (status_event_at t).qlen ≤ count) :
    (snd_midi_event_decode dev buf count ev).1 = (status_event_at t).qlen ∧
    (snd_midi_event_decode dev buf count ev).2.1 = dev ∧
    bytes_of (snd_midi_event_decode dev buf count ev).2.2 (status_event_at t).qlen =
      payload_bytes t ev := by
  have hv := decode_cmd_voice t ev ht
  have hc : decode_cmd t ev ≠ MIDI_CMD_COMMON_SYSEX := by
    simp [MIDI_CMD_COMMON_SYSEX]; omega
  have hn : ev.type ≠ SND_SEQ_EVENT_NONE := by
    intro h
    rw [h] at hf
    have h2 : some 7 = some t := hf
    cases h2
    omega
  have hl2 : ¬ (decode_cmd t ev &&& 0xf0 = 0xf0 ∨ dev.lastcmd ≠ decode_cmd t ev) := by
    intro h
    rcases h with h | h
    · exact hv.2.2.2.1 h
    · exact h hl
  rw [decode_of_found dev buf count ev t hn hf,
    decode_found_running_eq dev buf count ev t hc hl2 hcount]
  refine ⟨rfl, rfl, ?_⟩
  simp only [bytes_of_memcpy]
  exact payload_bytes_at_zero t ev ht

/-- The status bytes of two status-table events (the second a channel-voice one) are equal
exactly when the kinds are equal and the channels agree in their low four bits. -/
theorem decode_cmd_eq_iff (A B : snd_seq_event_t) (tA tB : Nat)
    (hA : find_status_event A.type = some tA) (hAn : A.type ≠ SND_SEQ_EVENT_NONE)
    (hB : find_status_event B.type = some tB) (hBv : tB < 7) :
    decode_cmd tA A = decode_cmd tB B ↔
      (A.type = B.type ∧ A.channel &&& 0x0F = B.channel &&& 0x0F) := by
  obtain ⟨hA24, hAe⟩ := find_status_event_sound _ _ hA
  obtain ⟨hB24, hBe⟩ := find_status_event_sound _ _ hB
  have hvB := decode_cmd_voice tB B hBv
  constructor
  · intro h
    have hA7 : tA < 7 := by
      by_contra hge
      have h8 : 8 ≤ tA := by
        rcases Nat.lt_or_ge tA 8 with h' | h'
        · have : tA = 7 := by omega
          subst this
          exact absurd hAe.symm hAn
        · exact h'
      rw [decode_cmd_special tA A h8] at h
      omega
    have hvA := decode_cmd_voice tA A hA7
    have ht : tA = tB := by
      rw [← hvA.2.2.2.2.1, ← hvB.2.2.2.2.1, h]
    refine ⟨?_, ?_⟩
    · rw [← hAe, ← hBe, ht]
    · rw [← hvA.2.2.2.2.2, ← hvB.2.2.2.2.2, h]
  · rintro ⟨hk, hch⟩
    have ht : tA = tB := by
      rw [hk, hB] at hA
      exact (Option.some.inj hA).symm
    subst ht
    have h8 : ¬ (tA ≥ ST_SPECIAL) := by simp [ST_SPECIAL]; omega
    simp only [decode_cmd, h8, if_false, hch]

theorem decode_lastcmd (dev : snd_midi_event) (buf : Mem) (count : Int)
    (ev : snd_seq_event_t) (t : Nat) (hf : find_status_event ev.type = some t)
    (hn : ev.type ≠ SND_SEQ_EVENT_NONE) (hs : ev.type ≠ SND_SEQ_EVENT_SYSEX) :
    (snd_midi_event_decode dev buf count ev).2.1.lastcmd = decode_cmd t ev := by
  rw [decode_of_found dev buf count ev t hn hf]
  exact decode_found_lastcmd dev buf count ev t (decode_cmd_ne_sysex t ev hf hn hs)

theorem decode_cmd_voice_eq (t : Nat) (ev : snd_seq_event_t) (ht : t < 7) :
    decode_cmd t ev = 0x80 ||| (t <<< 4) ||| (ev.channel &&& 0x0F) := by
  have h8 : ¬ (t ≥ ST_SPECIAL) := by simp [ST_SPECIAL]; omega
  simp only [decode_cmd, h8, if_false]

theorem byte_cast (c : Nat) (h : c < 256) : ((c : Int) % 256).toNat = c := by omega

/-- A byte below 0xf8: the coder runs the accumulation step and then looks at `qlen`. -/
theorem encode_byte_below_f8 (dev : snd_midi_event) (c : Nat) (ev : snd_seq_event_t)
    (hc : c < 0xf8) :
    snd_midi_event_encode_byte dev (c : Int) ev =
      if (encode_byte_accumulate dev c).qlen = 0 then
        (1, encode_byte_accumulate dev c, fixed_event (encode_byte_accumulate dev c) ev)
      else if (encode_byte_accumulate dev c).type = (ST_SYSEX : Int) then
        if c = MIDI_CMD_COMMON_SYSEX_END ∨
            (encode_byte_accumulate dev c).read ≥ (encode_byte_accumulate dev c).bufsize then
          if c ≠ MIDI_CMD_COMMON_SYSEX_END then
            (1, { encode_byte_accumulate dev c with read := 0 },
              { ev with length := SND_SEQ_EVENT_LENGTH_VARIABLE,
                        ext_len := (encode_byte_accumulate dev c).read,
                        ext_ptr := (encode_byte_accumulate dev c).buf })
          else
            (1, reset_encode (encode_byte_accumulate dev c),
              { ev with length := SND_SEQ_EVENT_LENGTH_VARIABLE,
                        ext_len := (encode_byte_accumulate dev c).read,
                        ext_ptr := (encode_byte_accumulate dev c).buf })
        else (0, encode_byte_accumulate dev c, ev)
      else (0, encode_byte_accumulate dev c, ev) := by
  have h1 : ((c : Int) % 256).toNat = c := byte_cast c (by omega)
  have h2 : ¬ (c ≥ MIDI_CMD_COMMON_CLOCK) := by simp [MIDI_CMD_COMMON_CLOCK]; omega
  unfold snd_midi_event_encode_byte
  simp only [h1, h2, if_false, fixed_event]
  split_ifs <;> first | rfl | (split <;> simp only [*])

/-- Accumulation step for a channel-voice status byte when no message is pending. -/
theorem accumulate_voice_status (dev : snd_midi_event) (c t : Nat) (hq : dev.qlen ≤ 0)
    (h80 : c &&& 0x80 ≠ 0) (hf0 : c &&& 0xf0 ≠ 0xf0) (ht : (c >>> 4) &&& 0x07 = t) :
    encode_byte_accumulate dev c =
      { dev with read := 1, buf := store dev.buf 0 c, type := (t : Int),
                 qlen := (status_event_at (t : Int)).qlen } := by
  have hq2 : ¬ dev.qlen > 0 := by omega
  unfold encode_byte_accumulate
  simp only [hq2, if_false, h80, ne_eq, not_false_eq_true, if_true, hf0, ht]

/-- Accumulation step for a byte continuing a pending message that is not a SysEx. -/
theorem accumulate_rest (dev : snd_midi_event) (c : Nat) (hq : dev.qlen > 0)
    (ht : dev.type ≠ (ST_SYSEX : Int)) :
    encode_byte_accumulate dev c =
      { dev with buf := store dev.buf dev.read c, read := dev.read + 1,
                 qlen := dev.qlen - 1 } := by
  unfold encode_byte_accumulate
  simp only [hq, if_true, ne_eq, ht, not_false_eq_true]

/-- Accumulation step for a byte continuing a pending SysEx. -/
theorem accumulate_sysex (dev : snd_midi_event) (c : Nat) (hq : dev.qlen > 0)
    (ht : dev.type = (ST_SYSEX : Int)) :
    encode_byte_accumulate dev c =
      { dev with buf := store dev.buf dev.read c, read := dev.read + 1 } := by
  unfold encode_byte_accumulate
  simp only [hq, if_true, ne_eq, ht, not_true_eq_false, if_false]

/-- Accumulation step for a data byte when no message is pending (running status of the
incoming stream). -/
theorem accumulate_running (dev : snd_midi_event) (c : Nat) (hq : dev.qlen ≤ 0)
    (h80 : c &&& 0x80 = 0) :
    encode_byte_accumulate dev c =
      { dev with read := 2, buf := store dev.buf 1 c,
                 qlen := (status_event_at dev.type).qlen - 1 } := by
  have hq2 : ¬ dev.qlen > 0 := by omega
  unfold encode_byte_accumulate
  simp only [hq2, if_false, h80, ne_eq, not_true_eq_false]
  rfl

theorem data_byte_and_80 (c : Nat) (h : c < 0x80) : c &&& 0x80 = 0 := by
  interval_cases c <;> rfl

theorem and_7f_of_lt (c : Nat) (h : c < 128) : c &&& 0x7f = c := by
  have := Nat.and_pow_two_sub_one_eq_mod c 7
  simp only [Nat.reducePow, Nat.add_one_sub_one] at this
  rw [this]
  omega

theorem and_7f_lt (c : Nat) : c &&& 0x7f < 128 := by
  have := @Nat.and_le_right c 0x7f
  omega

theorem and7f_lt (x : Int) : and7f x < 128 := by
  unfold and7f
  omega

theorem and7f_of_range (x : Int) (h0 : 0 ≤ x) (h1 : x < 128) : ((and7f x : Nat) : Int) = x := by
  unfold and7f
  omega

/-- A channel-voice status byte arriving when no message is pending opens a message. -/
theorem step_voice_status (dev : snd_midi_event) (ev : snd_seq_event_t) (c t : Nat)
    (hq : dev.qlen ≤ 0) (hc : c < 0xf0) (h80 : c &&& 0x80 ≠ 0) (hf0 : c &&& 0xf0 ≠ 0xf0)
    (ht : (c >>> 4) &&& 0x07 = t) (ht7 : t < 7) :
    snd_midi_event_encode_byte dev (c : Int) ev =
      (0, { dev with read := 1, buf := store dev.buf 0 c, type := (t : Int),
                     qlen := (status_event_at (t : Int)).qlen }, ev) := by
  rw [encode_byte_below_f8 dev c ev (by omega), accumulate_voice_status dev c t hq h80 hf0 ht]
  have hq0 : (status_event_at (t : Int)).qlen ≠ 0 := by
    interval_cases t <;> decide
  have ht8 : (t : Int) ≠ (ST_SYSEX : Int) := by
    simp only [ST_SYSEX, ST_SPECIAL]; omega
  simp only [hq0, if_false, ht8]

/-- A byte continuing a pending message that needs more bytes after it. -/
theorem step_rest_more (dev : snd_midi_event) (ev : snd_seq_event_t) (c : Nat)
    (hq : dev.qlen > 1) (ht : dev.type ≠ (ST_SYSEX : Int)) (hc : c < 0xf8) :
    snd_midi_event_encode_byte dev (c : Int) ev =
      (0, { dev with buf := store dev.buf dev.read c, read := dev.read + 1,
                     qlen := dev.qlen - 1 }, ev) := by
  rw [encode_byte_below_f8 dev c ev hc, accumulate_rest dev c (by omega) ht]
  have hq0 : dev.qlen - 1 ≠ 0 := by omega
  simp only [hq0, if_false, ht]

/-- The last byte of a pending message completes it. -/
theorem step_rest_last (dev : snd_midi_event) (ev : snd_seq_event_t) (c : Nat)
    (hq : dev.qlen = 1) (ht : dev.type ≠ (ST_SYSEX : Int)) (hc : c < 0xf8) :
    snd_midi_event_encode_byte dev (c : Int) ev =
      (1, { dev with buf := store dev.buf dev.read c, read := dev.read + 1, qlen := 0 },
        fixed_event { dev with buf := store dev.buf dev.read c, read := dev.read + 1,
                               qlen := 0 } ev) := by
  rw [encode_byte_below_f8 dev c ev hc, accumulate_rest dev c (by omega) ht]
  have hq0 : dev.qlen - 1 = 0 := by omega
  simp only [hq0, if_true]

/-- A data byte arriving when no message is pending, for a type with two data bytes. -/
theorem step_running_more (dev : snd_midi_event) (ev : snd_seq_event_t) (c : Nat)
    (hq : dev.qlen ≤ 0) (hc : c < 0x80) (h2 : (status_event_at dev.type).qlen = 2)
    (ht : dev.type ≠ (ST_SYSEX : Int)) :
    snd_midi_event_encode_byte dev (c : Int) ev =
      (0, { dev with read := 2, buf := store dev.buf 1 c, qlen := 1 }, ev) := by
  rw [encode_byte_below_f8 dev c ev (by omega),
    accumulate_running dev c hq (data_byte_and_80 c hc), h2]
  simp only [ht, if_false]
  rfl

/-- A data byte arriving when no message is pending, for a type with one data byte. -/
theorem step_running_last (dev : snd_midi_event) (ev : snd_seq_event_t) (c : Nat)
    (hq : dev.qlen ≤ 0) (hc : c < 0x80) (h1 : (status_event_at dev.type).qlen = 1) :
    snd_midi_event_encode_byte dev (c : Int) ev =
      (1, { dev with read := 2, buf := store dev.buf 1 c, qlen := 0 },
        fixed_event { dev with read := 2, buf := store dev.buf 1 c, qlen := 0 } ev) := by
  rw [encode_byte_below_f8 dev c ev (by omega),
    accumulate_running dev c hq (data_byte_and_80 c hc), h1]
  rfl

/-- A complete message with two data bytes, status byte included, fed when no message is
pending. -/
theorem feed_voice_two (dev : snd_midi_event) (ev : snd_seq_event_t) (c t d1 d2 : Nat)
    (rest : List Int) (hq : dev.qlen ≤ 0) (hc : c < 0xf0) (h80 : c &&& 0x80 ≠ 0)
    (hf0 : c &&& 0xf0 ≠ 0xf0) (ht : (c >>> 4) &&& 0x07 = t) (ht7 : t < 7)
    (h2 : (status_event_at (t : Int)).qlen = 2) (hd1 : d1 < 0x80) (hd2 : d2 < 0x80) :
    feed dev ev ((c : Int) :: (d1 : Int) :: (d2 : Int) :: rest) =
      (0, { dev with read := 1, buf := store dev.buf 0 c, type := (t : Int), qlen := 2 }, ev) ::
      (0, { dev with read := 2, buf := store (store dev.buf 0 c) 1 d1, type := (t : Int),
                     qlen := 1 }, ev) ::
      (1, { dev with read := 3, buf := store (store (store dev.buf 0 c) 1 d1) 2 d2,
                     type := (t : Int), qlen := 0 },
          fixed_event { dev with read := 3, buf := store (store (store dev.buf 0 c) 1 d1) 2 d2,
                                 type := (t : Int), qlen := 0 } ev) ::
      feed { dev with read := 3, buf := store (store (store dev.buf 0 c) 1 d1) 2 d2,
                      type := (t : Int), qlen := 0 }
        (fixed_event { dev with read := 3, buf := store (store (store dev.buf 0 c) 1 d1) 2 d2,
                                type := (t : Int), qlen := 0 } ev) rest := by
  have ht8 : (t : Int) ≠ (ST_SYSEX : Int) := by
    simp only [ST_SYSEX, ST_SPECIAL]; omega
  simp only [feed]
  rw [step_voice_status dev ev c t hq hc h80 hf0 ht ht7]
  simp only [h2]
  rw [step_rest_more _ ev d1 (by simp) (by simpa using ht8) (by omega)]
  rw [step_rest_last _ ev d2 (by simp) (by simpa using ht8) (by omega)]
  simp

/-- A complete message with one data byte, status byte included, fed when no message is
pending. -/
theorem feed_voice_one (dev : snd_midi_event) (ev : snd_seq_event_t) (c t d1 : Nat)
    (rest : List Int) (hq : dev.qlen ≤ 0) (hc : c < 0xf0) (h80 : c &&& 0x80 ≠ 0)
    (hf0 : c &&& 0xf0 ≠ 0xf0) (ht : (c >>> 4) &&& 0x07 = t) (ht7 : t < 7)
    (h1 : (status_event_at (t : Int)).qlen = 1) (hd1 : d1 < 0x80) :
    feed dev ev ((c : Int) :: (d1 : Int) :: rest) =
      (0, { dev with read := 1, buf := store dev.buf 0 c, type := (t : Int), qlen := 1 }, ev) ::
      (1, { dev with read := 2, buf := store (store dev.buf 0 c) 1 d1, type := (t : Int),
                     qlen := 0 },
          fixed_event { dev with read := 2, buf := store (store dev.buf 0 c) 1 d1,
                                 type := (t : Int), qlen := 0 } ev) ::
      feed { dev with read := 2, buf := store (store dev.buf 0 c) 1 d1, type := (t : Int),
                      qlen := 0 }
        (fixed_event { dev with read := 2, buf := store (store dev.buf 0 c) 1 d1,
                                type := (t : Int), qlen := 0 } ev) rest := by
  have ht8 : (t : Int) ≠ (ST_SYSEX : Int) := by
    simp only [ST_SYSEX, ST_SPECIAL]; omega
  simp only [feed]
  rw [step_voice_status dev ev c t hq hc h80 hf0 ht ht7]
  simp only [h1]
  rw [step_rest_last _ ev d1 (by simp) (by simpa using ht8) (by omega)]
  simp

/-- Two data bytes without a status byte, fed when no message is pending and the last status
was of a type with two data bytes. -/
theorem feed_running_two (dev : snd_midi_event) (ev : snd_seq_event_t) (d1 d2 : Nat)
    (rest : List Int) (hq : dev.qlen ≤ 0) (h2 : (status_event_at dev.type).qlen = 2)
    (ht8 : dev.type ≠ (ST_SYSEX : Int)) (hd1 : d1 < 0x80) (hd2 : d2 < 0x80) :
    feed dev ev ((d1 : Int) :: (d2 : Int) :: rest) =
      (0, { dev with read := 2, buf := store dev.buf 1 d1, qlen := 1 }, ev) ::
      (1, { dev with read := 3, buf := store (store dev.buf 1 d1) 2 d2, qlen := 0 },
          fixed_event { dev with read := 3, buf := store (store dev.buf 1 d1) 2 d2,
                                 qlen := 0 } ev) ::
      feed { dev with read := 3, buf := store (store dev.buf 1 d1) 2 d2, qlen := 0 }
        (fixed_event { dev with read := 3, buf := store (store dev.buf 1 d1) 2 d2,
                                qlen := 0 } ev) rest := by
  simp only [feed]
  rw [step_running_more dev ev d1 hq hd1 h2 ht8]
  rw [step_rest_last _ ev d2 (by simp) (by simpa using ht8) (by omega)]
  simp

/-- One data byte without a status byte, fed when no message is pending and the last status
was of a type with one data byte. -/
theorem feed_running_one (dev : snd_midi_event) (ev : snd_seq_event_t) (d1 : Nat)
    (rest : List Int) (hq : dev.qlen ≤ 0) (h1 : (status_event_at dev.type).qlen = 1)
    (hd1 : d1 < 0x80) :
    feed dev ev ((d1 : Int) :: rest) =
      (1, { dev with read := 2, buf := store dev.buf 1 d1, qlen := 0 },
          fixed_event { dev with read := 2, buf := store dev.buf 1 d1, qlen := 0 } ev) ::
      feed { dev with read := 2, buf := store dev.buf 1 d1, qlen := 0 }
        (fixed_event { dev with read := 2, buf := store dev.buf 1 d1, qlen := 0 } ev) rest := by
  simp only [feed]
  rw [step_running_last dev ev d1 hq hd1 h1]

theorem payload_bytes_note (t : Nat) (ev : snd_seq_event_t) (ht : t < 3) :
    payload_bytes t ev = [ev.note &&& 0x7f, ev.velocity &&& 0x7f] := by
  interval_cases t <;>
    simp [payload_bytes, status_event_at_0, status_event_at_1, status_event_at_2, bytes_of_2,
      note_decode, store_apply]

theorem payload_bytes_controller (ev : snd_seq_event_t) :
    payload_bytes 3 ev = [ev.param &&& 0x7f, and7f ev.value] := by
  simp [payload_bytes, status_event_at_3, bytes_of_2, two_param_decode, store_apply]

theorem payload_bytes_one_param (t : Nat) (ev : snd_seq_event_t) (h4 : 4 ≤ t) (h5 : t ≤ 5) :
    payload_bytes t ev = [and7f ev.value] := by
  interval_cases t <;>
    simp [payload_bytes, status_event_at_4, status_event_at_5, bytes_of_1,
      one_param_decode, store_apply]

theorem payload_bytes_pitchbend (ev : snd_seq_event_t) :
    payload_bytes 6 ev = [and7f (ev.value + 8192), and7f ((ev.value + 8192) >>> (7 : Nat))] := by
  simp [payload_bytes, status_event_at_6, bytes_of_2, pitchbend_decode, store_apply]

/-- The pitch-bend bytes of a value in -8192..8191 give the value back. -/
theorem pitchbend_bytes_value (v : Int) (h0 : -8192 ≤ v) (h1 : v ≤ 8191) :
    ((and7f ((v + 8192) >>> (7 : Nat)) : Nat) : Int) * 128 + ((and7f (v + 8192) : Nat) : Int) - 8192
      = v := by
  rw [Int.shiftRight_eq_div_pow]
  unfold and7f
  norm_num
  omega

/-- The message of a channel-voice event with in-range fields, as the decoder emits it after
the status byte, and what the coder makes of these bytes after the status byte `c`. -/
theorem voice_payload_roundtrip (e : snd_seq_event_t) (t : Nat)
    (hf : find_status_event e.type = some t) (ht7 : t < 7) (hch : e.channel < 16)
    (hr : payload_in_range e) :
    ((status_event_at (t : Int)).qlen = 2 ∧
      ∃ d1 d2, d1 < 0x80 ∧ d2 < 0x80 ∧ payload_bytes t e = [d1, d2] ∧
        ∀ (dev : snd_midi_event) (ev : snd_seq_event_t) (m : Mem),
          dev.type = (t : Int) → dev.buf = store (store m 1 d1) 2 d2 →
          m 0 = decode_cmd t e →
          (fixed_event dev ev).length = SND_SEQ_EVENT_LENGTH_FIXED ∧
          same_voice_event e (fixed_event dev ev)) ∨
    ((status_event_at (t : Int)).qlen = 1 ∧
      ∃ d1, d1 < 0x80 ∧ payload_bytes t e = [d1] ∧
        ∀ (dev : snd_midi_event) (ev : snd_seq_event_t) (m : Mem),
          dev.type = (t : Int) → dev.buf = store m 1 d1 →
          m 0 = decode_cmd t e →
          (fixed_event dev ev).length = SND_SEQ_EVENT_LENGTH_FIXED ∧
          same_voice_event e (fixed_event dev ev)) := by
  have hty : (status_event_at (t : Int)).event = e.type := (find_status_event_sound _ _ hf).2
  have hv := decode_cmd_voice t e ht7
  have hchan : decode_cmd t e &&& 0x0f = e.channel := by
    rw [hv.2.2.2.2.2]
    interval_cases h : e.channel <;> rfl
  interval_cases t
  · left
    simp only [Nat.cast_zero, status_event_at_0] at hty
    simp only [payload_in_range, ← hty] at hr
    refine ⟨rfl, e.note, e.velocity, hr.1, hr.2, ?_, ?_⟩
    · rw [payload_bytes_note 0 e (by decide), and_7f_of_lt _ hr.1, and_7f_of_lt _ hr.2]
    · intro dev ev m hdt hdb hm
      simp [fixed_event, hdt, hdb, status_event_at_0, note_event, store_apply, same_voice_event,
        ← hty, hm, hchan]
  · left
    simp only [Nat.cast_one, status_event_at_1] at hty
    simp only [payload_in_range, ← hty] at hr
    refine ⟨rfl, e.note, e.velocity, hr.1, hr.2, ?_, ?_⟩
    · rw [payload_bytes_note 1 e (by decide), and_7f_of_lt _ hr.1, and_7f_of_lt _ hr.2]
    · intro dev ev m hdt hdb hm
      simp [fixed_event, hdt, hdb, status_event_at_1, note_event, store_apply, same_voice_event,
        ← hty, hm, hchan]
  · left
    simp only [Nat.cast_ofNat, status_event_at_2] at hty
    simp only [payload_in_range, ← hty] at hr
    refine ⟨rfl, e.note, e.velocity, hr.1, hr.2, ?_, ?_⟩
    · rw [payload_bytes_note 2 e (by decide), and_7f_of_lt _ hr.1, and_7f_of_lt _ hr.2]
    · intro dev ev m hdt hdb hm
      simp [fixed_event, hdt, hdb, status_event_at_2, note_event, store_apply, same_voice_event,
        ← hty, hm, hchan]
  · left
    simp only [Nat.cast_ofNat, status_event_at_3] at hty
    simp only [payload_in_range, ← hty] at hr
    refine ⟨rfl, e.param, and7f e.value, hr.1, and7f_lt _, ?_, ?_⟩
    · rw [payload_bytes_controller, and_7f_of_lt _ hr.1]
    · intro dev ev m hdt hdb hm
      have hval := and7f_of_range e.value hr.2.1 hr.2.2
      simp [fixed_event, hdt, hdb, status_event_at_3, two_param_ctrl_event, store_apply,
        same_voice_event, ← hty, hm, hchan, hval]
  · right
    simp only [Nat.cast_ofNat, status_event_at_4] at hty
    simp only [payload_in_range, ← hty] at hr
    refine ⟨rfl, and7f e.value, and7f_lt _, ?_, ?_⟩
    · rw [payload_bytes_one_param 4 e (by decide) (by decide)]
    · intro dev ev m hdt hdb hm
      have hval := and7f_of_range e.value hr.1 hr.2
      simp [fixed_event, hdt, hdb, status_event_at_4, one_param_ctrl_event, store_apply,
        same_voice_event, ← hty, hm, hchan, hval]
  · right
    simp only [Nat.cast_ofNat, status_event_at_5] at hty
    simp only [payload_in_range, ← hty] at hr
    refine ⟨rfl, and7f e.value, and7f_lt _, ?_, ?_⟩
    · rw [payload_bytes_one_param 5 e (by decide) (by decide)]
    · intro dev ev m hdt hdb hm
      have hval := and7f_of_range e.value hr.1 hr.2
      simp [fixed_event, hdt, hdb, status_event_at_5, one_param_ctrl_event, store_apply,
        same_voice_event, ← hty, hm, hchan, hval]
  · left
    simp only [Nat.cast_ofNat, status_event_at_6] at hty
    simp only [payload_in_range, ← hty] at hr
    refine ⟨rfl, and7f (e.value + 8192), and7f ((e.value + 8192) >>> (7 : Nat)), and7f_lt _,
      and7f_lt _, ?_, ?_⟩
    · rw [payload_bytes_pitchbend]
    · intro dev ev m hdt hdb hm
      have hval := pitchbend_bytes_value e.value hr.1 hr.2
      simp [fixed_event, hdt, hdb, status_event_at_6, pitchbend_ctrl_event, store_apply,
        same_voice_event, ← hty, hm, hchan, hval]

theorem same_but_kind_refl (a : snd_seq_event_t) : same_but_kind a a := rfl

theorem same_but_kind_set (a b : snd_seq_event_t) (h : same_but_kind a b)
    (k : snd_seq_event_type_t) (l : snd_seq_event_length_t) :
    ({ b with type := k, length := l } : snd_seq_event_t) = { a with type := k, length := l } := by
  unfold same_but_kind at h
  rw [h]

/-- A real-time byte: the call returns 1, sets kind and framing, and keeps the state. -/
theorem encode_byte_realtime (dev : snd_midi_event) (c : Nat) (ev : snd_seq_event_t)
    (h1 : 0xF8 ≤ c) (h2 : c ≤ 0xFF) :
    snd_midi_event_encode_byte dev (c : Int) ev =
      (1, dev, { ev with type := (status_event_at ((8 + (c - 0xF0) : Nat) : Int)).event,
                         length := SND_SEQ_EVENT_LENGTH_FIXED }) := by
  have hb : ((c : Int) % 256).toNat = c := byte_cast c (by omega)
  have hge : c ≥ MIDI_CMD_COMMON_CLOCK := by simp only [MIDI_CMD_COMMON_CLOCK]; omega
  have hidx : ST_SPECIAL + c - 0xf0 = 8 + (c - 0xF0) := by simp only [ST_SPECIAL]; omega
  unfold snd_midi_event_encode_byte
  simp only [hb, hge, if_true, hidx]

/-- One call on two event structures that differ at most in kind and framing: same return
code, same state, and the same event when a fixed-length message completes. -/
theorem encode_byte_same_but_kind (dev : snd_midi_event) (c : Int) (a b : snd_seq_event_t)
    (h : same_but_kind a b) :
    (snd_midi_event_encode_byte dev c a).1 = (snd_midi_event_encode_byte dev c b).1 ∧
    (snd_midi_event_encode_byte dev c a).2.1 = (snd_midi_event_encode_byte dev c b).2.1 ∧
    same_but_kind (snd_midi_event_encode_byte dev c a).2.2
      (snd_midi_event_encode_byte dev c b).2.2 ∧
    ((snd_midi_event_encode_byte dev c a).1 = 1 →
      (snd_midi_event_encode_byte dev c a).2.2.length = SND_SEQ_EVENT_LENGTH_FIXED →
      (snd_midi_event_encode_byte dev c b).2.2 = (snd_midi_event_encode_byte dev c a).2.2) := by
  have hk : ∀ (k : snd_seq_event_type_t) (l : snd_seq_event_length_t),
      ({ b with type := k, length := l } : snd_seq_event_t) = { a with type := k, length := l } :=
    same_but_kind_set a b h
  have hv : ∀ (l : snd_seq_event_length_t) (n : Int) (p : Mem),
      same_but_kind ({ a with length := l, ext_len := n, ext_ptr := p } : snd_seq_event_t)
        { b with length := l, ext_len := n, ext_ptr := p } := by
    intro l n p
    unfold same_but_kind at h ⊢
    rw [h]
  unfold snd_midi_event_encode_byte
  dsimp only
  split_ifs with h1 h2 h3 h4 h5
  · rw [hk]
    exact ⟨rfl, rfl, same_but_kind_refl _, fun _ _ => rfl⟩
  · rw [hk]
    split <;> exact ⟨rfl, rfl, same_but_kind_refl _, fun _ _ => rfl⟩
  · exact ⟨rfl, rfl, hv _ _ _, fun _ hl => absurd hl (by simp)⟩
  · exact ⟨rfl, rfl, hv _ _ _, fun _ hl => absurd hl (by simp)⟩
  · exact ⟨rfl, rfl, h, fun hrc _ => absurd hrc (by simp)⟩
  · exact ⟨rfl, rfl, h, fun hrc _ => absurd hrc (by simp)⟩

/-- A run on two event structures that differ at most in kind and framing. -/
theorem feed_same_but_kind (cs : List Int) :
    ∀ (dev : snd_midi_event) (a b : snd_seq_event_t), same_but_kind a b →
      (feed dev a cs).map (fun r => (r.1, r.2.1)) = (feed dev b cs).map (fun r => (r.1, r.2.1)) ∧
      ∀ (i : Nat) (r r' : Int × snd_midi_event × snd_seq_event_t),
        (feed dev a cs)[i]? = some r → (feed dev b cs)[i]? = some r' →
        r.1 = 1 → r.2.2.length = SND_SEQ_EVENT_LENGTH_FIXED → r'.2.2 = r.2.2 := by
  induction cs with
  | nil =>
    intro dev a b _
    refine ⟨rfl, ?_⟩
    intro i r r' hr
    simp [feed] at hr
  | cons c cs ih =>
    intro dev a b h
    obtain ⟨e1, e2, e3, e4⟩ := encode_byte_same_but_kind dev c a b h
    have ih2 := ih (snd_midi_event_encode_byte dev c a).2.1 _ _ e3
    simp only [feed]
    refine ⟨?_, ?_⟩
    · simp only [List.map_cons]
      rw [ih2.1, e1, e2]
    · intro i r r' hr hr' hrc hl
      cases i with
      | zero =>
        simp only [List.getElem?_cons_zero, Option.some.injEq] at hr hr'
        subst hr
        subst hr'
        exact e4 hrc hl
      | succ i =>
        simp only [List.getElem?_cons_succ] at hr hr'
        rw [← e2] at hr'
        exact ih2.2 i r r' hr hr' hrc hl

theorem bytes_of_length (m : Mem) (n : Int) : (bytes_of m n).length = n.toNat := by
  simp [bytes_of]

theorem bytes_of_zero (m : Mem) : bytes_of m 0 = [] := rfl

theorem bytes_of_store_snoc (m : Mem) (r : Nat) (v : Nat) :
    bytes_of (store m (r : Int) v) ((r : Int) + 1) = bytes_of m (r : Int) ++ [v] := by
  have h1 : ((r : Int) + 1).toNat = r + 1 := by omega
  have h2 : ((r : Int)).toNat = r := by omega
  unfold bytes_of
  rw [h1, h2, List.range_succ, List.map_append]
  congr 1
  · apply List.map_congr_left
    intro i hi
    have hlt := List.mem_range.mp hi
    have hne : ¬ (Int.ofNat i = (r : Int)) := by
      have : Int.ofNat i = (i : Int) := rfl
      omega
    simp only [store_apply, hne, if_false]
  · simp [store_apply]

theorem emitted_bytes_length_le (C : Nat) (rs : List (Int × snd_midi_event × snd_seq_event_t))
    (h : ∀ x ∈ rs, x.1 = 1 → (chunk_of x).length ≤ C) :
    (emitted_bytes rs).length ≤ complete_count rs * C := by
  induction rs with
  | nil => simp [emitted_bytes, complete_count]
  | cons r rs ih =>
    have ih2 := ih (fun x hx => h x (List.mem_cons_of_mem _ hx))
    by_cases hr : r.1 = 1
    · have h1 := h r (List.mem_cons_self _ _) hr
      simp only [emitted_bytes, complete_count, hr, if_true, List.length_append]
      rw [Nat.add_mul]
      omega
    · simp only [emitted_bytes, complete_count, hr, if_false]
      exact ih2

/-- A byte continuing a pending SysEx that leaves room in the buffer. -/
theorem step_sysex_more (dev : snd_midi_event) (ev : snd_seq_event_t) (c : Nat)
    (hq : dev.qlen > 0) (ht : dev.type = (ST_SYSEX : Int)) (hc : c < 0xf8)
    (hne : c ≠ MIDI_CMD_COMMON_SYSEX_END) (hroom : ¬ dev.read + 1 ≥ dev.bufsize) :
    snd_midi_event_encode_byte dev (c : Int) ev =
      (0, { dev with buf := store dev.buf dev.read c, read := dev.read + 1 }, ev) := by
  rw [encode_byte_below_f8 dev c ev hc, accumulate_sysex dev c hq ht]
  have hq0 : dev.qlen ≠ 0 := by omega
  simp only [hq0, if_false, ht, if_true, hne, false_or, hroom]

/-- A byte continuing a pending SysEx that fills the buffer: the chunk is handed out and the
read cursor goes back to 0. -/
theorem step_sysex_full (dev : snd_midi_event) (ev : snd_seq_event_t) (c : Nat)
    (hq : dev.qlen > 0) (ht : dev.type = (ST_SYSEX : Int)) (hc : c < 0xf8)
    (hne : c ≠ MIDI_CMD_COMMON_SYSEX_END) (hfull : dev.read + 1 ≥ dev.bufsize) :
    snd_midi_event_encode_byte dev (c : Int) ev =
      (1, { dev with buf := store dev.buf dev.read c, read := 0 },
        { ev with length := SND_SEQ_EVENT_LENGTH_VARIABLE, ext_len := dev.read + 1,
                  ext_ptr := store dev.buf dev.read c }) := by
  rw [encode_byte_below_f8 dev c ev hc, accumulate_sysex dev c hq ht]
  have hq0 : dev.qlen ≠ 0 := by omega
  simp only [hq0, if_false, ht, if_true, hne, false_or, hfull, ne_eq, not_false_eq_true]

/-- The terminator of a pending SysEx: the last chunk is handed out and the coder is reset. -/
theorem step_sysex_end (dev : snd_midi_event) (ev : snd_seq_event_t)
    (hq : dev.qlen > 0) (ht : dev.type = (ST_SYSEX : Int)) :
    snd_midi_event_encode_byte dev ((0xF7 : Nat) : Int) ev =
      (1, reset_encode { dev with buf := store dev.buf dev.read 0xF7, read := dev.read + 1 },
        { ev with length := SND_SEQ_EVENT_LENGTH_VARIABLE, ext_len := dev.read + 1,
                  ext_ptr := store dev.buf dev.read 0xF7 }) := by
  rw [encode_byte_below_f8 dev 0xF7 ev (by decide), accumulate_sysex dev 0xF7 hq ht]
  have hq0 : dev.qlen ≠ 0 := by omega
  simp only [hq0, if_false, ht, if_true, MIDI_CMD_COMMON_SYSEX_END, true_or, ne_eq,
    not_true_eq_false]

/-- A pending SysEx with `r` bytes in the buffer, fed data bytes and the terminator. -/
theorem feed_sysex_rest (C : Nat) (ds : List Nat) :
    ∀ (dev : snd_midi_event) (ev : snd_seq_event_t) (r : Nat) (acc : List Nat),
      dev.type = (ST_SYSEX : Int) → dev.qlen = 1 → dev.read = (r : Int) → r < C →
      dev.bufsize = (C : Int) → bytes_of dev.buf (r : Int) = acc → (∀ d ∈ ds, d < 0x80) →
      (∀ x ∈ feed dev ev (ds.map Int.ofNat ++ [Int.ofNat 0xF7]),
        (x.1 = 0 ∨ x.1 = 1) ∧
        (x.1 = 1 → x.2.2.length = SND_SEQ_EVENT_LENGTH_VARIABLE ∧ x.2.2.ext_ptr = x.2.1.buf ∧
          (chunk_of x).length ≤ C)) ∧
      emitted_bytes (feed dev ev (ds.map Int.ofNat ++ [Int.ofNat 0xF7])) = acc ++ ds ++ [0xF7] := by
  induction ds with
  | nil =>
    intro dev ev r acc ht hq hr hrC hC hacc _
    have hstep := step_sysex_end dev ev (by omega) ht
    have hchunk : bytes_of (store dev.buf dev.read 0xF7) (dev.read + 1) = acc ++ [0xF7] := by
      rw [hr, bytes_of_store_snoc, hacc]
    have hfeed : feed dev ev ([].map Int.ofNat ++ [Int.ofNat 0xF7]) =
        [(1, reset_encode { dev with buf := store dev.buf dev.read 0xF7, read := dev.read + 1 },
          { ev with length := SND_SEQ_EVENT_LENGTH_VARIABLE, ext_len := dev.read + 1,
                    ext_ptr := store dev.buf dev.read 0xF7 })] := by
      simp only [List.map_nil, List.nil_append, feed, Int.ofNat_eq_coe]
      rw [hstep]
    rw [hfeed]
    refine ⟨?_, ?_⟩
    · intro x hx
      simp only [List.mem_singleton] at hx
      subst hx
      refine ⟨Or.inr rfl, fun _ => ⟨rfl, rfl, ?_⟩⟩
      simp only [chunk_of, hchunk, List.length_append, List.length_singleton]
      have := congrArg List.length hacc
      rw [bytes_of_length] at this
      omega
    · simp only [emitted_bytes, if_true, chunk_of, hchunk, List.append_nil]
  | cons d ds ih =>
    intro dev ev r acc ht hq hr hrC hC hacc hds
    have hd : d < 0x80 := hds d (List.mem_cons_self _ _)
    have hds2 : ∀ x ∈ ds, x < 0x80 := fun x hx => hds x (List.mem_cons_of_mem _ hx)
    have hne : d ≠ MIDI_CMD_COMMON_SYSEX_END := by
      simp only [MIDI_CMD_COMMON_SYSEX_END]; omega
    have hchunk : bytes_of (store dev.buf dev.read d) (dev.read + 1) = acc ++ [d] := by
      rw [hr, bytes_of_store_snoc, hacc]
    have hlen : acc.length = r := by
      have := congrArg List.length hacc
      rw [bytes_of_length] at this
      omega
    by_cases hfull : dev.read + 1 ≥ dev.bufsize
    · have hstep := step_sysex_full dev ev d (by omega) ht (by omega) hne hfull
      have hfeed : feed dev ev ((d :: ds).map Int.ofNat ++ [Int.ofNat 0xF7]) =
          (1, { dev with buf := store dev.buf dev.read d, read := 0 },
            { ev with length := SND_SEQ_EVENT_LENGTH_VARIABLE, ext_len := dev.read + 1,
                      ext_ptr := store dev.buf dev.read d }) ::
          feed { dev with buf := store dev.buf dev.read d, read := 0 }
            { ev with length := SND_SEQ_EVENT_LENGTH_VARIABLE, ext_len := dev.read + 1,
                      ext_ptr := store dev.buf dev.read d }
            (ds.map Int.ofNat ++ [Int.ofNat 0xF7]) := by
        simp only [List.map_cons, List.cons_append, feed, Int.ofNat_eq_coe, hstep]
        rfl
      rw [hfeed]
      have ih2 := ih { dev with buf := store dev.buf dev.read d, read := 0 }
        { ev with length := SND_SEQ_EVENT_LENGTH_VARIABLE, ext_len := dev.read + 1,
                  ext_ptr := store dev.buf dev.read d } 0 [] ht hq rfl (by omega) hC rfl hds2
      refine ⟨?_, ?_⟩
      · intro x hx
        rcases List.mem_cons.mp hx with hx | hx
        · subst hx
          refine ⟨Or.inr rfl, fun _ => ⟨rfl, rfl, ?_⟩⟩
          simp only [chunk_of, hchunk, List.length_append, List.length_singleton]
          omega
        · exact ih2.1 x hx
      · simp only [emitted_bytes, if_true, chunk_of, hchunk]
        rw [ih2.2]
        simp
    · have hstep := step_sysex_more dev ev d (by omega) ht (by omega) hne hfull
      have hfeed : feed dev ev ((d :: ds).map Int.ofNat ++ [Int.ofNat 0xF7]) =
          (0, { dev with buf := store dev.buf dev.read d, read := dev.read + 1 }, ev) ::
          feed { dev with buf := store dev.buf dev.read d, read := dev.read + 1 } ev
            (ds.map Int.ofNat ++ [Int.ofNat 0xF7]) := by
        simp only [List.map_cons, List.cons_append, feed, Int.ofNat_eq_coe, hstep]
        rfl
      rw [hfeed]
      have ih2 := ih { dev with buf := store dev.buf dev.read d, read := dev.read + 1 }
        ev (r + 1) (acc ++ [d]) ht hq (by simp [hr]) (by omega) hC
        (by
          have h3 : ((r + 1 : Nat) : Int) = dev.read + 1 := by rw [hr]; simp
          rw [h3]
          exact hchunk) hds2
      refine ⟨?_, ?_⟩
      · intro x hx
        rcases List.mem_cons.mp hx with hx | hx
        · subst hx
          exact ⟨Or.inl rfl, fun h => absurd h (by simp)⟩
        · exact ih2.1 x hx
      · have : ¬ ((0 : Int) = 1) := by decide
        simp only [emitted_bytes, this, if_false]
        rw [ih2.2]
        simp

/-- The status byte 0xf0 arriving when no message is pending opens a SysEx. -/
theorem accumulate_sysex_start (dev : snd_midi_event) (hq : dev.qlen ≤ 0) :
    encode_byte_accumulate dev 0xF0 =
      { dev with read := 1, buf := store dev.buf 0 0xF0, type := (ST_SYSEX : Int), qlen := 1 } := by
  have hq2 : ¬ dev.qlen > 0 := by omega
  have h80 : (0xF0 : Nat) &&& 0x80 ≠ 0 := by decide
  have hf0 : (0xF0 : Nat) &&& 0xf0 = 0xf0 := by decide
  have h0f : (((0xF0 : Nat) &&& 0x0f) + ST_SPECIAL : Nat) = ST_SYSEX := by decide
  have hq1 : (status_event_at ((ST_SYSEX : Nat) : Int)).qlen = 1 := rfl
  unfold encode_byte_accumulate
  simp only [hq2, if_false, h80, ne_eq, not_false_eq_true, if_true, hf0, h0f, hq1]

theorem same_but_kind_with (a : snd_seq_event_t) (k : snd_seq_event_type_t)
    (l : snd_seq_event_length_t) : same_but_kind a { a with type := k, length := l } := by
  unfold same_but_kind
  rfl

theorem pitchbend_status_bits : ∀ ch : Fin 16,
    (0xE0 ||| ch.val) < 0xf0 ∧ (0xE0 ||| ch.val) &&& 0x80 ≠ 0 ∧
    (0xE0 ||| ch.val) &&& 0xf0 ≠ 0xf0 ∧ ((0xE0 ||| ch.val) >>> 4) &&& 0x07 = 6 ∧
    (0xE0 ||| ch.val) &&& 0x0f = ch.val := by decide

/-- The two 7-bit halves of a biased pitch-bend value in range add up to it. -/
theorem pitchbend_bytes_sum (v : Int) (h0 : -8192 ≤ v) (h1 : v ≤ 8191) :
    ((and7f (v + 8192) : Nat) : Int) + 128 * ((and7f ((v + 8192) >>> (7 : Nat)) : Nat) : Int)
      = v + 8192 := by
  have := pitchbend_bytes_value v h0 h1
  omega

/-- `snd_midi_event_encode_byte` returns 0 or 1, never an error. -/
theorem encode_byte_rc (dev : snd_midi_event) (c : Int) (ev : snd_seq_event_t) :
    (snd_midi_event_encode_byte dev c ev).1 = 0 ∨ (snd_midi_event_encode_byte dev c ev).1 = 1 := by
  unfold snd_midi_event_encode_byte
  dsimp only
  split_ifs
  · exact Or.inr rfl
  · split <;> exact Or.inr rfl
  · exact Or.inr rfl
  · exact Or.inr rfl
  · exact Or.inl rfl
  · exact Or.inl rfl

/-- A call that returns 0 leaves the event structure as it was. -/
theorem encode_byte_incomplete_event (dev : snd_midi_event) (c : Int) (ev : snd_seq_event_t)
    (h : (snd_midi_event_encode_byte dev c ev).1 = 0) :
    (snd_midi_event_encode_byte dev c ev).2.2 = ev := by
  revert h
  unfold snd_midi_event_encode_byte
  dsimp only
  split_ifs
  · intro h; exact absurd h (by simp)
  · split <;> (intro h; exact absurd h (by simp))
  · intro h; exact absurd h (by simp)
  · intro h; exact absurd h (by simp)
  · intro _; rfl
  · intro _; rfl

theorem feed_rc (bs : List Int) : ∀ (dev : snd_midi_event) (ev : snd_seq_event_t),
    ∀ r ∈ feed dev ev bs, r.1 = 0 ∨ r.1 = 1 := by
  induction bs with
  | nil => intro dev ev r hr; simp [feed] at hr
  | cons c cs ih =>
    intro dev ev r hr
    simp only [feed, List.mem_cons] at hr
    rcases hr with hr | hr
    · rw [hr]; exact encode_byte_rc dev c ev
    · exact ih _ _ r hr

/-- The loop stops at the first byte whose call returns 1. -/
theorem encode_loop_complete (buf : List Int) :
    ∀ (dev : snd_midi_event) (ev : snd_seq_event_t) (n : Int) (k : Nat)
      (last : Int × snd_midi_event × snd_seq_event_t), 1 ≤ k →
      return_codes (feed dev ev (buf.take k)) = List.replicate (k - 1) 0 ++ [1] →
      (feed dev ev (buf.take k)).getLast? = some last →
      encode_loop dev ev n buf = (n + (k : Int), last.2.1, last.2.2) := by
  induction buf with
  | nil =>
    intro dev ev n k last _ hrc _
    simp [feed, return_codes] at hrc
  | cons c cs ih =>
    intro dev ev n k last hk hrc hlast
    obtain ⟨k', rfl⟩ : ∃ k', k = k' + 1 := ⟨k - 1, by omega⟩
    simp only [List.take_succ_cons, feed, return_codes, List.map_cons, Nat.add_sub_cancel]
      at hrc hlast
    rcases Nat.eq_zero_or_pos k' with h0 | hpos
    · subst h0
      simp only [List.replicate_zero, List.nil_append, List.cons.injEq, List.take_zero, feed,
        List.map_nil, and_true, List.getLast?_singleton, Option.some.injEq] at hrc hlast
      subst hlast
      have h1 : ¬ (snd_midi_event_encode_byte dev c ev).1 < 0 := by rw [hrc]; decide
      have h2 : (snd_midi_event_encode_byte dev c ev).1 > 0 := by rw [hrc]; decide
      simp only [encode_loop, h1, if_false, h2, if_true]
      simp
    · obtain ⟨j, rfl⟩ : ∃ j, k' = j + 1 := ⟨k' - 1, by omega⟩
      simp only [List.replicate_succ, List.cons_append, List.cons.injEq] at hrc
      obtain ⟨hr0, hrest⟩ := hrc
      have hne : feed (snd_midi_event_encode_byte dev c ev).2.1
          (snd_midi_event_encode_byte dev c ev).2.2 (cs.take (j + 1)) ≠ [] := by
        intro he
        have := congrArg List.length hrest
        rw [he] at this
        simp at this
      have hlast2 : (feed (snd_midi_event_encode_byte dev c ev).2.1
          (snd_midi_event_encode_byte dev c ev).2.2 (cs.take (j + 1))).getLast? = some last := by
        cases hf : feed (snd_midi_event_encode_byte dev c ev).2.1
            (snd_midi_event_encode_byte dev c ev).2.2 (cs.take (j + 1)) with
        | nil => exact absurd hf hne
        | cons a as =>
          rw [hf] at hlast
          simpa [List.getLast?_cons_cons] using hlast
      have ih2 := ih (snd_midi_event_encode_byte dev c ev).2.1
        (snd_midi_event_encode_byte dev c ev).2.2 (n + 1) (j + 1) last (by omega)
        (by simpa [return_codes] using hrest) hlast2
      have h1 : ¬ (snd_midi_event_encode_byte dev c ev).1 < 0 := by rw [hr0]; decide
      have h2 : ¬ (snd_midi_event_encode_byte dev c ev).1 > 0 := by rw [hr0]; decide
      simp only [encode_loop, h1, if_false, h2]
      rw [ih2]
      congr 1
      push_cast
      ring

/-- When no call returns 1 the loop consumes every byte and leaves the event structure. -/
theorem encode_loop_incomplete (buf : List Int) :
    ∀ (dev : snd_midi_event) (ev : snd_seq_event_t) (n : Int),
      return_codes (feed dev ev buf) = List.replicate buf.length 0 →
      encode_loop dev ev n buf = (n + (buf.length : Int), (feed_end dev ev buf).1, ev) := by
  induction buf with
  | nil =>
    intro dev ev n _
    simp [encode_loop, feed_end]
  | cons c cs ih =>
    intro dev ev n hrc
    simp only [feed, return_codes, List.map_cons, List.length_cons, List.replicate_succ,
      List.cons.injEq] at hrc
    obtain ⟨hr0, hrest⟩ := hrc
    have hev := encode_byte_incomplete_event dev c ev hr0
    have ih2 := ih (snd_midi_event_encode_byte dev c ev).2.1
      (snd_midi_event_encode_byte dev c ev).2.2 (n + 1) (by simpa [return_codes] using hrest)
    have h1 : ¬ (snd_midi_event_encode_byte dev c ev).1 < 0 := by rw [hr0]; decide
    have h2 : ¬ (snd_midi_event_encode_byte dev c ev).1 > 0 := by rw [hr0]; decide
    simp only [encode_loop, h1, if_false, h2, feed_end]
    rw [ih2, hev]
    congr 1
    simp only [List.length_cons]
    push_cast
    ring

theorem status_event_at_7 : status_event_at 7 = ⟨SND_SEQ_EVENT_NONE, 0, none, none⟩ := rfl

theorem status_event_at_9 : status_event_at 9 =
    ⟨SND_SEQ_EVENT_QFRAME, 1, some one_param_event, some one_param_decode⟩ := rfl

theorem status_event_at_10 : status_event_at 10 =
    ⟨SND_SEQ_EVENT_SONGPOS, 2, some songpos_event, some songpos_decode⟩ := rfl

theorem status_event_at_11 : status_event_at 11 =
    ⟨SND_SEQ_EVENT_SONGSEL, 1, some one_param_event, some one_param_decode⟩ := rfl

theorem status_event_at_12 : status_event_at 12 = ⟨SND_SEQ_EVENT_NONE, 0, none, none⟩ := rfl

theorem status_event_at_13 : status_event_at 13 = ⟨SND_SEQ_EVENT_NONE, 0, none, none⟩ := rfl

theorem status_event_at_14 : status_event_at 14 =
    ⟨SND_SEQ_EVENT_TUNE_REQUEST, 0, none, none⟩ := rfl

theorem status_event_at_15 : status_event_at 15 = ⟨SND_SEQ_EVENT_NONE, 0, none, none⟩ := rfl

theorem status_event_at_16 : status_event_at 16 = ⟨SND_SEQ_EVENT_CLOCK, 0, none, none⟩ := rfl

theorem status_event_at_17 : status_event_at 17 = ⟨SND_SEQ_EVENT_NONE, 0, none, none⟩ := rfl

theorem status_event_at_18 : status_event_at 18 = ⟨SND_SEQ_EVENT_START, 0, none, none⟩ := rfl

theorem status_event_at_19 : status_event_at 19 = ⟨SND_SEQ_EVENT_CONTINUE, 0, none, none⟩ := rfl

theorem status_event_at_20 : status_event_at 20 = ⟨SND_SEQ_EVENT_STOP, 0, none, none⟩ := rfl

theorem status_event_at_21 : status_event_at 21 = ⟨SND_SEQ_EVENT_NONE, 0, none, none⟩ := rfl

theorem status_event_at_22 : status_event_at 22 = ⟨SND_SEQ_EVENT_SENSING, 0, none, none⟩ := rfl

theorem status_event_at_23 : status_event_at 23 = ⟨SND_SEQ_EVENT_RESET, 0, none, none⟩ := rfl

/-- The output of a system event (slots 9..23): status byte and data bytes. -/
theorem payload_bytes_at_one_special (t : Nat) (ev : snd_seq_event_t) (cmd : Nat)
    (h9 : 9 ≤ t) (h24 : t < 24) :
    bytes_of (match (status_event_at t).decode with
          | some decode => decode ev (store (fun _ => 0) 0 cmd) 1
          | none => store (fun _ => 0) 0 cmd) ((status_event_at t).qlen + 1) =
      cmd :: payload_bytes t ev := by
  interval_cases t <;>
    simp only [Nat.cast_ofNat, status_event_at_9, status_event_at_10, status_event_at_11,
      status_event_at_12, status_event_at_13, status_event_at_14, status_event_at_15,
      status_event_at_16, status_event_at_17, status_event_at_18, status_event_at_19,
      status_event_at_20, status_event_at_21, status_event_at_22, status_event_at_23,
      payload_bytes] <;>
    norm_num only <;>
    simp only [bytes_of_1, bytes_of_2, bytes_of_3, one_param_decode, songpos_decode,
      store_apply] <;>
    norm_num

/-- A system event (slots 9..23) always gets its status byte. -/
theorem decode_special (dev : snd_midi_event) (buf : Mem) (count : Int)
    (ev : snd_seq_event_t) (t : Nat) (hf : find_status_event ev.type = some t)
    (hn : ev.type ≠ SND_SEQ_EVENT_NONE) (h9 : 9 ≤ t)
    (hcount : (status_event_at t).qlen + 1 ≤ count) :
    (snd_midi_event_decode dev buf count ev).1 = (status_event_at t).qlen + 1 ∧
    (snd_midi_event_decode dev buf count ev).2.1 = { dev with lastcmd := 0xf0 + (t - 8) } ∧
    bytes_of (snd_midi_event_decode dev buf count ev).2.2 ((status_event_at t).qlen + 1) =
      (0xf0 + (t - 8)) :: payload_bytes t ev := by
  have h24 := (find_status_event_sound _ _ hf).1
  have hcmd := decode_cmd_special t ev (by omega)
  have hc : decode_cmd t ev ≠ MIDI_CMD_COMMON_SYSEX := by
    rw [hcmd]; simp only [MIDI_CMD_COMMON_SYSEX]; omega
  have hsp : decode_cmd t ev &&& 0xf0 = 0xf0 := by
    rw [hcmd]
    interval_cases t <;> rfl
  rw [decode_of_found dev buf count ev t hn hf,
    decode_found_status_eq dev buf count ev t hc (Or.inl hsp) hcount, hcmd]
  refine ⟨rfl, rfl, ?_⟩
  simp only [bytes_of_memcpy]
  exact payload_bytes_at_one_special t ev _ h9 h24

/-- Every data byte the decode routines write is masked to 7 bits. -/
theorem payload_bytes_lt (t : Nat) (ev : snd_seq_event_t) (h24 : t < 24) :
    ∀ d ∈ payload_bytes t ev, d < 128 := by
  have h1 := and_7f_lt ev.note
  have h2 := and_7f_lt ev.velocity
  have h3 := and_7f_lt ev.param
  have h4 := and7f_lt ev.value
  have h5 := and7f_lt (ev.value + 8192)
  have h6 := and7f_lt ((ev.value + 8192) >>> (7 : Nat))
  have h7 := and7f_lt (ev.value >>> (7 : Nat))
  interval_cases t <;>
    simp only [Nat.cast_ofNat, Nat.cast_zero, Nat.cast_one, status_event_at_0, status_event_at_1,
      status_event_at_2, status_event_at_3, status_event_at_4, status_event_at_5,
      status_event_at_6, status_event_at_7, status_event_at_8,
      status_event_at_9, status_event_at_10, status_event_at_11,
      status_event_at_12, status_event_at_13, status_event_at_14, status_event_at_15,
      status_event_at_16, status_event_at_17, status_event_at_18, status_event_at_19,
      status_event_at_20, status_event_at_21, status_event_at_22, status_event_at_23,
      payload_bytes, bytes_of_1, bytes_of_2, note_decode, two_param_decode, one_param_decode,
      pitchbend_decode, songpos_decode, store_apply] <;>
    norm_num <;> simp_all

/-- The number of data bytes is the `qlen` of the slot. -/
theorem payload_bytes_length (t : Nat) (ev : snd_seq_event_t) (h24 : t < 24) (h8 : t ≠ 8) :
    ((payload_bytes t ev).length : Int) = (status_event_at t).qlen := by
  interval_cases t <;>
    first
    | exact absurd rfl h8
    | simp only [Nat.cast_ofNat, Nat.cast_zero, Nat.cast_one, status_event_at_0,
        status_event_at_1, status_event_at_2, status_event_at_3, status_event_at_4,
        status_event_at_5, status_event_at_6, status_event_at_7,
        status_event_at_9, status_event_at_10, status_event_at_11,
        status_event_at_12, status_event_at_13, status_event_at_14, status_event_at_15,
        status_event_at_16, status_event_at_17, status_event_at_18, status_event_at_19,
        status_event_at_20, status_event_at_21, status_event_at_22, status_event_at_23,
        payload_bytes, bytes_of_length, List.length_nil] <;> norm_num

/-- Too small a capacity when the status byte is due: the call fails, `lastcmd` is already the
status byte. -/
theorem decode_found_status_fail (dev : snd_midi_event) (buf : Mem) (count : Int)
    (ev : snd_seq_event_t) (t : Nat) (hc : decode_cmd t ev ≠ MIDI_CMD_COMMON_SYSEX)
    (hl : decode_cmd t ev &&& 0xf0 = 0xf0 ∨ dev.lastcmd ≠ decode_cmd t ev)
    (hcount : count < (status_event_at t).qlen + 1) :
    decode_found dev buf count ev t =
      (-ENOMEM, { dev with lastcmd := decode_cmd t ev }, buf) := by
  unfold decode_found
  dsimp only
  rw [if_neg hc, if_pos hl, if_pos hcount]

/-- Too small a capacity under running status: the call fails and changes nothing. -/
theorem decode_found_running_fail (dev : snd_midi_event) (buf : Mem) (count : Int)
    (ev : snd_seq_event_t) (t : Nat) (hc : decode_cmd t ev ≠ MIDI_CMD_COMMON_SYSEX)
    (hl : ¬ (decode_cmd t ev &&& 0xf0 = 0xf0 ∨ dev.lastcmd ≠ decode_cmd t ev))
    (hcount : count < (status_event_at t).qlen) :
    decode_found dev buf count ev t = (-ENOMEM, dev, buf) := by
  unfold decode_found
  dsimp only
  rw [if_neg hc, if_neg hl, if_pos hcount]

theorem voice_status_high_bit (t : Nat) (ev : snd_seq_event_t) (ht : t < 7) :
    (0x80 ||| (t <<< 4) ||| (ev.channel &&& 0x0F)) &&& 0x80 = 0x80 := by
  have h : ∀ t : Fin 7, ∀ a : Fin 16, (0x80 ||| (t.val <<< 4) ||| a.val) &&& 0x80 = 0x80 := by
    decide
  exact h ⟨t, ht⟩ ⟨ev.channel &&& 0x0F, and_0f_lt _⟩

theorem special_status_high_bit (t : Nat) (h8 : 8 ≤ t) (h24 : t < 24) :
    (0xF0 + (t - 8)) &&& 0x80 = 0x80 := by
  interval_cases t <;> rfl

/-- Accumulation step for a system status byte 0xF0..0xF7 when no message is pending. -/
theorem accumulate_special_status (dev : snd_midi_event) (c t : Nat) (hq : dev.qlen ≤ 0)
    (h80 : c &&& 0x80 ≠ 0) (hf0 : c &&& 0xf0 = 0xf0) (ht : (c &&& 0x0f) + ST_SPECIAL = t) :
    encode_byte_accumulate dev c =
      { dev with read := 1, buf := store dev.buf 0 c, type := (t : Int),
                 qlen := (status_event_at (t : Int)).qlen } := by
  have hq2 : ¬ dev.qlen > 0 := by omega
  unfold encode_byte_accumulate
  simp only [hq2, if_false, h80, ne_eq, not_false_eq_true, if_true, hf0, ht]

/-- A system status byte with data bytes to come opens a message. -/
theorem step_special_status (dev : snd_midi_event) (ev : snd_seq_event_t) (c t : Nat)
    (hq : dev.qlen ≤ 0) (hc : c < 0xf8) (h80 : c &&& 0x80 ≠ 0) (hf0 : c &&& 0xf0 = 0xf0)
    (ht : (c &&& 0x0f) + ST_SPECIAL = t) (hq0 : (status_event_at (t : Int)).qlen ≠ 0)
    (ht8 : t ≠ 8) :
    snd_midi_event_encode_byte dev (c : Int) ev =
      (0, { dev with read := 1, buf := store dev.buf 0 c, type := (t : Int),
                     qlen := (status_event_at (t : Int)).qlen }, ev) := by
  rw [encode_byte_below_f8 dev c ev hc, accumulate_special_status dev c t hq h80 hf0 ht]
  have ht8i : (t : Int) ≠ (ST_SYSEX : Int) := by
    simp only [ST_SYSEX, ST_SPECIAL]; omega
  simp only [hq0, if_false, ht8i]

/-- A system status byte without data bytes completes at once. -/
theorem step_special_complete (dev : snd_midi_event) (ev : snd_seq_event_t) (c t : Nat)
    (hq : dev.qlen ≤ 0) (hc : c < 0xf8) (h80 : c &&& 0x80 ≠ 0) (hf0 : c &&& 0xf0 = 0xf0)
    (ht : (c &&& 0x0f) + ST_SPECIAL = t) (hq0 : (status_event_at (t : Int)).qlen = 0) :
    snd_midi_event_encode_byte dev (c : Int) ev =
      (1, { dev with read := 1, buf := store dev.buf 0 c, type := (t : Int), qlen := 0 },
        fixed_event { dev with read := 1, buf := store dev.buf 0 c, type := (t : Int),
                               qlen := 0 } ev) := by
  rw [encode_byte_below_f8 dev c ev hc, accumulate_special_status dev c t hq h80 hf0 ht, hq0]
  simp only [if_true]

/-- A system message with two data bytes, fed when no message is pending. -/
theorem feed_special_two (dev : snd_midi_event) (ev : snd_seq_event_t) (c t d1 d2 : Nat)
    (hq : dev.qlen ≤ 0) (hc : c < 0xf8) (h80 : c &&& 0x80 ≠ 0) (hf0 : c &&& 0xf0 = 0xf0)
    (ht : (c &&& 0x0f) + ST_SPECIAL = t) (ht8 : t ≠ 8)
    (h2 : (status_event_at (t : Int)).qlen = 2) (hd1 : d1 < 0x80) (hd2 : d2 < 0x80) :
    feed dev ev [(c : Int), (d1 : Int), (d2 : Int)] =
      [(0, { dev with read := 1, buf := store dev.buf 0 c, type := (t : Int), qlen := 2 }, ev),
       (0, { dev with read := 2, buf := store (store dev.buf 0 c) 1 d1, type := (t : Int),
                      qlen := 1 }, ev),
       (1, { dev with read := 3, buf := store (store (store dev.buf 0 c) 1 d1) 2 d2,
                      type := (t : Int), qlen := 0 },
           fixed_event { dev with read := 3, buf := store (store (store dev.buf 0 c) 1 d1) 2 d2,
                                  type := (t : Int), qlen := 0 } ev)] := by
  have ht8i : (t : Int) ≠ (ST_SYSEX : Int) := by
    simp only [ST_SYSEX, ST_SPECIAL]; omega
  simp only [feed]
  rw [step_special_status dev ev c t hq hc h80 hf0 ht (by rw [h2]; decide) ht8]
  simp only [h2]
  rw [step_rest_more _ ev d1 (by simp) (by simpa using ht8i) (by omega)]
  rw [step_rest_last _ ev d2 (by simp) (by simpa using ht8i) (by omega)]
  simp

/-- A system message with one data byte, fed when no message is pending. -/
theorem feed_special_one (dev : snd_midi_event) (ev : snd_seq_event_t) (c t d1 : Nat)
    (hq : dev.qlen ≤ 0) (hc : c < 0xf8) (h80 : c &&& 0x80 ≠ 0) (hf0 : c &&& 0xf0 = 0xf0)
    (ht : (c &&& 0x0f) + ST_SPECIAL = t) (ht8 : t ≠ 8)
    (h1 : (status_event_at (t : Int)).qlen = 1) (hd1 : d1 < 0x80) :
    feed dev ev [(c : Int), (d1 : Int)] =
      [(0, { dev with read := 1, buf := store dev.buf 0 c, type := (t : Int), qlen := 1 }, ev),
       (1, { dev with read := 2, buf := store (store dev.buf 0 c) 1 d1, type := (t : Int),
                      qlen := 0 },
           fixed_event { dev with read := 2, buf := store (store dev.buf 0 c) 1 d1,
                                  type := (t : Int), qlen := 0 } ev)] := by
  have ht8i : (t : Int) ≠ (ST_SYSEX : Int) := by
    simp only [ST_SYSEX, ST_SPECIAL]; omega
  simp only [feed]
  rw [step_special_status dev ev c t hq hc h80 hf0 ht (by rw [h1]; decide) ht8]
  simp only [h1]
  rw [step_rest_last _ ev d1 (by simp) (by simpa using ht8i) (by omega)]
  simp

theorem and7f_natCast (d : Nat) (h : d < 128) : and7f (d : Int) = d := by
  unfold and7f
  omega

/-- The two 7-bit halves of `high * 128 + low`. -/
theorem and7f_pair (low high : Nat) (hl : low < 128) (hh : high < 128) :
    and7f ((high : Int) * 128 + (low : Int)) = low ∧
    and7f (((high : Int) * 128 + (low : Int)) >>> (7 : Nat)) = high := by
  rw [Int.shiftRight_eq_div_pow]
  unfold and7f
  norm_num
  omega

theorem voice_status_sum : ∀ t : Fin 7, ∀ a : Fin 16,
    0x80 ||| (t.val <<< 4) ||| a.val = 0x80 + 16 * t.val + a.val := by decide

/-- A channel-voice status byte is `0x80 | (t << 4) | a` for a slot `t` and a channel `a`. -/
theorem voice_status_form (s : Nat) (h1 : 0x80 ≤ s) (h2 : s ≤ 0xEF) :
    ∃ t a, t < 7 ∧ a < 16 ∧ s = 0x80 ||| (t <<< 4) ||| a := by
  refine ⟨(s - 0x80) / 16, s % 16, by omega, by omega, ?_⟩
  have h := voice_status_sum ⟨(s - 0x80) / 16, by omega⟩ ⟨s % 16, by omega⟩
  simp only at h
  rw [h]
  omega

/-- The event the coder makes of a complete channel-voice message is decoded back to the
status byte and the data bytes of the message. -/
theorem voice_event_wire (t a : Nat) (ht : t < 7) (ha : a < 16) (S : snd_midi_event)
    (ev0 : snd_seq_event_t) (d1 d2 : Nat) (hd1 : d1 < 128) (hd2 : d2 < 128)
    (hty : S.type = (t : Int)) (h0 : S.buf 0 = 0x80 ||| (t <<< 4) ||| a)
    (h1 : S.buf 1 = d1) (h2 : S.buf 2 = d2) :
    find_status_event (fixed_event S ev0).type = some t ∧
    decode_cmd t (fixed_event S ev0) = 0x80 ||| (t <<< 4) ||| a ∧
    payload_bytes t (fixed_event S ev0) =
      if (status_event_at (t : Int)).qlen = 2 then [d1, d2] else [d1] := by
  have hb := (voice_cmd_bits ⟨t, ht⟩ ⟨a, ha⟩).2.2.2.2.2
  simp only at hb
  have ha2 : a &&& 0x0f = a := by
    have h : ∀ a : Fin 16, a.val &&& 0x0f = a.val := by decide
    exact h ⟨a, ha⟩
  have hp := and7f_pair d1 d2 hd1 hd2
  have hn1 := and7f_natCast d1 hd1
  have hn2 := and7f_natCast d2 hd2
  have hm1 := and_7f_of_lt d1 hd1
  have hm2 := and_7f_of_lt d2 hd2
  have hcmd : ∀ E : snd_seq_event_t, E.channel = a →
      decode_cmd t E = 0x80 ||| (t <<< 4) ||| a := by
    intro E hE
    rw [decode_cmd_voice_eq t E ht, hE, ha2]
  interval_cases t
  · have hE : fixed_event S ev0 = { ev0 with
        type := SND_SEQ_EVENT_NOTEOFF, length := SND_SEQ_EVENT_LENGTH_FIXED, channel := a, note := d1, velocity := d2 } := by
      simp [fixed_event, hty, status_event_at_0, note_event, h0, h1, h2, hb]
      try simpa using hb
    rw [hE]
    refine ⟨rfl, hcmd _ rfl, ?_⟩
    rw [payload_bytes_note 0 _ (by decide)]
    simp [status_event_at_0, hm1, hm2]
  · have hE : fixed_event S ev0 = { ev0 with
        type := SND_SEQ_EVENT_NOTEON, length := SND_SEQ_EVENT_LENGTH_FIXED, channel := a, note := d1, velocity := d2 } := by
      simp [fixed_event, hty, status_event_at_1, note_event, h0, h1, h2, hb]
      try simpa using hb
    rw [hE]
    refine ⟨rfl, hcmd _ rfl, ?_⟩
    rw [payload_bytes_note 1 _ (by decide)]
    simp [status_event_at_1, hm1, hm2]
  · have hE : fixed_event S ev0 = { ev0 with
        type := SND_SEQ_EVENT_KEYPRESS, length := SND_SEQ_EVENT_LENGTH_FIXED, channel := a, note := d1, velocity := d2 } := by
      simp [fixed_event, hty, status_event_at_2, note_event, h0, h1, h2, hb]
      try simpa using hb
    rw [hE]
    refine ⟨rfl, hcmd _ rfl, ?_⟩
    rw [payload_bytes_note 2 _ (by decide)]
    simp [status_event_at_2, hm1, hm2]
  · have hE : fixed_event S ev0 = { ev0 with
        type := SND_SEQ_EVENT_CONTROLLER, length := SND_SEQ_EVENT_LENGTH_FIXED, channel := a, param := d1, value := (d2 : Int) } := by
      simp [fixed_event, hty, status_event_at_3, two_param_ctrl_event, h0, h1, h2, hb]
      try simpa using hb
    rw [hE]
    refine ⟨rfl, hcmd _ rfl, ?_⟩
    rw [payload_bytes_controller]
    simp [status_event_at_3, hm1, hn2]
  · have hE : fixed_event S ev0 = { ev0 with
        type := SND_SEQ_EVENT_PGMCHANGE, length := SND_SEQ_EVENT_LENGTH_FIXED, channel := a, value := (d1 : Int) } := by
      simp [fixed_event, hty, status_event_at_4, one_param_ctrl_event, h0, h1, hb]
      try simpa using hb
    rw [hE]
    refine ⟨rfl, hcmd _ rfl, ?_⟩
    rw [payload_bytes_one_param 4 _ (by decide) (by decide)]
    simp [status_event_at_4, hn1]
  · have hE : fixed_event S ev0 = { ev0 with
        type := SND_SEQ_EVENT_CHANPRESS, length := SND_SEQ_EVENT_LENGTH_FIXED, channel := a, value := (d1 : Int) } := by
      simp [fixed_event, hty, status_event_at_5, one_param_ctrl_event, h0, h1, hb]
      try simpa using hb
    rw [hE]
    refine ⟨rfl, hcmd _ rfl, ?_⟩
    rw [payload_bytes_one_param 5 _ (by decide) (by decide)]
    simp [status_event_at_5, hn1]
  · have hE : fixed_event S ev0 = { ev0 with
        type := SND_SEQ_EVENT_PITCHBEND, length := SND_SEQ_EVENT_LENGTH_FIXED, channel := a, value := (d2 : Int) * 128 + (d1 : Int) - 8192 } := by
      simp [fixed_event, hty, status_event_at_6, pitchbend_ctrl_event, h0, h1, h2, hb]
      try simpa using hb
    rw [hE]
    refine ⟨rfl, hcmd _ rfl, ?_⟩
    rw [payload_bytes_pitchbend]
    have e : (d2 : Int) * 128 + (d1 : Int) - 8192 + 8192 = (d2 : Int) * 128 + (d1 : Int) := by
      ring
    simp [status_event_at_6, e, hp.1, hp.2]

/-- The event the coder makes of a complete program-change or channel-pressure message is
decoded back to the status byte and the one data byte of the message. -/
theorem voice_event_wire_one (t a : Nat) (ha : a < 16) (S : snd_midi_event)
    (ev0 : snd_seq_event_t) (d1 : Nat) (hd1 : d1 < 128)
    (hq : (status_event_at (t : Int)).qlen = 1) (ht : t < 7)
    (hty : S.type = (t : Int)) (h0 : S.buf 0 = 0x80 ||| (t <<< 4) ||| a)
    (h1 : S.buf 1 = d1) :
    find_status_event (fixed_event S ev0).type = some t ∧
    decode_cmd t (fixed_event S ev0) = 0x80 ||| (t <<< 4) ||| a ∧
    payload_bytes t (fixed_event S ev0) = [d1] := by
  have hb := (voice_cmd_bits ⟨t, ht⟩ ⟨a, ha⟩).2.2.2.2.2
  simp only at hb
  have ha2 : a &&& 0x0f = a := by
    have h : ∀ a : Fin 16, a.val &&& 0x0f = a.val := by decide
    exact h ⟨a, ha⟩
  have hn1 := and7f_natCast d1 hd1
  have hcmd : ∀ E : snd_seq_event_t, E.channel = a →
      decode_cmd t E = 0x80 ||| (t <<< 4) ||| a := by
    intro E hE
    rw [decode_cmd_voice_eq t E ht, hE, ha2]
  interval_cases t
  · simp [status_event_at_0] at hq
  · simp [status_event_at_1] at hq
  · simp [status_event_at_2] at hq
  · simp [status_event_at_3] at hq
  · have hE : fixed_event S ev0 = { ev0 with
        type := SND_SEQ_EVENT_PGMCHANGE, length := SND_SEQ_EVENT_LENGTH_FIXED, channel := a, value := (d1 : Int) } := by
      simp [fixed_event, hty, status_event_at_4, one_param_ctrl_event, h0, h1, hb]
      try simpa using hb
    rw [hE]
    refine ⟨rfl, hcmd _ rfl, ?_⟩
    rw [payload_bytes_one_param 4 _ (by decide) (by decide)]
    simp [hn1]
  · have hE : fixed_event S ev0 = { ev0 with
        type := SND_SEQ_EVENT_CHANPRESS, length := SND_SEQ_EVENT_LENGTH_FIXED, channel := a, value := (d1 : Int) } := by
      simp [fixed_event, hty, status_event_at_5, one_param_ctrl_event, h0, h1, hb]
      try simpa using hb
    rw [hE]
    refine ⟨rfl, hcmd _ rfl, ?_⟩
    rw [payload_bytes_one_param 5 _ (by decide) (by decide)]
    simp [hn1]
  · simp [status_event_at_6] at hq

/-- Round trip of one channel-voice message: bytes to event to bytes. -/
theorem wire_roundtrip_voice (enc : snd_midi_event) (ev0 : snd_seq_event_t)
    (dec : snd_midi_event) (buf : Mem) (count : Int) (t a : Nat) (ds : List Nat)
    (ht : t < 7) (ha : a < 16)
    (hlen : (ds.length : Int) = (status_event_at (t : Int)).qlen)
    (hds : ∀ d ∈ ds, d < 128) (hcount : 3 ≤ count) :
    ∃ last,
      return_codes (feed (snd_midi_event_reset_encode enc) ev0
          (((0x80 ||| (t <<< 4) ||| a) :: ds).map Int.ofNat)) =
        List.replicate ds.length 0 ++ [1] ∧
      (feed (snd_midi_event_reset_encode enc) ev0
          (((0x80 ||| (t <<< 4) ||| a) :: ds).map Int.ofNat)).getLast? = some last ∧
      decoded_bytes (snd_midi_event_reset_decode dec) buf count last.2.2 =
        (0x80 ||| (t <<< 4) ||| a) :: ds := by
  obtain ⟨hc80, hcf0, h80, hf0, hsl, hch⟩ := voice_cmd_bits ⟨t, ht⟩ ⟨a, ha⟩
  simp only at hc80 hcf0 h80 hf0 hsl hch
  have hq : (snd_midi_event_reset_encode enc).qlen ≤ 0 := by
    simp [snd_midi_event_reset_encode, reset_encode]
  have hlast : (snd_midi_event_reset_decode dec).lastcmd = 0xff := rfl
  have hq12 : (status_event_at (t : Int)).qlen = 2 ∨ (status_event_at (t : Int)).qlen = 1 := by
    interval_cases t <;>
      simp [status_event_at_0, status_event_at_1, status_event_at_2, status_event_at_3,
        status_event_at_4, status_event_at_5, status_event_at_6]
  rcases hq12 with h2 | h1
  · rw [h2] at hlen
    have hl2 : ds.length = 2 := by exact_mod_cast hlen
    obtain ⟨d1, d2, rfl⟩ := List.length_eq_two.mp hl2
    have hd1 : d1 < 128 := hds d1 (by simp)
    have hd2 : d2 < 128 := hds d2 (by simp)
    simp only [List.map, Int.ofNat_eq_coe]
    rw [feed_voice_two _ ev0 _ t d1 d2 [] hq hcf0 h80 hf0 hsl ht h2 hd1 hd2]
    simp only [feed]
    obtain ⟨S, hS⟩ : ∃ S : snd_midi_event, S = { snd_midi_event_reset_encode enc with
        read := 3,
        buf := store (store (store (snd_midi_event_reset_encode enc).buf 0
          (0x80 ||| (t <<< 4) ||| a)) 1 d1) 2 d2,
        type := (t : Int), qlen := 0 } := ⟨_, rfl⟩
    rw [← hS]
    refine ⟨(1, S, fixed_event S ev0), rfl, rfl, ?_⟩
    obtain ⟨hfind, hcmd, hpay⟩ := voice_event_wire t a ht ha S ev0 d1 d2 hd1 hd2
      (by rw [hS]) (by rw [hS]; simp [store_apply]) (by rw [hS]; simp [store_apply])
      (by rw [hS]; simp [store_apply])
    obtain ⟨hr1, -, hr3⟩ := decode_voice_status (snd_midi_event_reset_decode dec) buf count
      (fixed_event S ev0) t hfind ht (by rw [hcmd, hlast]; omega) (by rw [h2]; omega)
    unfold decoded_bytes
    rw [hr1, hr3, hcmd, hpay, if_pos h2]
  · rw [h1] at hlen
    have hl1 : ds.length = 1 := by exact_mod_cast hlen
    obtain ⟨d1, rfl⟩ := List.length_eq_one.mp hl1
    have hd1 : d1 < 128 := hds d1 (by simp)
    simp only [List.map, Int.ofNat_eq_coe]
    rw [feed_voice_one _ ev0 _ t d1 [] hq hcf0 h80 hf0 hsl ht h1 hd1]
    simp only [feed]
    obtain ⟨S, hS⟩ : ∃ S : snd_midi_event, S = { snd_midi_event_reset_encode enc with
        read := 2,
        buf := store (store (snd_midi_event_reset_encode enc).buf 0
          (0x80 ||| (t <<< 4) ||| a)) 1 d1,
        type := (t : Int), qlen := 0 } := ⟨_, rfl⟩
    rw [← hS]
    refine ⟨(1, S, fixed_event S ev0), rfl, rfl, ?_⟩
    obtain ⟨hfind, hcmd, hpay⟩ := voice_event_wire_one t a ha S ev0 d1 hd1 h1 ht
      (by rw [hS]) (by rw [hS]; simp [store_apply]) (by rw [hS]; simp [store_apply])
    obtain ⟨hr1, -, hr3⟩ := decode_voice_status (snd_midi_event_reset_decode dec) buf count
      (fixed_event S ev0) t hfind ht (by rw [hcmd, hlast]; omega) (by rw [h1]; omega)
    unfold decoded_bytes
    rw [hr1, hr3, hcmd, hpay]

/-- Round trip of one system common message (0xF1, 0xF2, 0xF3, 0xF6): bytes to event to
bytes. -/
theorem wire_roundtrip_common (enc : snd_midi_event) (ev0 : snd_seq_event_t)
    (dec : snd_midi_event) (buf : Mem) (count : Int) (s : Nat) (ds : List Nat)
    (hs : s = 0xF1 ∨ s = 0xF2 ∨ s = 0xF3 ∨ s = 0xF6)
    (hlen : (ds.length : Int) = (status_event_at ((8 + (s - 0xF0) : Nat) : Int)).qlen)
    (hds : ∀ d ∈ ds, d < 128) (hcount : 3 ≤ count) :
    ∃ last,
      return_codes (feed (snd_midi_event_reset_encode enc) ev0 ((s :: ds).map Int.ofNat)) =
        List.replicate ds.length 0 ++ [1] ∧
      (feed (snd_midi_event_reset_encode enc) ev0 ((s :: ds).map Int.ofNat)).getLast? =
        some last ∧
      decoded_bytes (snd_midi_event_reset_decode dec) buf count last.2.2 = s :: ds := by
  have hq : (snd_midi_event_reset_encode enc).qlen ≤ 0 := by
    simp [snd_midi_event_reset_encode, reset_encode]
  rcases hs with rfl | rfl | rfl | rfl
  · -- MTC quarter frame
    have hl1 : ds.length = 1 := by
      simp [status_event_at_9] at hlen
      exact_mod_cast hlen
    obtain ⟨d1, rfl⟩ := List.length_eq_one.mp hl1
    have hd1 : d1 < 128 := hds d1 (by simp)
    simp only [List.map, Int.ofNat_eq_coe]
    rw [feed_special_one _ ev0 0xF1 9 d1 hq (by decide) (by decide) (by decide) (by decide)
      (by decide) (by simp [status_event_at_9]) hd1]
    obtain ⟨S, hS⟩ : ∃ S : snd_midi_event, S = { snd_midi_event_reset_encode enc with
        read := 2,
        buf := store (store (snd_midi_event_reset_encode enc).buf 0 0xF1) 1 d1,
        type := ((9 : Nat) : Int), qlen := 0 } := ⟨_, rfl⟩
    rw [← hS]
    refine ⟨(1, S, fixed_event S ev0), rfl, rfl, ?_⟩
    have hE : fixed_event S ev0 = { ev0 with
        type := SND_SEQ_EVENT_QFRAME, length := SND_SEQ_EVENT_LENGTH_FIXED, value := (d1 : Int) } := by
      rw [hS]
      simp [fixed_event, status_event_at_9, one_param_event, store_apply]
    rw [hE]
    obtain ⟨hr1, -, hr3⟩ := decode_special (snd_midi_event_reset_decode dec) buf count
      { ev0 with
        type := SND_SEQ_EVENT_QFRAME, length := SND_SEQ_EVENT_LENGTH_FIXED, value := (d1 : Int) }
      9 rfl (by simp) (by decide) (by simp [status_event_at_9]; omega)
    unfold decoded_bytes
    rw [hr1, hr3]
    simp [payload_bytes, status_event_at_9, one_param_decode, bytes_of_1, store_apply,
      and7f_natCast d1 hd1]
  · -- song position
    have hl2 : ds.length = 2 := by
      simp [status_event_at_10] at hlen
      exact_mod_cast hlen
    obtain ⟨d1, d2, rfl⟩ := List.length_eq_two.mp hl2
    have hd1 : d1 < 128 := hds d1 (by simp)
    have hd2 : d2 < 128 := hds d2 (by simp)
    simp only [List.map, Int.ofNat_eq_coe]
    rw [feed_special_two _ ev0 0xF2 10 d1 d2 hq (by decide) (by decide) (by decide) (by decide)
      (by decide) (by simp [status_event_at_10]) hd1 hd2]
    obtain ⟨S, hS⟩ : ∃ S : snd_midi_event, S = { snd_midi_event_reset_encode enc with
        read := 3,
        buf := store (store (store (snd_midi_event_reset_encode enc).buf 0 0xF2) 1 d1) 2 d2,
        type := ((10 : Nat) : Int), qlen := 0 } := ⟨_, rfl⟩
    rw [← hS]
    refine ⟨(1, S, fixed_event S ev0), rfl, rfl, ?_⟩
    have hE : fixed_event S ev0 = { ev0 with
        type := SND_SEQ_EVENT_SONGPOS, length := SND_SEQ_EVENT_LENGTH_FIXED,
        value := (d2 : Int) * 128 + (d1 : Int) } := by
      rw [hS]
      simp [fixed_event, status_event_at_10, songpos_event, store_apply]
    rw [hE]
    obtain ⟨hr1, -, hr3⟩ := decode_special (snd_midi_event_reset_decode dec) buf count
      { ev0 with
        type := SND_SEQ_EVENT_SONGPOS, length := SND_SEQ_EVENT_LENGTH_FIXED,
        value := (d2 : Int) * 128 + (d1 : Int) }
      10 rfl (by simp) (by decide) (by simp [status_event_at_10]; omega)
    have hp := and7f_pair d1 d2 hd1 hd2
    unfold decoded_bytes
    rw [hr1, hr3]
    simp [payload_bytes, status_event_at_10, songpos_decode, bytes_of_2, store_apply,
      hp.1, hp.2]
  · -- song select
    have hl1 : ds.length = 1 := by
      simp [status_event_at_11] at hlen
      exact_mod_cast hlen
    obtain ⟨d1, rfl⟩ := List.length_eq_one.mp hl1
    have hd1 : d1 < 128 := hds d1 (by simp)
    simp only [List.map, Int.ofNat_eq_coe]
    rw [feed_special_one _ ev0 0xF3 11 d1 hq (by decide) (by decide) (by decide) (by decide)
      (by decide) (by simp [status_event_at_11]) hd1]
    obtain ⟨S, hS⟩ : ∃ S : snd_midi_event, S = { snd_midi_event_reset_encode enc with
        read := 2,
        buf := store (store (snd_midi_event_reset_encode enc).buf 0 0xF3) 1 d1,
        type := ((11 : Nat) : Int), qlen := 0 } := ⟨_, rfl⟩
    rw [← hS]
    refine ⟨(1, S, fixed_event S ev0), rfl, rfl, ?_⟩
    have hE : fixed_event S ev0 = { ev0 with
        type := SND_SEQ_EVENT_SONGSEL, length := SND_SEQ_EVENT_LENGTH_FIXED, value := (d1 : Int) } := by
      rw [hS]
      simp [fixed_event, status_event_at_11, one_param_event, store_apply]
    rw [hE]
    obtain ⟨hr1, -, hr3⟩ := decode_special (snd_midi_event_reset_decode dec) buf count
      { ev0 with
        type := SND_SEQ_EVENT_SONGSEL, length := SND_SEQ_EVENT_LENGTH_FIXED, value := (d1 : Int) }
      11 rfl (by simp) (by decide) (by simp [status_event_at_11]; omega)
    unfold decoded_bytes
    rw [hr1, hr3]
    simp [payload_bytes, status_event_at_11, one_param_decode, bytes_of_1, store_apply,
      and7f_natCast d1 hd1]
  · -- tune request
    have hl0 : ds = [] := by
      simp [status_event_at_14] at hlen
      exact hlen
    subst hl0
    simp only [List.map, Int.ofNat_eq_coe, feed]
    rw [step_special_complete _ ev0 0xF6 14 hq (by decide) (by decide) (by decide) (by decide)
      (by simp [status_event_at_14])]
    obtain ⟨S, hS⟩ : ∃ S : snd_midi_event, S = { snd_midi_event_reset_encode enc with
        read := 1,
        buf := store (snd_midi_event_reset_encode enc).buf 0 0xF6,
        type := ((14 : Nat) : Int), qlen := 0 } := ⟨_, rfl⟩
    rw [← hS]
    refine ⟨(1, S, fixed_event S ev0), rfl, rfl, ?_⟩
    have hE : fixed_event S ev0 = { ev0 with
        type := SND_SEQ_EVENT_TUNE_REQUEST, length := SND_SEQ_EVENT_LENGTH_FIXED } := by
      rw [hS]
      simp [fixed_event, status_event_at_14]
    rw [hE]
    obtain ⟨hr1, -, hr3⟩ := decode_special (snd_midi_event_reset_decode dec) buf count
      { ev0 with
        type := SND_SEQ_EVENT_TUNE_REQUEST, length := SND_SEQ_EVENT_LENGTH_FIXED }
      14 rfl (by simp) (by decide) (by simp [status_event_at_14]; omega)
    unfold decoded_bytes
    rw [hr1, hr3]
    simp [payload_bytes, status_event_at_14]

/-- Round trip of one real-time message (0xF8, 0xFA, 0xFB, 0xFC, 0xFE, 0xFF): byte to event to
byte. -/
theorem wire_roundtrip_realtime (enc : snd_midi_event) (ev0 : snd_seq_event_t)
    (dec : snd_midi_event) (buf : Mem) (count : Int) (s : Nat) (ds : List Nat)
    (hs : s = 0xF8 ∨ s = 0xFA ∨ s = 0xFB ∨ s = 0xFC ∨ s = 0xFE ∨ s = 0xFF)
    (hlen : (ds.length : Int) = (status_event_at ((8 + (s - 0xF0) : Nat) : Int)).qlen)
    (hcount : 3 ≤ count) :
    ∃ last,
      return_codes (feed (snd_midi_event_reset_encode enc) ev0 ((s :: ds).map Int.ofNat)) =
        List.replicate ds.length 0 ++ [1] ∧
      (feed (snd_midi_event_reset_encode enc) ev0 ((s :: ds).map Int.ofNat)).getLast? =
        some last ∧
      decoded_bytes (snd_midi_event_reset_decode dec) buf count last.2.2 = s :: ds := by
  have h1 : 0xF8 ≤ s := by omega
  have h2 : s ≤ 0xFF := by omega
  have hq0 : (status_event_at ((8 + (s - 0xF0) : Nat) : Int)).qlen = 0 := by
    rcases hs with rfl | rfl | rfl | rfl | rfl | rfl <;> rfl
  have hne : (status_event_at ((8 + (s - 0xF0) : Nat) : Int)).event ≠ SND_SEQ_EVENT_NONE := by
    rcases hs with rfl | rfl | rfl | rfl | rfl | rfl <;> decide
  have hfind : find_status_event (status_event_at ((8 + (s - 0xF0) : Nat) : Int)).event =
      some (8 + (s - 0xF0)) := by
    rcases hs with rfl | rfl | rfl | rfl | rfl | rfl <;> decide
  have hpay : ∀ E : snd_seq_event_t, payload_bytes (8 + (s - 0xF0)) E = [] := by
    intro E
    rcases hs with rfl | rfl | rfl | rfl | rfl | rfl <;> rfl
  have hl0 : ds = [] := by
    rw [hq0] at hlen
    have : ds.length = 0 := by exact_mod_cast hlen
    exact List.length_eq_zero.mp this
  subst hl0
  simp only [List.map, Int.ofNat_eq_coe, feed]
  rw [encode_byte_realtime _ s ev0 h1 h2]
  refine ⟨(1, snd_midi_event_reset_encode enc,
    { ev0 with type := (status_event_at ((8 + (s - 0xF0) : Nat) : Int)).event,
               length := SND_SEQ_EVENT_LENGTH_FIXED }), rfl, rfl, ?_⟩
  obtain ⟨hr1, -, hr3⟩ := decode_special (snd_midi_event_reset_decode dec) buf count
    { ev0 with type := (status_event_at ((8 + (s - 0xF0) : Nat) : Int)).event,
               length := SND_SEQ_EVENT_LENGTH_FIXED }
    (8 + (s - 0xF0)) (by dsimp only; exact hfind) (by dsimp only; exact hne) (by omega)
    (by rw [hq0]; omega)
  unfold decoded_bytes
  rw [hr1, hr3, hpay]
  have : 0xf0 + (8 + (s - 0xF0) - 8) = s := by omega
  rw [this]

theorem status_slot_voice (t a : Nat) (ht : t < 7) (ha : a < 16) :
    status_slot (0x80 ||| (t <<< 4) ||| a) = t := by
  obtain ⟨-, -, -, hf0, hsl, -⟩ := voice_cmd_bits ⟨t, ht⟩ ⟨a, ha⟩
  simp only at hf0 hsl
  unfold status_slot
  rw [if_neg hf0, hsl]

theorem status_slot_system (s : Nat) (h1 : 0xF0 ≤ s) (h2 : s ≤ 0xFF) :
    status_slot s = 8 + (s - 0xF0) := by
  have h : ∀ x : Fin 16, (0xF0 + x.val) &&& 0xf0 = 0xf0 := by decide
  have h3 := h ⟨s - 0xF0, by omega⟩
  simp only at h3
  have h4 : 0xF0 + (s - 0xF0) = s := by omega
  rw [h4] at h3
  unfold status_slot
  rw [if_pos h3]

/-- The payload length of every table access is 0, 1 or 2. -/
theorem table_qlen_range (i : Int) :
    0 ≤ (status_event_at i).qlen ∧ (status_event_at i).qlen ≤ 2 := by
  cases i with
  | ofNat n =>
    by_cases hn : n < 24
    · interval_cases n <;> exact ⟨by decide, by decide⟩
    · have h : status_event_at (Int.ofNat n) = ⟨SND_SEQ_EVENT_NONE, 0, none, none⟩ := by
        simp only [status_event_at]
        apply List.getD_eq_default
        simp only [status_event, List.length_cons, List.length_nil]
        omega
      rw [h]
      exact ⟨by decide, by decide⟩
  | negSucc n =>
    have h : status_event_at (Int.negSucc n) = ⟨SND_SEQ_EVENT_NONE, 0, none, none⟩ := rfl
    rw [h]
    exact ⟨by decide, by decide⟩

set_option maxRecDepth 100000 in
/-- The type a status byte below 0xF8 selects. -/
theorem status_type_bits : ∀ b : Fin 248, b.val &&& 0x80 ≠ 0 →
    (b.val &&& 0xf0 = 0xf0 → b.val &&& 0x0f ≤ 7) ∧
    (b.val &&& 0xf0 ≠ 0xf0 → (b.val >>> 4) &&& 0x07 ≤ 6) := by
  decide

theorem encode_byte_mask (dev : snd_midi_event) (c : Int) (ev : snd_seq_event_t) :
    snd_midi_event_encode_byte dev c ev =
      snd_midi_event_encode_byte dev (((c % 256).toNat : Nat) : Int) ev := by
  have h : ((((c % 256).toNat : Nat) : Int) % 256).toNat = (c % 256).toNat := by omega
  unfold snd_midi_event_encode_byte
  simp only [h]

/-- The state a call leaves: the accumulated state, or, for an open SysEx message, that state
with the read cursor cleared or fully reset. -/
theorem encode_byte_state_cases (dev : snd_midi_event) (b : Nat) (ev : snd_seq_event_t)
    (hb : b < 0xf8) :
    ((snd_midi_event_encode_byte dev (b : Int) ev).2.1 = encode_byte_accumulate dev b ∧
      ((encode_byte_accumulate dev b).type = 8 → (encode_byte_accumulate dev b).qlen ≠ 0 →
        (encode_byte_accumulate dev b).read < (encode_byte_accumulate dev b).bufsize)) ∨
    ((encode_byte_accumulate dev b).type = 8 ∧
      ((snd_midi_event_encode_byte dev (b : Int) ev).2.1 =
          { encode_byte_accumulate dev b with read := 0 } ∨
       (snd_midi_event_encode_byte dev (b : Int) ev).2.1 =
          reset_encode (encode_byte_accumulate dev b))) := by
  rw [encode_byte_below_f8 dev b ev hb]
  have hs : ((ST_SYSEX : Nat) : Int) = 8 := rfl
  split_ifs with h1 h2 h3 h4
  · exact Or.inl ⟨rfl, fun _ h => absurd h1 h⟩
  · exact Or.inr ⟨by rw [← hs]; exact h2, Or.inl rfl⟩
  · exact Or.inr ⟨by rw [← hs]; exact h2, Or.inr rfl⟩
  · refine Or.inl ⟨rfl, fun _ _ => ?_⟩
    push_neg at h3
    exact h3.2
  · exact Or.inl ⟨rfl, fun h => absurd (by rw [hs]; exact h) h2⟩

/-- The fields an accumulation step leaves, case by case: rest of a fixed-length command, rest
of a SysEx message, status byte, data byte opening a message. -/
theorem accumulate_fields (s : snd_midi_event) (b : Nat) (hb : b < 0xf8) :
    (encode_byte_accumulate s b).bufsize = s.bufsize ∧
    ((0 < s.qlen ∧ s.type ≠ 8 ∧ (encode_byte_accumulate s b).type = s.type ∧
        (encode_byte_accumulate s b).read = s.read + 1 ∧
        (encode_byte_accumulate s b).qlen = s.qlen - 1) ∨
     (0 < s.qlen ∧ s.type = 8 ∧ (encode_byte_accumulate s b).type = 8 ∧
        (encode_byte_accumulate s b).read = s.read + 1 ∧
        (encode_byte_accumulate s b).qlen = s.qlen) ∨
     (s.qlen ≤ 0 ∧ (encode_byte_accumulate s b).read = 1 ∧
        (encode_byte_accumulate s b).qlen =
          (status_event_at (encode_byte_accumulate s b).type).qlen ∧
        ((0 ≤ (encode_byte_accumulate s b).type ∧ (encode_byte_accumulate s b).type ≤ 6) ∨
         (8 ≤ (encode_byte_accumulate s b).type ∧ (encode_byte_accumulate s b).type ≤ 15))) ∨
     (s.qlen ≤ 0 ∧ (encode_byte_accumulate s b).read = 2 ∧
        (encode_byte_accumulate s b).type = s.type ∧
        (encode_byte_accumulate s b).qlen = (status_event_at s.type).qlen - 1)) := by
  have hs : ((ST_SYSEX : Nat) : Int) = 8 := rfl
  by_cases hq : s.qlen > 0
  · by_cases ht : s.type = 8
    · rw [accumulate_sysex s b hq (by rw [hs]; exact ht)]
      exact ⟨rfl, Or.inr (Or.inl ⟨hq, ht, ht, rfl, rfl⟩)⟩
    · rw [accumulate_rest s b hq (by rw [hs]; exact ht)]
      exact ⟨rfl, Or.inl ⟨hq, ht, rfl, rfl, rfl⟩⟩
  · have hq0 : s.qlen ≤ 0 := by omega
    by_cases h80 : b &&& 0x80 = 0
    · rw [accumulate_running s b hq0 h80]
      exact ⟨rfl, Or.inr (Or.inr (Or.inr ⟨hq0, rfl, rfl, rfl⟩))⟩
    · obtain ⟨hsp, hv⟩ := status_type_bits ⟨b, hb⟩ h80
      simp only at hsp hv
      by_cases hf0 : b &&& 0xf0 = 0xf0
      · rw [accumulate_special_status s b _ hq0 h80 hf0 rfl]
        refine ⟨rfl, Or.inr (Or.inr (Or.inl ⟨hq0, rfl, rfl, Or.inr ?_⟩))⟩
        have := hsp hf0
        simp only [ST_SPECIAL]
        omega
      · rw [accumulate_voice_status s b _ hq0 h80 hf0 rfl]
        refine ⟨rfl, Or.inr (Or.inr (Or.inl ⟨hq0, rfl, rfl, Or.inl ?_⟩))⟩
        have := hv hf0
        simp only
        omega

/-- A state with the three fields cleared meets both invariants. -/
theorem encode_inv_of_cleared (s : snd_midi_event) (h3 : 3 ≤ s.bufsize) (hr : s.read = 0)
    (hq : s.qlen = 0) (ht : s.type = 0) : encode_inv s := by
  unfold encode_inv
  rw [hr, hq, ht]
  exact ⟨h3, le_refl _, Or.inr ⟨Or.inl ⟨le_refl _, by decide⟩, by decide, by decide, by decide,
    fun h => absurd h (by decide)⟩⟩

theorem qlen_inv_of_cleared (s : snd_midi_event) (hq : s.qlen = 0) (ht : s.type = 0) :
    qlen_inv s := by
  unfold qlen_inv
  rw [hq, ht]
  exact ⟨by decide, by decide, by decide, fun h => absurd h (by decide)⟩

/-- One call keeps the invariant of the accumulation state. -/
theorem encode_inv_step (s : snd_midi_event) (c : Int) (ev : snd_seq_event_t)
    (h : encode_inv s) : encode_inv (snd_midi_event_encode_byte s c ev).2.1 := by
  rw [encode_byte_mask]
  obtain ⟨b, hbdef⟩ : ∃ b, b = (c % 256).toNat := ⟨_, rfl⟩
  rw [← hbdef]
  have hb256 : b < 256 := by omega
  by_cases hrt : 0xF8 ≤ b
  · rw [encode_byte_realtime s b ev hrt (by omega)]
    exact h
  · have hb : b < 0xf8 := by omega
    obtain ⟨hbuf, hF⟩ := accumulate_fields s b hb
    have h8 : (status_event_at 8).qlen = 1 := rfl
    have hrange := table_qlen_range (encode_byte_accumulate s b).type
    have hrange2 := table_qlen_range s.type
    obtain ⟨hcap, hread, hI⟩ := h
    -- the accumulated state
    have hA : 3 ≤ (encode_byte_accumulate s b).bufsize ∧ 0 ≤ (encode_byte_accumulate s b).read ∧
        (((encode_byte_accumulate s b).type = 8 ∧ (encode_byte_accumulate s b).qlen = 1 ∧
            (encode_byte_accumulate s b).read ≤ (encode_byte_accumulate s b).bufsize) ∨
         (((0 ≤ (encode_byte_accumulate s b).type ∧ (encode_byte_accumulate s b).type ≤ 6) ∨
            (9 ≤ (encode_byte_accumulate s b).type ∧ (encode_byte_accumulate s b).type ≤ 15)) ∧
           (encode_byte_accumulate s b).read ≤ 3 ∧ -1 ≤ (encode_byte_accumulate s b).qlen ∧
           (encode_byte_accumulate s b).qlen ≤ 2 ∧
           (0 < (encode_byte_accumulate s b).qlen → 1 ≤ (encode_byte_accumulate s b).read ∧
             (encode_byte_accumulate s b).read + (encode_byte_accumulate s b).qlen ≤ 3))) := by
      rw [hbuf]
      refine ⟨hcap, ?_, ?_⟩
      · rcases hF with ⟨_, _, _, hr, _⟩ | ⟨_, _, _, hr, _⟩ | ⟨_, hr, _⟩ | ⟨_, hr, _⟩ <;> omega
      · rcases hF with ⟨hq, ht, hty, hr, hql⟩ | ⟨hq, ht, hty, hr, hql⟩ | ⟨hq, hr, hql, hty⟩ |
            ⟨hq, hr, hty, hql⟩
        · rcases hI with ⟨h1, _⟩ | ⟨h1, h2, h3, h4, h5⟩
          · exact absurd h1 ht
          · right
            rw [hty, hr, hql]
            have := h5 hq
            exact ⟨h1, by omega, by omega, by omega, fun _ => by omega⟩
        · rcases hI with ⟨h1, h2, h3⟩ | ⟨h1, _⟩
          · left
            rw [hr, hql]
            exact ⟨hty, h2, by omega⟩
          · omega
        · by_cases ht8 : (encode_byte_accumulate s b).type = 8
          · left
            rw [hql, ht8, h8, hr]
            exact ⟨rfl, rfl, by omega⟩
          · right
            rw [hr]
            refine ⟨by omega, by omega, by omega, by omega, fun _ => by omega⟩
        · rcases hI with ⟨h1, h2, h3⟩ | ⟨h1, h2, h3, h4, h5⟩
          · omega
          · right
            rw [hty, hr, hql]
            exact ⟨h1, by omega, by omega, by omega, fun _ => by omega⟩
    obtain ⟨hA1, hA2, hA3⟩ := hA
    rcases encode_byte_state_cases s b ev hb with ⟨he, hlt⟩ | ⟨ht8, he | he⟩
    · rw [he]
      refine ⟨hA1, hA2, ?_⟩
      rcases hA3 with ⟨h1, h2, h3⟩ | h
      · exact Or.inl ⟨h1, h2, hlt h1 (by omega)⟩
      · exact Or.inr h
    · rw [he]
      refine ⟨hA1, le_refl _, ?_⟩
      rcases hA3 with ⟨h1, h2, h3⟩ | ⟨h1, _⟩
      · refine Or.inl ⟨h1, h2, ?_⟩
        show (0 : Int) < (encode_byte_accumulate s b).bufsize
        omega
      · omega
    · rw [he]
      exact encode_inv_of_cleared _ hA1 rfl rfl rfl

/-- One call keeps the invariant of the pending length, whatever the capacity. -/
theorem qlen_inv_step (s : snd_midi_event) (c : Int) (ev : snd_seq_event_t)
    (h : qlen_inv s) : qlen_inv (snd_midi_event_encode_byte s c ev).2.1 := by
  rw [encode_byte_mask]
  obtain ⟨b, hbdef⟩ : ∃ b, b = (c % 256).toNat := ⟨_, rfl⟩
  rw [← hbdef]
  have hb256 : b < 256 := by omega
  by_cases hrt : 0xF8 ≤ b
  · rw [encode_byte_realtime s b ev hrt (by omega)]
    exact h
  · have hb : b < 0xf8 := by omega
    obtain ⟨hbuf, hF⟩ := accumulate_fields s b hb
    have hrange := table_qlen_range (encode_byte_accumulate s b).type
    have hrange2 := table_qlen_range s.type
    obtain ⟨hidx, hlo, hhi, hm⟩ := h
    unfold status_index_ok at hidx
    have hA : qlen_inv (encode_byte_accumulate s b) := by
      unfold qlen_inv status_index_ok
      rcases hF with ⟨hq, ht, hty, hr, hql⟩ | ⟨hq, ht, hty, hr, hql⟩ | ⟨hq, hr, hql, hty⟩ |
          ⟨hq, hr, hty, hql⟩
      · rw [hty, hql]
        exact ⟨hidx, by omega, by omega, fun _ => by omega⟩
      · rw [hty, hql]
        exact ⟨by decide, by omega, by omega, fun _ => by omega⟩
      · rw [hql]
        exact ⟨by omega, by omega, by omega, fun _ => by omega⟩
      · rw [hty, hql]
        exact ⟨hidx, by omega, by omega, fun _ => by omega⟩
    rcases encode_byte_state_cases s b ev hb with ⟨he, -⟩ | ⟨ht8, he | he⟩
    · rw [he]; exact hA
    · rw [he]; exact hA
    · rw [he]
      exact qlen_inv_of_cleared _ rfl rfl

/-- A property every call keeps holds after every step of a run. -/
theorem feed_invariant (P : snd_midi_event → Prop)
    (hstep : ∀ s c ev, P s → P (snd_midi_event_encode_byte s c ev).2.1) (bs : List Int) :
    ∀ (dev : snd_midi_event) (ev : snd_seq_event_t), P dev →
      ∀ r ∈ feed dev ev bs, P r.2.1 := by
  induction bs with
  | nil => intro dev ev _ r hr; simp [feed] at hr
  | cons c cs ih =>
    intro dev ev hP r hr
    simp only [feed, List.mem_cons] at hr
    rcases hr with hr | hr
    · rw [hr]; exact hstep dev c ev hP
    · exact ih _ _ (hstep dev c ev hP) r hr

/-- A property every call keeps holds at the end of a run. -/
theorem feed_end_invariant (P : snd_midi_event → Prop)
    (hstep : ∀ s c ev, P s → P (snd_midi_event_encode_byte s c ev).2.1) (bs : List Int) :
    ∀ (dev : snd_midi_event) (ev : snd_seq_event_t), P dev → P (feed_end dev ev bs).1 := by
  induction bs with
  | nil => intro dev ev h; exact h
  | cons c cs ih =>
    intro dev ev hP
    simp only [feed_end]
    exact ih _ _ (hstep dev c ev hP)

theorem encode_inv_init (dev : snd_midi_event) (h : 3 ≤ dev.bufsize) :
    encode_inv (snd_midi_event_init dev) :=
  encode_inv_of_cleared _ h rfl rfl rfl

theorem encode_inv_reset (dev : snd_midi_event) (h : 3 ≤ dev.bufsize) :
    encode_inv (snd_midi_event_reset_encode dev) :=
  encode_inv_of_cleared _ h rfl rfl rfl

theorem qlen_inv_init (dev : snd_midi_event) : qlen_inv (snd_midi_event_init dev) :=
  qlen_inv_of_cleared _ rfl rfl

/-- One call never changes the capacity. -/
theorem encode_byte_bufsize (s : snd_midi_event) (c : Int) (ev : snd_seq_event_t) :
    (snd_midi_event_encode_byte s c ev).2.1.bufsize = s.bufsize := by
  rw [encode_byte_mask]
  obtain ⟨b, hbdef⟩ : ∃ b, b = (c % 256).toNat := ⟨_, rfl⟩
  rw [← hbdef]
  have hb256 : b < 256 := by omega
  by_cases hrt : 0xF8 ≤ b
  · rw [encode_byte_realtime s b ev hrt (by omega)]
  · have hb : b < 0xf8 := by omega
    obtain ⟨hbuf, -⟩ := accumulate_fields s b hb
    rcases encode_byte_state_cases s b ev hb with ⟨he, -⟩ | ⟨ht8, he | he⟩
    · rw [he, hbuf]
    · rw [he]; exact hbuf
    · rw [he]; exact hbuf

/-- Under the invariant the read cursor is within the capacity. -/
theorem encode_inv_read_le (s : snd_midi_event) (h : encode_inv s) :
    0 ≤ s.read ∧ s.read ≤ s.bufsize := by
  obtain ⟨h3, h0, h1 | h1⟩ := h
  · exact ⟨h0, by omega⟩
  · exact ⟨h0, by omega⟩

/-- Under the invariant the current type is a table index, not 7 and at most 15. -/
theorem encode_inv_type (s : snd_midi_event) (h : encode_inv s) :
    status_index_ok s.type ∧ s.type ≠ 7 ∧ s.type ≤ 15 := by
  unfold status_index_ok
  obtain ⟨h3, h0, h1 | h1⟩ := h
  · omega
  · omega

/-- Under the invariant the store of the next call is inside the buffer. -/
theorem encode_inv_store_index (s : snd_midi_event) (c : Int) (h : encode_inv s) :
    ∀ i, encode_byte_store_index s c = some i → 0 ≤ i ∧ i < s.bufsize := by
  intro i hi
  unfold encode_byte_store_index at hi
  dsimp only at hi
  obtain ⟨h3, h0, h1⟩ := h
  split_ifs at hi with ha hb hc
  · cases hi
    rcases h1 with h1 | h1
    · omega
    · have := h1.2.2.2.2 hb
      omega
  · cases hi
    omega
  · cases hi
    omega

/-- The table access of the next call is inside the table. -/
theorem encode_inv_table_index (s : snd_midi_event) (c : Int) (h : encode_inv s) :
    status_index_ok (encode_byte_table_index s c) := by
  have hty := encode_inv_type s h
  unfold status_index_ok at hty ⊢
  unfold encode_byte_table_index
  dsimp only
  obtain ⟨b, hbdef⟩ : ∃ b, b = (c % 256).toNat := ⟨_, rfl⟩
  rw [← hbdef]
  have hb256 : b < 256 := by omega
  split_ifs with ha
  · simp only [MIDI_CMD_COMMON_CLOCK] at ha
    simp only [ST_SPECIAL]
    omega
  · simp only [MIDI_CMD_COMMON_CLOCK] at ha
    obtain ⟨-, hF⟩ := accumulate_fields s b (by omega)
    rcases hF with ⟨_, _, hty2, _⟩ | ⟨_, _, hty2, _⟩ | ⟨_, _, _, hty2⟩ | ⟨_, _, hty2, _⟩
    · rw [hty2]; omega
    · rw [hty2]; omega
    · omega
    · rw [hty2]; omega

/-- The only change a call makes to the accumulation buffer is the store at
`encode_byte_store_index`. -/
theorem encode_byte_store_index_sound (s : snd_midi_event) (c : Int) (ev : snd_seq_event_t) :
    (snd_midi_event_encode_byte s c ev).2.1.buf =
      match encode_byte_store_index s c with
      | some i => store s.buf i (c % 256).toNat
      | none => s.buf := by
  rw [encode_byte_mask]
  unfold encode_byte_store_index
  dsimp only
  obtain ⟨b, hbdef⟩ : ∃ b, b = (c % 256).toNat := ⟨_, rfl⟩
  rw [← hbdef]
  have hb256 : b < 256 := by omega
  by_cases hrt : 0xF8 ≤ b
  · rw [encode_byte_realtime s b ev hrt (by omega)]
    have : b ≥ MIDI_CMD_COMMON_CLOCK := hrt
    simp only [this, if_true]
  · have hb : b < 0xf8 := by omega
    have hn : ¬ b ≥ MIDI_CMD_COMMON_CLOCK := hrt
    simp only [hn, if_false]
    have hA : (encode_byte_accumulate s b).buf =
        match (if s.qlen > 0 then some s.read else if b &&& 0x80 ≠ 0 then some 0 else some 1 :
            Option Int) with
        | some i => store s.buf i b
        | none => s.buf := by
      unfold encode_byte_accumulate
      dsimp only
      split_ifs <;> rfl
    rcases encode_byte_state_cases s b ev hb with ⟨he, -⟩ | ⟨ht8, he | he⟩
    · rw [he, hA]
    · rw [he]; exact hA
    · rw [he]; exact hA

/-- A pack routine reads the accumulation buffer at positions 0, 1 and 2 only. -/
theorem fixed_event_reads_0_to_2 (S S' : snd_midi_event) (ev : snd_seq_event_t)
    (ht : S'.type = S.type) (h0 : S'.buf 0 = S.buf 0) (h1 : S'.buf 1 = S.buf 1)
    (h2 : S'.buf 2 = S.buf 2) :
    fixed_event S' ev = fixed_event S ev := by
  unfold fixed_event
  rw [ht]
  obtain ⟨i, hi⟩ : ∃ i, i = S.type := ⟨_, rfl⟩
  rw [← hi]
  cases i with
  | ofNat n =>
    by_cases hn : n < 24
    · interval_cases n <;>
        simp [status_event_at, status_event, note_event, one_param_ctrl_event,
          pitchbend_ctrl_event, two_param_ctrl_event, one_param_event, songpos_event,
          h0, h1, h2]
    · have h : status_event_at (Int.ofNat n) = ⟨SND_SEQ_EVENT_NONE, 0, none, none⟩ := by
        simp only [status_event_at]
        apply List.getD_eq_default
        simp only [status_event, List.length_cons, List.length_nil]
        omega
      rw [h]
  | negSucc n => rfl

theorem feed_length (bs : List Int) : ∀ (dev : snd_midi_event) (ev : snd_seq_event_t),
    (feed dev ev bs).length = bs.length := by
  induction bs with
  | nil => intro dev ev; rfl
  | cons c cs ih => intro dev ev; simp [feed, ih]

/-- Data bytes fed while slot 0 (note off) is current and no message is pending: the calls
return 0, 1, 0, 1, .. and every second call completes a note-off event made of the two last
bytes. -/
theorem feed_data_noteoff : ∀ (n : Nat) (ds : List Nat), ds.length = n →
    ∀ (s : snd_midi_event) (ev : snd_seq_event_t), s.type = 0 → s.qlen ≤ 0 →
    (∀ d ∈ ds, d < 128) →
    ∀ (i : Nat) (r : Int × snd_midi_event × snd_seq_event_t),
      (feed s ev (ds.map Int.ofNat))[i]? = some r →
      (i % 2 = 0 → r.1 = 0) ∧
      (i % 2 = 1 → r.1 = 1 ∧ r.2.2.type = SND_SEQ_EVENT_NOTEOFF ∧
        r.2.2.length = SND_SEQ_EVENT_LENGTH_FIXED ∧
        r.2.2.note = ds.getD (i - 1) 0 ∧ r.2.2.velocity = ds.getD i 0) := by
  intro n
  induction n using Nat.strong_induction_on with
  | _ n ih =>
    intro ds hlen s ev hty hq hds i r hr
    have h2 : (status_event_at s.type).qlen = 2 := by rw [hty]; rfl
    have ht8 : s.type ≠ ((ST_SYSEX : Nat) : Int) := by rw [hty]; decide
    match ds, hlen, hds, hr with
    | [], _, _, hr => simp [feed] at hr
    | [d1], _, hds, hr =>
      have hd1 : d1 < 128 := hds d1 (by simp)
      simp only [List.map, Int.ofNat_eq_coe, feed] at hr
      rw [step_running_more s ev d1 hq hd1 h2 ht8] at hr
      match i, hr with
      | 0, hr =>
        simp at hr
        subst hr
        exact ⟨fun _ => rfl, fun h => absurd h (by decide)⟩
      | i + 1, hr => simp at hr
    | d1 :: d2 :: rest, hlen, hds, hr =>
      have hd1 : d1 < 128 := hds d1 (by simp)
      have hd2 : d2 < 128 := hds d2 (by simp)
      simp only [List.map, Int.ofNat_eq_coe] at hr
      rw [feed_running_two s ev d1 d2 _ hq h2 ht8 hd1 hd2] at hr
      match i, hr with
      | 0, hr =>
        simp at hr
        subst hr
        exact ⟨fun _ => rfl, fun h => absurd h (by decide)⟩
      | 1, hr =>
        simp at hr
        subst hr
        refine ⟨fun h => absurd h (by decide), fun _ => ⟨rfl, ?_, ?_, ?_, ?_⟩⟩
        · simp [fixed_event, hty, status_event_at_0, note_event]
        · simp [fixed_event, hty, status_event_at_0, note_event]
        · simp [fixed_event, hty, status_event_at_0, note_event, store_apply]
        · simp [fixed_event, hty, status_event_at_0, note_event, store_apply]
      | i + 2, hr =>
        simp only [List.getElem?_cons_succ] at hr
        simp only [List.length_cons] at hlen
        have hrest := ih rest.length (by omega) rest rfl
          { s with read := 3, buf := store (store s.buf 1 d1) 2 d2, qlen := 0 }
          (fixed_event { s with read := 3, buf := store (store s.buf 1 d1) 2 d2, qlen := 0 } ev)
          hty (le_refl (0 : Int)) (fun d hd => hds d (by simp [hd])) i r
          (by simpa [Int.ofNat_eq_coe] using hr)
        refine ⟨fun h => hrest.1 (by omega), fun h => ?_⟩
        obtain ⟨g1, g2, g3, g4, g5⟩ := hrest.2 (by omega)
        refine ⟨g1, g2, g3, ?_, ?_⟩
        · rw [g4]
          obtain ⟨j, rfl⟩ : ∃ j, i = j + 1 := ⟨i - 1, by omega⟩
          simp
        · rw [g5]
          simp

/-- The frame of a real-time byte: in every state, a byte `c` in 0xF8..0xFF makes
`snd_midi_event_encode_byte` return 1 with the kind of table slot `8 + (c - 0xF0)` and
fixed-length framing, and leaves `read`, `qlen`, `type`, `lastcmd`, `bufsize` and the buffer
unchanged.  Hence every later run from the state after the byte equals the run from the state
before it; and when the caller goes on with the event structure the real-time call wrote, the
return codes and states of the later calls are the same and every fixed-length message
completes with the same event (a SysEx chunk keeps the kind the structure had). -/
theorem realtime_byte_frame (dev : snd_midi_event) (c : Nat) (ev : snd_seq_event_t)
    (h1 : 0xF8 ≤ c) (h2 : c ≤ 0xFF) :
    (snd_midi_event_encode_byte dev (c : Int) ev).1 = 1 ∧
    (snd_midi_event_encode_byte dev (c : Int) ev).2.2.type =
      (status_event_at ((8 + (c - 0xF0) : Nat) : Int)).event ∧
    (snd_midi_event_encode_byte dev (c : Int) ev).2.2.length = SND_SEQ_EVENT_LENGTH_FIXED ∧
    (snd_midi_event_encode_byte dev (c : Int) ev).2.1.read = dev.read ∧
    (snd_midi_event_encode_byte dev (c : Int) ev).2.1.qlen = dev.qlen ∧
    (snd_midi_event_encode_byte dev (c : Int) ev).2.1.type = dev.type ∧
    (snd_midi_event_encode_byte dev (c : Int) ev).2.1.lastcmd = dev.lastcmd ∧
    (snd_midi_event_encode_byte dev (c : Int) ev).2.1.bufsize = dev.bufsize ∧
    (snd_midi_event_encode_byte dev (c : Int) ev).2.1.buf = dev.buf ∧
    (∀ (cs : List Int) (ev2 : snd_seq_event_t),
      feed (snd_midi_event_encode_byte dev (c : Int) ev).2.1 ev2 cs = feed dev ev2 cs) ∧
    (∀ (cs : List Int),
      (feed (snd_midi_event_encode_byte dev (c : Int) ev).2.1
          (snd_midi_event_encode_byte dev (c : Int) ev).2.2 cs).map (fun r => (r.1, r.2.1)) =
        (feed dev ev cs).map (fun r => (r.1, r.2.1)) ∧
      ∀ (i : Nat) (r r' : Int × snd_midi_event × snd_seq_event_t),
        (feed dev ev cs)[i]? = some r →
        (feed (snd_midi_event_encode_byte dev (c : Int) ev).2.1
          (snd_midi_event_encode_byte dev (c : Int) ev).2.2 cs)[i]? = some r' →
        r.1 = 1 → r.2.2.length = SND_SEQ_EVENT_LENGTH_FIXED → r'.2.2 = r.2.2) := by
  have hrt := encode_byte_realtime dev c ev h1 h2
  refine ⟨by rw [hrt], by rw [hrt], by rw [hrt], by rw [hrt], by rw [hrt], by rw [hrt],
    by rw [hrt], by rw [hrt], by rw [hrt], fun _ _ => by rw [hrt], fun cs => ?_⟩
  rw [hrt]
  have h := feed_same_but_kind cs dev ev _ (same_but_kind_with ev
    (status_event_at ((8 + (c - 0xF0) : Nat) : Int)).event SND_SEQ_EVENT_LENGTH_FIXED)
  exact ⟨h.1.symm, h.2⟩

/-! ## The claims -/

/-- C1. Round trip, status byte present.  Let `e` be an event of one of the seven channel-voice
kinds, with channel in 0..15 and in-range payload, decoded with capacity at least 3 on a state
whose `lastcmd` differs from the status byte of `e`.  Then the decoder emits the status byte
followed by the data bytes, and feeding these bytes one at a time to
`snd_midi_event_encode_byte` from a reset-encode state of buffer capacity at least 3 returns 0
for every byte but the last and 1 for the last, whose event has fixed-length framing and the
kind, channel and payload fields of `e`. -/
theorem C1_roundtrip_status_present (dev : snd_midi_event) (buf : Mem) (count : Int)
    (e : snd_seq_event_t) (enc : snd_midi_event) (ev0 : snd_seq_event_t) (t : Nat)
    (hk : e.type ∈ channel_voice_kinds) (hf : find_status_event e.type = some t)
    (hch : e.channel < 16) (hr : payload_in_range e) (hcount : 3 ≤ count)
    (hlast : dev.lastcmd ≠ decode_cmd t e) (_hcap : 3 ≤ enc.bufsize) :
    ∃ (n : Nat) (last : Int × snd_midi_event × snd_seq_event_t),
      decoded_bytes dev buf count e = decode_cmd t e :: payload_bytes t e ∧
      (decoded_bytes dev buf count e).length = n + 1 ∧
      return_codes (feed (snd_midi_event_reset_encode enc) ev0
        ((decoded_bytes dev buf count e).map Int.ofNat)) = List.replicate n 0 ++ [1] ∧
      (feed (snd_midi_event_reset_encode enc) ev0
        ((decoded_bytes dev buf count e).map Int.ofNat)).getLast? = some last ∧
      last.2.2.length = SND_SEQ_EVENT_LENGTH_FIXED ∧
      same_voice_event e last.2.2 := by
  have ht7 := channel_voice_slot _ _ hk hf
  have hv := decode_cmd_voice t e ht7
  have hq0 : (snd_midi_event_reset_encode enc).qlen ≤ 0 := by
    simp [snd_midi_event_reset_encode, reset_encode]
  rcases voice_payload_roundtrip e t hf ht7 hch hr with
    ⟨hq, d1, d2, h1, h2, hp, hfix⟩ | ⟨hq, d1, h1, hp, hfix⟩
  · have hd := decode_voice_status dev buf count e t hf ht7 hlast (by rw [hq]; omega)
    have hbytes : decoded_bytes dev buf count e = decode_cmd t e :: payload_bytes t e := by
      unfold decoded_bytes
      rw [hd.1, hd.2.2]
    have hfeed := feed_voice_two (snd_midi_event_reset_encode enc) ev0 (decode_cmd t e) t d1 d2 []
      hq0 hv.2.1 hv.2.2.1 hv.2.2.2.1 hv.2.2.2.2.1 ht7 hq h1 h2
    obtain ⟨S, hS⟩ : ∃ S : snd_midi_event, S = { snd_midi_event_reset_encode enc with
        read := 3,
        buf := store (store (store (snd_midi_event_reset_encode enc).buf 0 (decode_cmd t e)) 1
          d1) 2 d2,
        type := (t : Int), qlen := 0 } := ⟨_, rfl⟩
    rw [← hS] at hfeed
    refine ⟨2, (1, S, fixed_event S ev0), hbytes, ?_, ?_, ?_, ?_⟩
    · rw [hbytes, hp]; rfl
    · rw [hbytes, hp]
      simp only [List.map, Int.ofNat_eq_coe]
      rw [hfeed]
      simp [return_codes, feed, List.replicate]
    · rw [hbytes, hp]
      simp only [List.map, Int.ofNat_eq_coe]
      rw [hfeed]
      simp only [feed, List.getLast?_cons_cons, List.getLast?_singleton]
    · exact hfix S ev0 (store (snd_midi_event_reset_encode enc).buf 0 (decode_cmd t e))
        (by rw [hS]) (by rw [hS]) (by simp [store_apply])
  · have hd := decode_voice_status dev buf count e t hf ht7 hlast (by rw [hq]; omega)
    have hbytes : decoded_bytes dev buf count e = decode_cmd t e :: payload_bytes t e := by
      unfold decoded_bytes
      rw [hd.1, hd.2.2]
    have hfeed := feed_voice_one (snd_midi_event_reset_encode enc) ev0 (decode_cmd t e) t d1 []
      hq0 hv.2.1 hv.2.2.1 hv.2.2.2.1 hv.2.2.2.2.1 ht7 hq h1
    obtain ⟨S, hS⟩ : ∃ S : snd_midi_event, S = { snd_midi_event_reset_encode enc with
        read := 2,
        buf := store (store (snd_midi_event_reset_encode enc).buf 0 (decode_cmd t e)) 1 d1,
        type := (t : Int), qlen := 0 } := ⟨_, rfl⟩
    rw [← hS] at hfeed
    refine ⟨1, (1, S, fixed_event S ev0), hbytes, ?_, ?_, ?_, ?_⟩
    · rw [hbytes, hp]; rfl
    · rw [hbytes, hp]
      simp only [List.map, Int.ofNat_eq_coe]
      rw [hfeed]
      simp [return_codes, feed, List.replicate]
    · rw [hbytes, hp]
      simp only [List.map, Int.ofNat_eq_coe]
      rw [hfeed]
      simp only [feed, List.getLast?_cons_cons, List.getLast?_singleton]
    · exact hfix S ev0 (store (snd_midi_event_reset_encode enc).buf 0 (decode_cmd t e))
        (by rw [hS]) (by rw [hS]) (by simp [store_apply])

/-- Witness of C1: a pitch bend of value -100 on channel 5, decoded on a fresh state. -/
theorem C1_roundtrip_status_present_witness :
    ∃ (n : Nat) (last : Int × snd_midi_event × snd_seq_event_t),
      decoded_bytes (new_state 16) (fun _ => 0) 3
          { zero_event with type := SND_SEQ_EVENT_PITCHBEND, channel := 5, value := -100 } =
        decode_cmd 6
          { zero_event with type := SND_SEQ_EVENT_PITCHBEND, channel := 5, value := -100 } ::
        payload_bytes 6
          { zero_event with type := SND_SEQ_EVENT_PITCHBEND, channel := 5, value := -100 } ∧
      (decoded_bytes (new_state 16) (fun _ => 0) 3
          { zero_event with type := SND_SEQ_EVENT_PITCHBEND, channel := 5, value := -100
          }).length = n + 1 ∧
      return_codes (feed (snd_midi_event_reset_encode (new_state 16)) zero_event
        ((decoded_bytes (new_state 16) (fun _ => 0) 3
          { zero_event with type := SND_SEQ_EVENT_PITCHBEND, channel := 5, value := -100
          }).map Int.ofNat)) = List.replicate n 0 ++ [1] ∧
      (feed (snd_midi_event_reset_encode (new_state 16)) zero_event
        ((decoded_bytes (new_state 16) (fun _ => 0) 3
          { zero_event with type := SND_SEQ_EVENT_PITCHBEND, channel := 5, value := -100
          }).map Int.ofNat)).getLast? = some last ∧
      last.2.2.length = SND_SEQ_EVENT_LENGTH_FIXED ∧
      same_voice_event
        { zero_event with type := SND_SEQ_EVENT_PITCHBEND, channel := 5, value := -100 }
        last.2.2 :=
  C1_roundtrip_status_present (new_state 16) (fun _ => 0) 3
    { zero_event with type := SND_SEQ_EVENT_PITCHBEND, channel := 5, value := -100 }
    (new_state 16) zero_event 6 (by decide) rfl (by decide) (by decide) (by decide) (by decide)
    (by decide)

/-- C2. Round trip, running status suppressed.  Let `e1` and `e2` be channel-voice events of the
same kind and the same channel (0..15) with in-range fields, decoded one after the other with
capacity at least 3 on a state that starts from reset-decode.  The first call emits the status
byte and the data bytes of `e1`, the second the data bytes of `e2` only.  Feeding the
concatenation byte by byte from a reset-encode state yields the return codes
0..0,1,0..0,1: exactly two calls complete, the one on the last byte of `e1` with the kind,
channel and fields of `e1`, and the one on the last byte of `e2` with those of `e2`. -/
theorem C2_roundtrip_running_status (dev : snd_midi_event) (buf1 buf2 : Mem)
    (count1 count2 : Int) (e1 e2 : snd_seq_event_t) (enc : snd_midi_event)
    (ev0 : snd_seq_event_t) (t : Nat)
    (hk : e1.type ∈ channel_voice_kinds) (hf : find_status_event e1.type = some t)
    (hty : e2.type = e1.type) (hch : e2.channel = e1.channel) (hch1 : e1.channel < 16)
    (hr1 : payload_in_range e1) (hr2 : payload_in_range e2)
    (hc1 : 3 ≤ count1) (hc2 : 3 ≤ count2) (_hcap : 3 ≤ enc.bufsize) :
    ∃ (n1 n2 : Nat) (r1 r2 : Int × snd_midi_event × snd_seq_event_t),
      decoded_bytes (snd_midi_event_reset_decode dev) buf1 count1 e1 =
        decode_cmd t e1 :: payload_bytes t e1 ∧
      decoded_bytes (snd_midi_event_decode (snd_midi_event_reset_decode dev) buf1 count1 e1).2.1
        buf2 count2 e2 = payload_bytes t e2 ∧
      (decoded_bytes (snd_midi_event_reset_decode dev) buf1 count1 e1).length = n1 + 1 ∧
      (decoded_bytes (snd_midi_event_decode (snd_midi_event_reset_decode dev) buf1 count1 e1).2.1
        buf2 count2 e2).length = n2 + 1 ∧
      return_codes (feed (snd_midi_event_reset_encode enc) ev0
        ((decoded_bytes (snd_midi_event_reset_decode dev) buf1 count1 e1 ++
          decoded_bytes
            (snd_midi_event_decode (snd_midi_event_reset_decode dev) buf1 count1 e1).2.1
            buf2 count2 e2).map Int.ofNat)) =
        List.replicate n1 0 ++ [1] ++ (List.replicate n2 0 ++ [1]) ∧
      (feed (snd_midi_event_reset_encode enc) ev0
        ((decoded_bytes (snd_midi_event_reset_decode dev) buf1 count1 e1 ++
          decoded_bytes
            (snd_midi_event_decode (snd_midi_event_reset_decode dev) buf1 count1 e1).2.1
            buf2 count2 e2).map Int.ofNat))[n1]? = some r1 ∧
      (feed (snd_midi_event_reset_encode enc) ev0
        ((decoded_bytes (snd_midi_event_reset_decode dev) buf1 count1 e1 ++
          decoded_bytes
            (snd_midi_event_decode (snd_midi_event_reset_decode dev) buf1 count1 e1).2.1
            buf2 count2 e2).map Int.ofNat)).getLast? = some r2 ∧
      r1.2.2.length = SND_SEQ_EVENT_LENGTH_FIXED ∧ same_voice_event e1 r1.2.2 ∧
      r2.2.2.length = SND_SEQ_EVENT_LENGTH_FIXED ∧ same_voice_event e2 r2.2.2 := by
  have ht7 := channel_voice_slot _ _ hk hf
  have hf2 : find_status_event e2.type = some t := by rw [hty]; exact hf
  have hv := decode_cmd_voice t e1 ht7
  have hcmd : decode_cmd t e2 = decode_cmd t e1 := by
    rw [decode_cmd_voice_eq t e2 ht7, decode_cmd_voice_eq t e1 ht7, hch]
  have hq0 : (snd_midi_event_reset_encode enc).qlen ≤ 0 := by
    simp [snd_midi_event_reset_encode, reset_encode]
  have hl1 : (snd_midi_event_reset_decode dev).lastcmd ≠ decode_cmd t e1 := by
    simp only [snd_midi_event_reset_decode]
    omega
  have ht8 : (t : Int) ≠ (ST_SYSEX : Int) := by
    simp only [ST_SYSEX, ST_SPECIAL]; omega
  rcases voice_payload_roundtrip e1 t hf ht7 hch1 hr1 with
    ⟨hq, d1, d2, h1, h2, hp, hfix⟩ | ⟨hq, d1, h1, hp, hfix⟩ <;>
  rcases voice_payload_roundtrip e2 t hf2 ht7 (by rw [hch]; exact hch1) hr2 with
    ⟨hq', d1', d2', h1', h2', hp', hfix'⟩ | ⟨hq', d1', h1', hp', hfix'⟩
  · have hd := decode_voice_status (snd_midi_event_reset_decode dev) buf1 count1 e1 t hf ht7 hl1
      (by rw [hq]; omega)
    have hbytes : decoded_bytes (snd_midi_event_reset_decode dev) buf1 count1 e1 =
        decode_cmd t e1 :: payload_bytes t e1 := by
      unfold decoded_bytes
      rw [hd.1, hd.2.2]
    have hd2 := decode_voice_running
      (snd_midi_event_decode (snd_midi_event_reset_decode dev) buf1 count1 e1).2.1 buf2 count2 e2
      t hf2 ht7 (by rw [hd.2.1, hcmd]) (by rw [hq]; omega)
    have hbytes2 : decoded_bytes
        (snd_midi_event_decode (snd_midi_event_reset_decode dev) buf1 count1 e1).2.1
        buf2 count2 e2 = payload_bytes t e2 := by
      unfold decoded_bytes
      rw [hd2.1, hd2.2.2]
    obtain ⟨S, hS⟩ : ∃ S : snd_midi_event, S = { snd_midi_event_reset_encode enc with
        read := 3,
        buf := store (store (store (snd_midi_event_reset_encode enc).buf 0 (decode_cmd t e1)) 1
          d1) 2 d2,
        type := (t : Int), qlen := 0 } := ⟨_, rfl⟩
    have hfeed := feed_voice_two (snd_midi_event_reset_encode enc) ev0 (decode_cmd t e1) t d1 d2
      [(d1' : Int), (d2' : Int)]
      hq0 hv.2.1 hv.2.2.1 hv.2.2.2.1 hv.2.2.2.2.1 ht7 hq h1 h2
    rw [← hS] at hfeed
    have hfeed2 := feed_running_two S (fixed_event S ev0) d1' d2' []
      (by rw [hS]) (by rw [hS]; exact hq) (by rw [hS]; exact ht8) h1' h2'
    obtain ⟨S', hS'⟩ : ∃ S' : snd_midi_event,
      S' = { S with read := 3, buf := store (store S.buf 1 d1') 2 d2', qlen := 0 } := ⟨_, rfl⟩
    rw [← hS'] at hfeed2
    rw [hfeed2] at hfeed
    rw [hbytes, hbytes2, hp, hp']
    refine ⟨2, 1, (1, S, fixed_event S ev0), (1, S', fixed_event S' (fixed_event S ev0)),
      rfl, rfl, rfl, rfl, ?_, ?_, ?_, ?_, ?_, ?_⟩
    · simp only [List.map, Int.ofNat_eq_coe, List.cons_append, List.nil_append]
      rw [hfeed]
      simp [return_codes, feed, List.replicate]
    · simp only [List.map, Int.ofNat_eq_coe, List.cons_append, List.nil_append]
      rw [hfeed]
      rfl
    · simp only [List.map, Int.ofNat_eq_coe, List.cons_append, List.nil_append]
      rw [hfeed]
      simp only [feed, List.getLast?_cons_cons, List.getLast?_singleton]
    · exact (hfix S ev0 (store (snd_midi_event_reset_encode enc).buf 0 (decode_cmd t e1))
        (by rw [hS]) (by rw [hS]) (by simp [store_apply])).1
    · exact (hfix S ev0 (store (snd_midi_event_reset_encode enc).buf 0 (decode_cmd t e1))
        (by rw [hS]) (by rw [hS]) (by simp [store_apply])).2
    · exact hfix' S' (fixed_event S ev0) S.buf
        (by rw [hS', hS]) (by rw [hS']) (by rw [hS, hcmd]; simp [store_apply])
  · omega
  · omega
  · have hd := decode_voice_status (snd_midi_event_reset_decode dev) buf1 count1 e1 t hf ht7 hl1
      (by rw [hq]; omega)
    have hbytes : decoded_bytes (snd_midi_event_reset_decode dev) buf1 count1 e1 =
        decode_cmd t e1 :: payload_bytes t e1 := by
      unfold decoded_bytes
      rw [hd.1, hd.2.2]
    have hd2 := decode_voice_running
      (snd_midi_event_decode (snd_midi_event_reset_decode dev) buf1 count1 e1).2.1 buf2 count2 e2
      t hf2 ht7 (by rw [hd.2.1, hcmd]) (by rw [hq]; omega)
    have hbytes2 : decoded_bytes
        (snd_midi_event_decode (snd_midi_event_reset_decode dev) buf1 count1 e1).2.1
        buf2 count2 e2 = payload_bytes t e2 := by
      unfold decoded_bytes
      rw [hd2.1, hd2.2.2]
    obtain ⟨S, hS⟩ : ∃ S : snd_midi_event, S = { snd_midi_event_reset_encode enc with
        read := 2,
        buf := store (store (snd_midi_event_reset_encode enc).buf 0 (decode_cmd t e1)) 1 d1,
        type := (t : Int), qlen := 0 } := ⟨_, rfl⟩
    have hfeed := feed_voice_one (snd_midi_event_reset_encode enc) ev0 (decode_cmd t e1) t d1
      [(d1' : Int)]
      hq0 hv.2.1 hv.2.2.1 hv.2.2.2.1 hv.2.2.2.2.1 ht7 hq h1
    rw [← hS] at hfeed
    have hfeed2 := feed_running_one S (fixed_event S ev0) d1' []
      (by rw [hS]) (by rw [hS]; exact hq) h1'
    obtain ⟨S', hS'⟩ : ∃ S' : snd_midi_event,
      S' = { S with read := 2, buf := store S.buf 1 d1', qlen := 0 } := ⟨_, rfl⟩
    rw [← hS'] at hfeed2
    rw [hfeed2] at hfeed
    rw [hbytes, hbytes2, hp, hp']
    refine ⟨1, 0, (1, S, fixed_event S ev0), (1, S', fixed_event S' (fixed_event S ev0)),
      rfl, rfl, rfl, rfl, ?_, ?_, ?_, ?_, ?_, ?_⟩
    · simp only [List.map, Int.ofNat_eq_coe, List.cons_append, List.nil_append]
      rw [hfeed]
      simp [return_codes, feed, List.replicate]
    · simp only [List.map, Int.ofNat_eq_coe, List.cons_append, List.nil_append]
      rw [hfeed]
      rfl
    · simp only [List.map, Int.ofNat_eq_coe, List.cons_append, List.nil_append]
      rw [hfeed]
      simp only [feed, List.getLast?_cons_cons, List.getLast?_singleton]
    · exact (hfix S ev0 (store (snd_midi_event_reset_encode enc).buf 0 (decode_cmd t e1))
        (by rw [hS]) (by rw [hS]) (by simp [store_apply])).1
    · exact (hfix S ev0 (store (snd_midi_event_reset_encode enc).buf 0 (decode_cmd t e1))
        (by rw [hS]) (by rw [hS]) (by simp [store_apply])).2
    · exact hfix' S' (fixed_event S ev0) S.buf
        (by rw [hS', hS]) (by rw [hS']) (by rw [hS, hcmd]; simp [store_apply])

/-- Witness of C2: two controller changes on channel 2. -/
theorem C2_roundtrip_running_status_witness :
    ∃ (n1 n2 : Nat) (r1 r2 : Int × snd_midi_event × snd_seq_event_t),
      decoded_bytes (snd_midi_event_reset_decode (new_state 16)) (fun _ => 0) 3 controller_7_100 =
        decode_cmd 3 controller_7_100 :: payload_bytes 3 controller_7_100 ∧
      decoded_bytes (snd_midi_event_decode (snd_midi_event_reset_decode (new_state 16)) (fun _ => 0) 3 controller_7_100).2.1
        (fun _ => 0) 3 controller_10_64 = payload_bytes 3 controller_10_64 ∧
      (decoded_bytes (snd_midi_event_reset_decode (new_state 16)) (fun _ => 0) 3 controller_7_100).length = n1 + 1 ∧
      (decoded_bytes (snd_midi_event_decode (snd_midi_event_reset_decode (new_state 16)) (fun _ => 0) 3 controller_7_100).2.1
        (fun _ => 0) 3 controller_10_64).length = n2 + 1 ∧
      return_codes (feed (snd_midi_event_reset_encode (new_state 16)) zero_event
        ((decoded_bytes (snd_midi_event_reset_decode (new_state 16)) (fun _ => 0) 3 controller_7_100 ++
          decoded_bytes
            (snd_midi_event_decode (snd_midi_event_reset_decode (new_state 16)) (fun _ => 0) 3 controller_7_100).2.1
            (fun _ => 0) 3 controller_10_64).map Int.ofNat)) =
        List.replicate n1 0 ++ [1] ++ (List.replicate n2 0 ++ [1]) ∧
      (feed (snd_midi_event_reset_encode (new_state 16)) zero_event
        ((decoded_bytes (snd_midi_event_reset_decode (new_state 16)) (fun _ => 0) 3 controller_7_100 ++
          decoded_bytes
            (snd_midi_event_decode (snd_midi_event_reset_decode (new_state 16)) (fun _ => 0) 3 controller_7_100).2.1
            (fun _ => 0) 3 controller_10_64).map Int.ofNat))[n1]? = some r1 ∧
      (feed (snd_midi_event_reset_encode (new_state 16)) zero_event
        ((decoded_bytes (snd_midi_event_reset_decode (new_state 16)) (fun _ => 0) 3 controller_7_100 ++
          decoded_bytes
            (snd_midi_event_decode (snd_midi_event_reset_decode (new_state 16)) (fun _ => 0) 3 controller_7_100).2.1
            (fun _ => 0) 3 controller_10_64).map Int.ofNat)).getLast? = some r2 ∧
      r1.2.2.length = SND_SEQ_EVENT_LENGTH_FIXED ∧ same_voice_event controller_7_100 r1.2.2 ∧
      r2.2.2.length = SND_SEQ_EVENT_LENGTH_FIXED ∧ same_voice_event controller_10_64 r2.2.2 :=
  C2_roundtrip_running_status (new_state 16) (fun _ => 0) (fun _ => 0) 3 3 controller_7_100
    controller_10_64 (new_state 16) zero_event 3 (by decide) rfl rfl rfl (by decide) (by decide)
    (by decide) (by decide) (by decide) (by decide)

/-- C3, counterexample to the claim as stated.  A note-on on channel 16 followed by a note-on on
channel 0: the channels differ, yet the second call emits its two data bytes only, because
the status byte is built from `channel & 0x0f`. -/
theorem C3_same_status_on_other_channel :
    (16 : Nat) ≠ 0 ∧
    (snd_midi_event_decode (snd_midi_event_decode (new_state 16) (fun _ => 0) 3
        { zero_event with type := SND_SEQ_EVENT_NOTEON, channel := 16, note := 60,
                          velocity := 100 }).2.1
      (fun _ => 0) 3
      { zero_event with type := SND_SEQ_EVENT_NOTEON, channel := 0, note := 62,
                        velocity := 90 }).1 = 2 ∧
    bytes_of (snd_midi_event_decode (snd_midi_event_decode (new_state 16) (fun _ => 0) 3
        { zero_event with type := SND_SEQ_EVENT_NOTEON, channel := 16, note := 60,
                          velocity := 100 }).2.1
      (fun _ => 0) 3
      { zero_event with type := SND_SEQ_EVENT_NOTEON, channel := 0, note := 62,
                        velocity := 90 }).2.2 2 = [62, 90] := by
  decide

/-- C3, amended.  Let `A` be a status-table event other than SysEx and `B` a channel-voice event,
decoded one after the other (the second with sufficient capacity) from any state.  If `A` has
the kind of `B` and the two channels agree in their low four bits (`channel & 0x0F`), the
output of `B` is its `qlen` data bytes only; in every other case it is the status byte
`0x80 | (slot << 4) | (channel & 0x0F)` followed by the data bytes.  In particular two
controller changes on one channel decoded from a reset-decode state give 3 bytes and then 2
bytes. -/
theorem C3_running_status_rule (dev : snd_midi_event) (bufA bufB : Mem) (countA countB : Int)
    (A B : snd_seq_event_t) (tA tB : Nat)
    (hA : find_status_event A.type = some tA) (hAn : A.type ≠ SND_SEQ_EVENT_NONE)
    (hAs : A.type ≠ SND_SEQ_EVENT_SYSEX)
    (hBk : B.type ∈ channel_voice_kinds) (hB : find_status_event B.type = some tB)
    (hcap : (status_event_at tB).qlen + 1 ≤ countB) :
    (A.type = B.type ∧ A.channel &&& 0x0F = B.channel &&& 0x0F →
      (snd_midi_event_decode (snd_midi_event_decode dev bufA countA A).2.1 bufB countB B).1 =
        (status_event_at tB).qlen ∧
      bytes_of
        (snd_midi_event_decode (snd_midi_event_decode dev bufA countA A).2.1 bufB countB B).2.2
        (status_event_at tB).qlen = payload_bytes tB B) ∧
    (¬ (A.type = B.type ∧ A.channel &&& 0x0F = B.channel &&& 0x0F) →
      (snd_midi_event_decode (snd_midi_event_decode dev bufA countA A).2.1 bufB countB B).1 =
        (status_event_at tB).qlen + 1 ∧
      bytes_of
        (snd_midi_event_decode (snd_midi_event_decode dev bufA countA A).2.1 bufB countB B).2.2
        ((status_event_at tB).qlen + 1) =
          (0x80 ||| (tB <<< 4) ||| (B.channel &&& 0x0F)) :: payload_bytes tB B) ∧
    (A.type = SND_SEQ_EVENT_CONTROLLER → B.type = SND_SEQ_EVENT_CONTROLLER →
      A.channel = B.channel → 3 ≤ countA →
      (snd_midi_event_decode (snd_midi_event_reset_decode dev) bufA countA A).1 = 3 ∧
      (snd_midi_event_decode
        (snd_midi_event_decode (snd_midi_event_reset_decode dev) bufA countA A).2.1
        bufB countB B).1 = 2) := by
  have hB7 := channel_voice_slot _ _ hBk hB
  have hiff := decode_cmd_eq_iff A B tA tB hA hAn hB hB7
  have hlast : ∀ d : snd_midi_event,
      (snd_midi_event_decode d bufA countA A).2.1.lastcmd = decode_cmd tA A :=
    fun d => decode_lastcmd d bufA countA A tA hA hAn hAs
  refine ⟨fun hsame => ?_, fun hdiff => ?_, fun hAc hBc hch hcA => ?_⟩
  · have hl : (snd_midi_event_decode dev bufA countA A).2.1.lastcmd = decode_cmd tB B := by
      rw [hlast, hiff.mpr hsame]
    have h := decode_voice_running _ bufB countB B tB hB hB7 hl (by omega)
    exact ⟨h.1, h.2.2⟩
  · have hl : (snd_midi_event_decode dev bufA countA A).2.1.lastcmd ≠ decode_cmd tB B := by
      rw [hlast]
      exact fun h => hdiff (hiff.mp h)
    have h := decode_voice_status _ bufB countB B tB hB hB7 hl hcap
    rw [decode_cmd_voice_eq tB B hB7] at h
    exact ⟨h.1, h.2.2⟩
  · have htA : tA = 3 := by
      rw [hAc] at hA
      exact (Option.some.inj hA).symm
    have htB : tB = 3 := by
      rw [hBc] at hB
      exact (Option.some.inj hB).symm
    subst htA
    subst htB
    have hq : (status_event_at ((3 : Nat) : Int)).qlen = 2 := rfl
    have hvA := decode_cmd_voice 3 A (by decide)
    have hlA : (snd_midi_event_reset_decode dev).lastcmd ≠ decode_cmd 3 A := by
      simp only [snd_midi_event_reset_decode]
      omega
    have h1 := decode_voice_status (snd_midi_event_reset_decode dev) bufA countA A 3 hA
      (by decide) hlA (by rw [hq]; omega)
    have hl : (snd_midi_event_decode (snd_midi_event_reset_decode dev) bufA countA A).2.1.lastcmd
        = decode_cmd 3 B := by
      rw [hlast, hiff.mpr ⟨by rw [hAc, hBc], by rw [hch]⟩]
    have h2 := decode_voice_running _ bufB countB B 3 hB (by decide) hl (by omega)
    rw [hq] at h1 h2
    exact ⟨h1.1, h2.1⟩

/-- Witness of C3: two controller changes on channel 2, the second one without status byte. -/
theorem C3_running_status_rule_witness :
    (snd_midi_event_decode (snd_midi_event_decode (new_state 16) (fun _ => 0) 3
        { zero_event with type := SND_SEQ_EVENT_CONTROLLER, channel := 2, param := 7,
                          value := 100 }).2.1
      (fun _ => 0) 3
      { zero_event with type := SND_SEQ_EVENT_CONTROLLER, channel := 2, param := 10,
                        value := 64 }).1 = (status_event_at (3 : Nat)).qlen ∧
    bytes_of (snd_midi_event_decode (snd_midi_event_decode (new_state 16) (fun _ => 0) 3
        { zero_event with type := SND_SEQ_EVENT_CONTROLLER, channel := 2, param := 7,
                          value := 100 }).2.1
      (fun _ => 0) 3
      { zero_event with type := SND_SEQ_EVENT_CONTROLLER, channel := 2, param := 10,
                        value := 64 }).2.2 (status_event_at (3 : Nat)).qlen =
      payload_bytes 3 { zero_event with type := SND_SEQ_EVENT_CONTROLLER, channel := 2,
                                        param := 10, value := 64 } :=
  (C3_running_status_rule (new_state 16) (fun _ => 0) (fun _ => 0) 3 3
    { zero_event with type := SND_SEQ_EVENT_CONTROLLER, channel := 2, param := 7, value := 100 }
    { zero_event with type := SND_SEQ_EVENT_CONTROLLER, channel := 2, param := 10, value := 64 }
    3 3 rfl (by decide) (by decide) (by decide) rfl (by decide)).1 ⟨rfl, rfl⟩

/-- C4, counterexample to the claim as stated.  With a buffer of 2 bytes the message
0xF0 0x01 0xF7 comes out in two chunks whose concatenation is the whole message: the
terminator 0xF7 is part of the last chunk, so the concatenation is not the payload up to and
excluding the terminator. -/
theorem C4_chunks_include_terminator :
    complete_count (feed (snd_midi_event_reset_encode (new_state 2)) zero_event
      [0xF0, 0x01, 0xF7]) = 2 ∧
    emitted_bytes (feed (snd_midi_event_reset_encode (new_state 2)) zero_event
      [0xF0, 0x01, 0xF7]) = [0xF0, 0x01, 0xF7] ∧
    emitted_bytes (feed (snd_midi_event_reset_encode (new_state 2)) zero_event
      [0xF0, 0x01, 0xF7]) ≠ [0xF0, 0x01] ∧
    emitted_bytes (feed (snd_midi_event_reset_encode (new_state 2)) zero_event
      [0xF0, 0x01, 0xF7]) ≠ [0x01] := by
  decide

/-- C4, amended.  SysEx streaming: for a buffer capacity of at least 1 and a message
0xF0, d1..dn, 0xF7 (every `di` below 0x80) longer than the capacity, feeding the message byte
by byte from a reset-encode state returns only 0 and 1, at least two calls return 1, each
such call hands out a variable-length event whose `data.ext.ptr` is the accumulation buffer
and whose length is at most the capacity, and the chunks in order concatenate to the whole
message, the terminator 0xF7 included. -/
theorem C4_sysex_streaming (dev : snd_midi_event) (ev : snd_seq_event_t) (ds : List Nat)
    (hcap : 1 ≤ dev.bufsize) (hds : ∀ d ∈ ds, d < 0x80)
    (hlong : dev.bufsize < (ds.length : Int) + 2) :
    2 ≤ complete_count (feed (snd_midi_event_reset_encode dev) ev
      (((0xF0 :: ds) ++ [0xF7]).map Int.ofNat)) ∧
    (∀ x ∈ feed (snd_midi_event_reset_encode dev) ev (((0xF0 :: ds) ++ [0xF7]).map Int.ofNat),
      (x.1 = 0 ∨ x.1 = 1) ∧
      (x.1 = 1 → x.2.2.length = SND_SEQ_EVENT_LENGTH_VARIABLE ∧ x.2.2.ext_ptr = x.2.1.buf ∧
        ((chunk_of x).length : Int) ≤ dev.bufsize)) ∧
    emitted_bytes (feed (snd_midi_event_reset_encode dev) ev
      (((0xF0 :: ds) ++ [0xF7]).map Int.ofNat)) = (0xF0 :: ds) ++ [0xF7] := by
  obtain ⟨C, hC⟩ : ∃ C : Nat, dev.bufsize = (C : Int) := ⟨dev.bufsize.toNat, by omega⟩
  have hC1 : 1 ≤ C := by omega
  have hin : ((0xF0 :: ds) ++ [0xF7]).map Int.ofNat =
      ((0xF0 : Nat) : Int) :: (ds.map Int.ofNat ++ [Int.ofNat 0xF7]) := by
    simp
  have hq0 : (snd_midi_event_reset_encode dev).qlen ≤ 0 := by
    simp [snd_midi_event_reset_encode, reset_encode]
  have hacc := accumulate_sysex_start (snd_midi_event_reset_encode dev) hq0
  have hb := encode_byte_below_f8 (snd_midi_event_reset_encode dev) 0xF0 ev (by decide)
  rw [hacc] at hb
  have hne : ¬ ((0xF0 : Nat) = MIDI_CMD_COMMON_SYSEX_END) := by decide
  have key : (∀ x ∈ feed (snd_midi_event_reset_encode dev) ev
        (((0xF0 : Nat) : Int) :: (ds.map Int.ofNat ++ [Int.ofNat 0xF7])),
      (x.1 = 0 ∨ x.1 = 1) ∧
      (x.1 = 1 → x.2.2.length = SND_SEQ_EVENT_LENGTH_VARIABLE ∧ x.2.2.ext_ptr = x.2.1.buf ∧
        (chunk_of x).length ≤ C)) ∧
    emitted_bytes (feed (snd_midi_event_reset_encode dev) ev
        (((0xF0 : Nat) : Int) :: (ds.map Int.ofNat ++ [Int.ofNat 0xF7]))) =
      (0xF0 :: ds) ++ [0xF7] := by
    by_cases hfull : C = 1
    · have hstep : snd_midi_event_encode_byte (snd_midi_event_reset_encode dev)
          ((0xF0 : Nat) : Int) ev =
          (1, { snd_midi_event_reset_encode dev with
                  read := 0, buf := store (snd_midi_event_reset_encode dev).buf 0 0xF0,
                  type := (ST_SYSEX : Int), qlen := 1 },
            { ev with length := SND_SEQ_EVENT_LENGTH_VARIABLE, ext_len := 1,
                      ext_ptr := store (snd_midi_event_reset_encode dev).buf 0 0xF0 }) := by
        rw [hb]
        simp [hne, snd_midi_event_reset_encode, reset_encode, hC, hfull]
      have ih := feed_sysex_rest C ds
        { snd_midi_event_reset_encode dev with
            read := 0, buf := store (snd_midi_event_reset_encode dev).buf 0 0xF0,
            type := (ST_SYSEX : Int), qlen := 1 }
        { ev with length := SND_SEQ_EVENT_LENGTH_VARIABLE, ext_len := 1,
                  ext_ptr := store (snd_midi_event_reset_encode dev).buf 0 0xF0 }
        0 [] rfl rfl rfl (by omega) hC rfl hds
      simp only [feed, hstep]
      refine ⟨?_, ?_⟩
      · intro x hx
        rcases List.mem_cons.mp hx with hx | hx
        · subst hx
          refine ⟨Or.inr rfl, fun _ => ⟨rfl, rfl, ?_⟩⟩
          simp [chunk_of, bytes_of_length, hfull]
        · exact ih.1 x hx
      · simp only [emitted_bytes, if_true, chunk_of, bytes_of_1, store_apply]
        rw [ih.2]
        simp
    · have hstep : snd_midi_event_encode_byte (snd_midi_event_reset_encode dev)
          ((0xF0 : Nat) : Int) ev =
          (0, { snd_midi_event_reset_encode dev with
                  read := 1, buf := store (snd_midi_event_reset_encode dev).buf 0 0xF0,
                  type := (ST_SYSEX : Int), qlen := 1 }, ev) := by
        rw [hb]
        have : ¬ (1 : Int) ≥ (C : Int) := by omega
        simp [hne, snd_midi_event_reset_encode, reset_encode, hC, this]
      have ih := feed_sysex_rest C ds
        { snd_midi_event_reset_encode dev with
            read := 1, buf := store (snd_midi_event_reset_encode dev).buf 0 0xF0,
            type := (ST_SYSEX : Int), qlen := 1 }
        ev 1 [0xF0] rfl rfl rfl (by omega) hC (by simp [bytes_of_1, store_apply]) hds
      simp only [feed, hstep]
      refine ⟨?_, ?_⟩
      · intro x hx
        rcases List.mem_cons.mp hx with hx | hx
        · subst hx
          exact ⟨Or.inl rfl, fun h => absurd h (by simp)⟩
        · exact ih.1 x hx
      · have : ¬ ((0 : Int) = 1) := by decide
        simp only [emitted_bytes, this, if_false]
        rw [ih.2]
        simp
  rw [hin]
  refine ⟨?_, ?_, key.2⟩
  · have hle := emitted_bytes_length_le C _ (fun x hx h1 => ((key.1 x hx).2 h1).2.2)
    rw [key.2] at hle
    simp only [List.cons_append, List.length_cons, List.length_append, List.length_singleton,
      List.length_nil] at hle
    by_contra hlt
    have h1 : complete_count (feed (snd_midi_event_reset_encode dev) ev
        (((0xF0 : Nat) : Int) :: (ds.map Int.ofNat ++ [Int.ofNat 0xF7]))) ≤ 1 := by omega
    have h2 := Nat.mul_le_mul_right C h1
    omega
  · intro x hx
    obtain ⟨h1, h2⟩ := key.1 x hx
    refine ⟨h1, fun h => ?_⟩
    obtain ⟨a, b, c⟩ := h2 h
    refine ⟨a, b, ?_⟩
    rw [hC]
    exact_mod_cast c

/-- Witness of C4: a message of five bytes through a buffer of two. -/
theorem C4_sysex_streaming_witness :
    2 ≤ complete_count (feed (snd_midi_event_reset_encode (new_state 2)) zero_event
      (((0xF0 :: [0x01, 0x02, 0x03]) ++ [0xF7]).map Int.ofNat)) ∧
    (∀ x ∈ feed (snd_midi_event_reset_encode (new_state 2)) zero_event
        (((0xF0 :: [0x01, 0x02, 0x03]) ++ [0xF7]).map Int.ofNat),
      (x.1 = 0 ∨ x.1 = 1) ∧
      (x.1 = 1 → x.2.2.length = SND_SEQ_EVENT_LENGTH_VARIABLE ∧ x.2.2.ext_ptr = x.2.1.buf ∧
        ((chunk_of x).length : Int) ≤ (new_state 2).bufsize)) ∧
    emitted_bytes (feed (snd_midi_event_reset_encode (new_state 2)) zero_event
      (((0xF0 :: [0x01, 0x02, 0x03]) ++ [0xF7]).map Int.ofNat)) =
      (0xF0 :: [0x01, 0x02, 0x03]) ++ [0xF7] :=
  C4_sysex_streaming (new_state 2) zero_event [0x01, 0x02, 0x03] (by decide) (by decide)
    (by decide)

/-- C5, the code at the failing input.  The SysEx message 0xF0 0x01 0x02 0xF7 fed to a fresh
state, once as it is and once with the real-time byte 0xFE injected after 0x01, the caller
handing the same event structure to every call.  The real-time call returns 1 with the kind
`SENSING` and fixed framing and leaves the state as it was, and both runs end with the same
state and the same chunk 0xF0 0x01 0x02 0xF7; but the event of the completed SysEx has the
kind `SENSING` in the run with the real-time byte and `NONE` in the run without it, because
the SysEx branch never assigns `ev->type`. -/
theorem C5_sysex_kind_after_realtime :
    (feed (new_state 16) zero_event [0xF0, 0x01, 0xFE, 0x02, 0xF7]).map
        (fun r => (r.1, r.2.2.type, r.2.2.length)) =
      [(0, SND_SEQ_EVENT_NONE, SND_SEQ_EVENT_LENGTH_FIXED),
       (0, SND_SEQ_EVENT_NONE, SND_SEQ_EVENT_LENGTH_FIXED),
       (1, SND_SEQ_EVENT_SENSING, SND_SEQ_EVENT_LENGTH_FIXED),
       (0, SND_SEQ_EVENT_SENSING, SND_SEQ_EVENT_LENGTH_FIXED),
       (1, SND_SEQ_EVENT_SENSING, SND_SEQ_EVENT_LENGTH_VARIABLE)] ∧
    (feed (new_state 16) zero_event [0xF0, 0x01, 0x02, 0xF7]).map
        (fun r => (r.1, r.2.2.type, r.2.2.length)) =
      [(0, SND_SEQ_EVENT_NONE, SND_SEQ_EVENT_LENGTH_FIXED),
       (0, SND_SEQ_EVENT_NONE, SND_SEQ_EVENT_LENGTH_FIXED),
       (0, SND_SEQ_EVENT_NONE, SND_SEQ_EVENT_LENGTH_FIXED),
       (1, SND_SEQ_EVENT_NONE, SND_SEQ_EVENT_LENGTH_VARIABLE)] ∧
    (feed (new_state 16) zero_event [0xF0, 0x01, 0xFE, 0x02, 0xF7]).map
        (fun r => (r.2.1.read, r.2.1.qlen, r.2.1.type)) =
      [(1, 1, 8), (2, 1, 8), (2, 1, 8), (3, 1, 8), (0, 0, 0)] ∧
    (feed (new_state 16) zero_event [0xF0, 0x01, 0x02, 0xF7]).map
        (fun r => (r.2.1.read, r.2.1.qlen, r.2.1.type)) =
      [(1, 1, 8), (2, 1, 8), (3, 1, 8), (0, 0, 0)] ∧
    (feed (new_state 16) zero_event [0xF0, 0x01, 0xFE, 0x02, 0xF7]).getLast?.map chunk_of =
      some [0xF0, 0x01, 0x02, 0xF7] ∧
    (feed (new_state 16) zero_event [0xF0, 0x01, 0x02, 0xF7]).getLast?.map chunk_of =
      some [0xF0, 0x01, 0x02, 0xF7] ∧
    (feed (new_state 16) zero_event [0xF0, 0x01, 0xFE, 0x02, 0xF7]).getLast?.map
        (fun r => r.2.2.type) ≠
      (feed (new_state 16) zero_event [0xF0, 0x01, 0x02, 0xF7]).getLast?.map
        (fun r => r.2.2.type) := by
  decide

/-- C6. Capacity failure: for every state and every status-table event other than SysEx, a
capacity below the number of bytes the call would emit (`qlen + 1` when the status byte is
emitted, `qlen` when running status suppresses it) makes `snd_midi_event_decode` return
`-ENOMEM` and leave the destination buffer unchanged; in particular a note-on with capacity 1
fails so in every state. -/
theorem C6_capacity_failure (dev : snd_midi_event) (buf : Mem) (count : Int)
    (ev : snd_seq_event_t) :
    (∀ t, find_status_event ev.type = some t → ev.type ≠ SND_SEQ_EVENT_NONE →
      ev.type ≠ SND_SEQ_EVENT_SYSEX →
      count < (status_event_at t).qlen +
        (if decode_cmd t ev &&& 0xf0 = 0xf0 ∨ dev.lastcmd ≠ decode_cmd t ev then 1 else 0) →
      (snd_midi_event_decode dev buf count ev).1 = -ENOMEM ∧
      (snd_midi_event_decode dev buf count ev).2.2 = buf) ∧
    (ev.type = SND_SEQ_EVENT_NOTEON →
      (snd_midi_event_decode dev buf 1 ev).1 = -ENOMEM ∧
      (snd_midi_event_decode dev buf 1 ev).2.2 = buf) := by
  constructor
  · intro t hf hn hs hsmall
    rw [decode_of_found dev buf count ev t hn hf]
    have hc := decode_cmd_ne_sysex t ev hf hn hs
    unfold decode_found
    simp only [hc, if_false]
    split_ifs at hsmall with h1
    · simp only [h1, if_true]
      rw [if_pos hsmall]
      exact ⟨rfl, rfl⟩
    · simp only [h1, if_false]
      rw [if_pos (by simpa using hsmall)]
      exact ⟨rfl, rfl⟩
  · intro hon
    have hf : find_status_event ev.type = some 1 := by rw [hon]; rfl
    rw [decode_of_found dev buf 1 ev 1 (by rw [hon]; decide) hf]
    have hc := decode_cmd_ne_sysex 1 ev hf (by rw [hon]; decide) (by rw [hon]; decide)
    unfold decode_found
    simp only [hc, if_false]
    have hq : (status_event_at ((1:Nat):Int)).qlen = 2 := rfl
    split_ifs <;> first | exact ⟨rfl, rfl⟩ | (exfalso; simp at *; omega)

/-- Witness of C6: a note-on decoded with capacity 1 on a fresh state. -/
theorem C6_capacity_failure_witness :
    (snd_midi_event_decode (new_state 16) (fun _ => 0) 1
      { zero_event with type := SND_SEQ_EVENT_NOTEON, note := 60, velocity := 100 }).1 = -ENOMEM ∧
    (snd_midi_event_decode (new_state 16) (fun _ => 0) 1
      { zero_event with type := SND_SEQ_EVENT_NOTEON, note := 60, velocity := 100 }).2.2
      = fun _ => 0 :=
  (C6_capacity_failure (new_state 16) (fun _ => 0) 1
    { zero_event with type := SND_SEQ_EVENT_NOTEON, note := 60, velocity := 100 }).1 1
    rfl (by decide) (by decide) (by decide)

/-- C8, the code at the failing input.  A `CONTROL14` event with controller number 40 and value
5, decoded with capacity 3 into a buffer filled with 0xAA: the call returns 3, but the value
byte is stored at position 4 and position 2 keeps its old content. -/
theorem C8_ctrl14_short_value_at_4 :
    (snd_midi_event_decode (new_state 16) (fun _ => 0xAA) 3
      { zero_event with type := SND_SEQ_EVENT_CONTROL14, channel := 1, param := 40,
                        value := 5 }).1 = 3 ∧
    bytes_of (snd_midi_event_decode (new_state 16) (fun _ => 0xAA) 3
      { zero_event with type := SND_SEQ_EVENT_CONTROL14, channel := 1, param := 40,
                        value := 5 }).2.2 5 = [0xB1, 40, 0xAA, 0xAA, 5] := by
  decide

/-- C9, the code at the failing input.  A SysEx event with payload 0xF0 0x01 0xF7 and ordinary
variable-length framing, decoded with capacity 3 into a buffer filled with 0xAA: the call
returns 3, the destination buffer is unchanged and the payload is in the buffer of the coder
state instead. -/
theorem C9_sysex_copied_to_state_buffer :
    (snd_midi_event_decode (new_state 16) (fun _ => 0xAA) 3
      { zero_event with type := SND_SEQ_EVENT_SYSEX, length := SND_SEQ_EVENT_LENGTH_VARIABLE,
                        ext_len := 3,
                        ext_ptr := fun i => if i = 0 then 0xF0 else if i = 1 then 0x01 else 0xF7
      }).1 = 3 ∧
    bytes_of (snd_midi_event_decode (new_state 16) (fun _ => 0xAA) 3
      { zero_event with type := SND_SEQ_EVENT_SYSEX, length := SND_SEQ_EVENT_LENGTH_VARIABLE,
                        ext_len := 3,
                        ext_ptr := fun i => if i = 0 then 0xF0 else if i = 1 then 0x01 else 0xF7
      }).2.2 3 = [0xAA, 0xAA, 0xAA] ∧
    bytes_of (snd_midi_event_decode (new_state 16) (fun _ => 0xAA) 3
      { zero_event with type := SND_SEQ_EVENT_SYSEX, length := SND_SEQ_EVENT_LENGTH_VARIABLE,
                        ext_len := 3,
                        ext_ptr := fun i => if i = 0 then 0xF0 else if i = 1 then 0x01 else 0xF7
      }).2.1.buf 3 = [0xF0, 0x01, 0xF7] := by
  decide

/-- C10, counterexample to the claim as stated.  Decoding an event of kind `NONE` returns
`-ENOENT`, which is not `-EINVAL` and is the code returned for a kind that is in neither
table. -/
theorem C10_none_returns_enoent :
    (snd_midi_event_decode (new_state 16) (fun _ => 0) 3
      { zero_event with type := SND_SEQ_EVENT_NONE }).1 = -ENOENT ∧
    (snd_midi_event_decode (new_state 16) (fun _ => 0) 3
      { zero_event with type := SND_SEQ_EVENT_NONE }).1 ≠ -EINVAL ∧
    (snd_midi_event_decode (new_state 16) (fun _ => 0) 3
      { zero_event with type := SND_SEQ_EVENT_NONE }).1 =
    (snd_midi_event_decode (new_state 16) (fun _ => 0) 3
      { zero_event with type := SND_SEQ_EVENT_REGPARAM }).1 := by
  decide

/-- C10, amended.  For every state, destination buffer and capacity, `snd_midi_event_decode` on
an event of kind `NONE` returns `-ENOENT`, the code it also returns for a kind present in
neither the status table nor the extension table (and different from `-EINVAL`), and changes
neither the state nor the destination buffer. -/
theorem C10_none_is_not_found (dev : snd_midi_event) (buf : Mem) (count : Int)
    (ev : snd_seq_event_t) (h : ev.type = SND_SEQ_EVENT_NONE) :
    snd_midi_event_decode dev buf count ev = (-ENOENT, dev, buf) ∧
    (∀ (ev2 : snd_seq_event_t) (n : Nat),
      ev2.type = SND_SEQ_EVENT_NONREGPARAM ∨ ev2.type = SND_SEQ_EVENT_REGPARAM ∨
        ev2.type = snd_seq_event_type_t.OTHER n →
      snd_midi_event_decode dev buf count ev2 = (-ENOENT, dev, buf)) ∧
    -ENOENT ≠ -EINVAL := by
  refine ⟨by simp [snd_midi_event_decode, h], ?_, by decide⟩
  intro ev2 n h2
  rcases h2 with h2 | h2 | h2 <;>
    simp [snd_midi_event_decode, h2, find_status_event, find_event_from, status_event,
      extra_event]

/-- Witness of C10: the cleared event structure, whose kind is `NONE`. -/
theorem C10_none_is_not_found_witness :
    snd_midi_event_decode (new_state 16) (fun _ => 0) 3 zero_event
      = (-ENOENT, new_state 16, fun _ => 0) :=
  (C10_none_is_not_found (new_state 16) (fun _ => 0) 3 zero_event rfl).1

/-- C11. Pitch-bend bias.  For a pitch-bend event with value `v` in -8192..8191, decoded with
capacity at least 3, `snd_midi_event_decode` emits the data bytes `(v + 8192) & 0x7F` and
`((v + 8192) >> 7) & 0x7F` (after the status byte when it is due, alone under running status),
and `low + 128 * high = v + 8192`.  A pitch-bend message `0xE0 | ch`, `low`, `high` (data bytes
in 0..127) fed to `snd_midi_event_encode_byte` when no message is pending completes on the
third byte with the value `high * 128 + low - 8192`, which lies in -8192..8191 and equals `v`
for the two bytes made from `v`.  For `v = 0` the data bytes are 0x00, 0x40, and these two
bytes give the value 0. -/
theorem C11_pitchbend_bias (dev : snd_midi_event) (buf : Mem) (count : Int)
    (ev : snd_seq_event_t) (enc : snd_midi_event) (ev0 : snd_seq_event_t) (ch low high : Nat)
    (ht : ev.type = SND_SEQ_EVENT_PITCHBEND) (hv0 : -8192 ≤ ev.value) (hv1 : ev.value ≤ 8191)
    (hcount : 3 ≤ count) (hq : enc.qlen ≤ 0) (hch : ch < 16) (hlow : low < 128)
    (hhigh : high < 128) :
    (dev.lastcmd ≠ decode_cmd 6 ev →
      decoded_bytes dev buf count ev =
        [decode_cmd 6 ev, and7f (ev.value + 8192), and7f ((ev.value + 8192) >>> (7 : Nat))]) ∧
    (dev.lastcmd = decode_cmd 6 ev →
      decoded_bytes dev buf count ev =
        [and7f (ev.value + 8192), and7f ((ev.value + 8192) >>> (7 : Nat))]) ∧
    ((and7f (ev.value + 8192) : Nat) : Int) +
        128 * ((and7f ((ev.value + 8192) >>> (7 : Nat)) : Nat) : Int) = ev.value + 8192 ∧
    (∃ last : Int × snd_midi_event × snd_seq_event_t,
      (feed enc ev0 [((0xE0 ||| ch : Nat) : Int), (low : Int), (high : Int)]).getLast?
        = some last ∧
      last.1 = 1 ∧ last.2.2.type = SND_SEQ_EVENT_PITCHBEND ∧ last.2.2.channel = ch ∧
      last.2.2.value = (high : Int) * 128 + (low : Int) - 8192 ∧
      -8192 ≤ last.2.2.value ∧ last.2.2.value ≤ 8191 ∧
      (low = and7f (ev.value + 8192) → high = and7f ((ev.value + 8192) >>> (7 : Nat)) →
        last.2.2.value = ev.value) ∧
      (low = 0x00 → high = 0x40 → last.2.2.value = 0)) ∧
    (ev.value = 0 →
      and7f (ev.value + 8192) = 0x00 ∧ and7f ((ev.value + 8192) >>> (7 : Nat)) = 0x40) := by
  have hf : find_status_event ev.type = some 6 := by rw [ht]; rfl
  have hq6 : (status_event_at ((6 : Nat) : Int)).qlen = 2 := rfl
  refine ⟨fun hl => ?_, fun hl => ?_, pitchbend_bytes_sum _ hv0 hv1, ?_, fun h0 => ?_⟩
  · have hd := decode_voice_status dev buf count ev 6 hf (by decide) hl (by rw [hq6]; omega)
    unfold decoded_bytes
    rw [hd.1, hd.2.2, payload_bytes_pitchbend]
  · have hd := decode_voice_running dev buf count ev 6 hf (by decide) hl (by rw [hq6]; omega)
    unfold decoded_bytes
    rw [hd.1, hd.2.2, payload_bytes_pitchbend]
  · have hb := pitchbend_status_bits ⟨ch, hch⟩
    simp only at hb
    have hfeed := feed_voice_two enc ev0 (0xE0 ||| ch) 6 low high [] hq hb.1 hb.2.1 hb.2.2.1
      hb.2.2.2.1 (by decide) hq6 hlow hhigh
    obtain ⟨S, hS⟩ : ∃ S : snd_midi_event, S = { enc with
        read := 3, buf := store (store (store enc.buf 0 (0xE0 ||| ch)) 1 low) 2 high,
        type := ((6 : Nat) : Int), qlen := 0 } := ⟨_, rfl⟩
    rw [← hS] at hfeed
    have hval : (fixed_event S ev0).value = (high : Int) * 128 + (low : Int) - 8192 := by
      rw [hS]
      simp [fixed_event, status_event_at_6, pitchbend_ctrl_event, store_apply]
    have hty : (fixed_event S ev0).type = SND_SEQ_EVENT_PITCHBEND := by
      rw [hS]
      simp [fixed_event, status_event_at_6, pitchbend_ctrl_event]
    have hchan : (fixed_event S ev0).channel = ch := by
      rw [hS]
      simp [fixed_event, status_event_at_6, pitchbend_ctrl_event, store_apply, hb.2.2.2.2]
    refine ⟨(1, S, fixed_event S ev0), ?_, rfl, hty, hchan, hval, ?_, ?_, ?_, ?_⟩
    · rw [hfeed]
      simp only [feed, List.getLast?_cons_cons, List.getLast?_singleton]
    · show -8192 ≤ (fixed_event S ev0).value
      rw [hval]; omega
    · show (fixed_event S ev0).value ≤ 8191
      rw [hval]; omega
    · intro h1 h2
      show (fixed_event S ev0).value = ev.value
      rw [hval, h1, h2]
      exact pitchbend_bytes_value ev.value hv0 hv1
    · intro h1 h2
      show (fixed_event S ev0).value = 0
      rw [hval, h1, h2]
      norm_num
  · rw [h0]
    decide

/-- Witness of C11: the centre value 0 on channel 0, decoded on a fresh state, gives
0xE0 0x00 0x40. -/
theorem C11_pitchbend_bias_witness :
    decoded_bytes (new_state 16) (fun _ => 0) 3
      { zero_event with type := SND_SEQ_EVENT_PITCHBEND, value := 0 } = [0xE0, 0x00, 0x40] :=
  (C11_pitchbend_bias (new_state 16) (fun _ => 0) 3
    { zero_event with type := SND_SEQ_EVENT_PITCHBEND, value := 0 } (new_state 16) zero_event
    0 0x00 0x40 rfl (by decide) (by decide) (by decide) (by decide) (by decide) (by decide)
    (by decide)).1 (by decide)

/-- C12. Bulk encode.  For every state and every input, each call of
`snd_midi_event_encode_byte` made on the way returns 0 or 1 (never an error).  If `k` is the
1-based position of the first byte whose call returns 1, `snd_midi_event_encode` returns `k`
with the state and the event that feeding the first `k` bytes one at a time leaves (the later
bytes are not consumed).  If no call returns 1, it returns the number of input bytes, the
state is the one after all of them, and the kind of the event is `NONE`. -/
theorem C12_bulk_encode (dev : snd_midi_event) (buf : List Int) (ev : snd_seq_event_t) :
    (∀ r ∈ feed dev { ev with type := SND_SEQ_EVENT_NONE } buf, r.1 = 0 ∨ r.1 = 1) ∧
    (∀ (k : Nat) (last : Int × snd_midi_event × snd_seq_event_t), 1 ≤ k →
      return_codes (feed dev { ev with type := SND_SEQ_EVENT_NONE } (buf.take k)) =
        List.replicate (k - 1) 0 ++ [1] →
      (feed dev { ev with type := SND_SEQ_EVENT_NONE } (buf.take k)).getLast? = some last →
      snd_midi_event_encode dev buf ev = ((k : Int), last.2.1, last.2.2)) ∧
    (return_codes (feed dev { ev with type := SND_SEQ_EVENT_NONE } buf) =
        List.replicate buf.length 0 →
      snd_midi_event_encode dev buf ev =
        ((buf.length : Int), (feed_end dev { ev with type := SND_SEQ_EVENT_NONE } buf).1,
          { ev with type := SND_SEQ_EVENT_NONE }) ∧
      (snd_midi_event_encode dev buf ev).2.2.type = SND_SEQ_EVENT_NONE) := by
  refine ⟨feed_rc buf dev _, ?_, ?_⟩
  · intro k last hk hrc hlast
    have h := encode_loop_complete buf dev { ev with type := SND_SEQ_EVENT_NONE } 0 k last hk
      hrc hlast
    unfold snd_midi_event_encode
    rw [h]
    simp
  · intro hrc
    have h := encode_loop_incomplete buf dev { ev with type := SND_SEQ_EVENT_NONE } 0 hrc
    unfold snd_midi_event_encode
    rw [h]
    simp

/-- Witness of C12: the first two bytes of a note-on complete nothing, so the call returns with
the kind `NONE`. -/
theorem C12_bulk_encode_witness :
    snd_midi_event_encode (new_state 16) [0x90, 0x3C] zero_event =
        ((([0x90, 0x3C] : List Int).length : Int),
          (feed_end (new_state 16) { zero_event with type := SND_SEQ_EVENT_NONE }
            [0x90, 0x3C]).1,
          { zero_event with type := SND_SEQ_EVENT_NONE }) ∧
      (snd_midi_event_encode (new_state 16) [0x90, 0x3C] zero_event).2.2.type =
        SND_SEQ_EVENT_NONE :=
  (C12_bulk_encode (new_state 16) [0x90, 0x3C] zero_event).2.2 (by decide)

/-- C13. Lossless wire round trip, bytes to event to bytes.  Let `s` be a channel-voice status
0x80..0xEF, a system common status 0xF1, 0xF2, 0xF3, 0xF6 or a real-time status 0xF8, 0xFA,
0xFB, 0xFC, 0xFE, 0xFF, followed by as many data bytes (each in 0..127) as the table gives for
its slot.  Fed byte by byte to `snd_midi_event_encode_byte` from a reset-encode state of
capacity at least 3, the calls return 0 for every byte but the last and 1 for the last, the
read cursor stays within the capacity, and `snd_midi_event_decode` from a reset-decode state
with capacity at least 3 turns the event of the last call back into exactly `s` followed by
the data bytes. -/
theorem C13_wire_roundtrip (enc : snd_midi_event) (ev0 : snd_seq_event_t)
    (dec : snd_midi_event) (buf : Mem) (count : Int) (s : Nat) (ds : List Nat)
    (hs : wire_status s)
    (hlen : (ds.length : Int) = (status_event_at ((status_slot s : Nat) : Int)).qlen)
    (hds : ∀ d ∈ ds, d < 128) (hcap : 3 ≤ enc.bufsize) (hcount : 3 ≤ count) :
    ∃ last,
      return_codes (feed (snd_midi_event_reset_encode enc) ev0 ((s :: ds).map Int.ofNat)) =
        List.replicate ds.length 0 ++ [1] ∧
      (feed (snd_midi_event_reset_encode enc) ev0 ((s :: ds).map Int.ofNat)).getLast? =
        some last ∧
      last.1 = 1 ∧
      (∀ r ∈ feed (snd_midi_event_reset_encode enc) ev0 ((s :: ds).map Int.ofNat),
        0 ≤ r.2.1.read ∧ r.2.1.read ≤ r.2.1.bufsize) ∧
      decoded_bytes (snd_midi_event_reset_decode dec) buf count last.2.2 = s :: ds := by
  have key : ∃ last,
      return_codes (feed (snd_midi_event_reset_encode enc) ev0 ((s :: ds).map Int.ofNat)) =
        List.replicate ds.length 0 ++ [1] ∧
      (feed (snd_midi_event_reset_encode enc) ev0 ((s :: ds).map Int.ofNat)).getLast? =
        some last ∧
      decoded_bytes (snd_midi_event_reset_decode dec) buf count last.2.2 = s :: ds := by
    rcases hs with ⟨h1, h2⟩ | hs
    · obtain ⟨t, a, ht, ha, rfl⟩ := voice_status_form s h1 h2
      rw [status_slot_voice t a ht ha] at hlen
      exact wire_roundtrip_voice enc ev0 dec buf count t a ds ht ha hlen hds hcount
    · simp only [List.mem_cons, List.mem_singleton, List.not_mem_nil, or_false] at hs
      have h1 : 0xF0 ≤ s := by omega
      have h2 : s ≤ 0xFF := by omega
      rw [status_slot_system s h1 h2] at hlen
      rcases hs with h | h | h | h | h | h | h | h | h | h
      · exact wire_roundtrip_common enc ev0 dec buf count s ds (by omega) hlen hds hcount
      · exact wire_roundtrip_common enc ev0 dec buf count s ds (by omega) hlen hds hcount
      · exact wire_roundtrip_common enc ev0 dec buf count s ds (by omega) hlen hds hcount
      · exact wire_roundtrip_common enc ev0 dec buf count s ds (by omega) hlen hds hcount
      · exact wire_roundtrip_realtime enc ev0 dec buf count s ds (by omega) hlen hcount
      · exact wire_roundtrip_realtime enc ev0 dec buf count s ds (by omega) hlen hcount
      · exact wire_roundtrip_realtime enc ev0 dec buf count s ds (by omega) hlen hcount
      · exact wire_roundtrip_realtime enc ev0 dec buf count s ds (by omega) hlen hcount
      · exact wire_roundtrip_realtime enc ev0 dec buf count s ds (by omega) hlen hcount
      · exact wire_roundtrip_realtime enc ev0 dec buf count s ds (by omega) hlen hcount
  obtain ⟨last, hr, hl, hd⟩ := key
  refine ⟨last, hr, hl, ?_, fun r hr => encode_inv_read_le _
    (feed_invariant encode_inv encode_inv_step _ _ _ (encode_inv_reset enc hcap) r hr), hd⟩
  have hm : last ∈ feed (snd_midi_event_reset_encode enc) ev0 ((s :: ds).map Int.ofNat) :=
    List.mem_of_getLast?_eq_some hl
  have hlast : (return_codes (feed (snd_midi_event_reset_encode enc) ev0
      ((s :: ds).map Int.ofNat))).getLast? = some last.1 := by
    unfold return_codes
    rw [List.getLast?_map, hl]
    rfl
  rw [hr] at hlast
  simp at hlast
  exact hlast.symm

/-- Witness of C13: the note-on message 0x90 0x3C 0x64. -/
theorem C13_wire_roundtrip_witness :
    ∃ last,
      return_codes (feed (snd_midi_event_reset_encode (new_state 16)) zero_event
          (([0x90, 0x3C, 0x64] : List Nat).map Int.ofNat)) =
        List.replicate ([0x3C, 0x64] : List Nat).length 0 ++ [1] ∧
      (feed (snd_midi_event_reset_encode (new_state 16)) zero_event
          (([0x90, 0x3C, 0x64] : List Nat).map Int.ofNat)).getLast? = some last ∧
      last.1 = 1 ∧
      (∀ r ∈ feed (snd_midi_event_reset_encode (new_state 16)) zero_event
          (([0x90, 0x3C, 0x64] : List Nat).map Int.ofNat),
        0 ≤ r.2.1.read ∧ r.2.1.read ≤ r.2.1.bufsize) ∧
      decoded_bytes (snd_midi_event_reset_decode (new_state 16)) (fun _ => 0) 3 last.2.2 =
        [0x90, 0x3C, 0x64] :=
  C13_wire_roundtrip (new_state 16) zero_event (new_state 16) (fun _ => 0) 3 0x90 [0x3C, 0x64]
    (by decide) (by decide) (by decide) (by decide) (by decide)

/-- C14. Well-formed decoder output.  For every state and every status-table event other than
SysEx, whatever its channel, note, velocity, param and value fields, a call of
`snd_midi_event_decode` that succeeds writes `qlen` data bytes each below 128; a channel-voice
event (slot below 8) has the status byte `0x80 | (slot << 4) | (channel & 0x0F)`, whose high
bit is set and which is the first byte of the output when `lastcmd` differs from it and is
left out when `lastcmd` equals it; a system event (slot 8 or above) always has the first byte
`0xF0 + (slot - 8)`, whose high bit is set. -/
theorem C14_decoder_output_well_formed (dev : snd_midi_event) (buf : Mem) (count : Int)
    (ev : snd_seq_event_t) (t : Nat) (hf : find_status_event ev.type = some t)
    (hn : ev.type ≠ SND_SEQ_EVENT_NONE) (hs : ev.type ≠ SND_SEQ_EVENT_SYSEX)
    (hok : 0 ≤ (snd_midi_event_decode dev buf count ev).1) :
    (∀ d ∈ payload_bytes t ev, d < 128) ∧
    ((payload_bytes t ev).length : Int) = (status_event_at t).qlen ∧
    (t < 8 →
      (0x80 ||| (t <<< 4) ||| (ev.channel &&& 0x0F)) &&& 0x80 = 0x80 ∧
      (dev.lastcmd ≠ 0x80 ||| (t <<< 4) ||| (ev.channel &&& 0x0F) →
        decoded_bytes dev buf count ev =
          (0x80 ||| (t <<< 4) ||| (ev.channel &&& 0x0F)) :: payload_bytes t ev) ∧
      (dev.lastcmd = 0x80 ||| (t <<< 4) ||| (ev.channel &&& 0x0F) →
        decoded_bytes dev buf count ev = payload_bytes t ev)) ∧
    (8 ≤ t →
      (0xF0 + (t - 8)) &&& 0x80 = 0x80 ∧
      decoded_bytes dev buf count ev = (0xF0 + (t - 8)) :: payload_bytes t ev) := by
  obtain ⟨h24, hev⟩ := find_status_event_sound _ _ hf
  have ht7 : t ≠ 7 := by
    intro h; subst h; exact hn hev.symm
  have ht8 : t ≠ 8 := by
    intro h; subst h; exact hs hev.symm
  have hc := decode_cmd_ne_sysex t ev hf hn hs
  have hfound := decode_of_found dev buf count ev t hn hf
  refine ⟨payload_bytes_lt t ev h24, payload_bytes_length t ev h24 ht8, fun hlt => ?_,
    fun hge => ?_⟩
  · have hlt7 : t < 7 := by omega
    have hcmd := decode_cmd_voice_eq t ev hlt7
    have hv := decode_cmd_voice t ev hlt7
    refine ⟨voice_status_high_bit t ev hlt7, fun hl => ?_, fun hl => ?_⟩
    · rw [← hcmd] at hl ⊢
      have hcap : (status_event_at t).qlen + 1 ≤ count := by
        by_contra hcon
        rw [hfound, decode_found_status_fail dev buf count ev t hc (Or.inr hl) (by omega)] at hok
        simp [ENOMEM] at hok
      have hd := decode_voice_status dev buf count ev t hf hlt7 hl hcap
      unfold decoded_bytes
      rw [hd.1, hd.2.2]
    · rw [← hcmd] at hl
      have hl2 : ¬ (decode_cmd t ev &&& 0xf0 = 0xf0 ∨ dev.lastcmd ≠ decode_cmd t ev) := by
        intro h
        rcases h with h | h
        · exact hv.2.2.2.1 h
        · exact h hl
      have hcap : (status_event_at t).qlen ≤ count := by
        by_contra hcon
        rw [hfound, decode_found_running_fail dev buf count ev t hc hl2 (by omega)] at hok
        simp [ENOMEM] at hok
      have hd := decode_voice_running dev buf count ev t hf hlt7 hl hcap
      unfold decoded_bytes
      rw [hd.1, hd.2.2]
  · have h9 : 9 ≤ t := by omega
    have hcmd := decode_cmd_special t ev hge
    have hsp : decode_cmd t ev &&& 0xf0 = 0xf0 := by
      rw [hcmd]
      interval_cases t <;> rfl
    have hcap : (status_event_at t).qlen + 1 ≤ count := by
      by_contra hcon
      rw [hfound, decode_found_status_fail dev buf count ev t hc (Or.inl hsp) (by omega)] at hok
      simp [ENOMEM] at hok
    have hd := decode_special dev buf count ev t hf hn h9 hcap
    refine ⟨special_status_high_bit t hge h24, ?_⟩
    unfold decoded_bytes
    rw [hd.1, hd.2.2]

/-- Witness of C14: a note-on with channel 21, note 200 and velocity 130, all out of range. -/
theorem C14_decoder_output_well_formed_witness :
    decoded_bytes (new_state 16) (fun _ => 0) 3
      { zero_event with type := SND_SEQ_EVENT_NOTEON, channel := 21, note := 200,
                        velocity := 130 } = [0x95, 72, 2] :=
  ((C14_decoder_output_well_formed (new_state 16) (fun _ => 0) 3
    { zero_event with type := SND_SEQ_EVENT_NOTEON, channel := 21, note := 200,
                      velocity := 130 } 1 rfl (by decide) (by decide) (by decide)).2.2.1
    (by decide)).2.1 (by decide)

/-- C15, counterexample to the claim as stated.  With capacity 0 a single status byte leaves
`read = 1`; with capacity 1 a status byte and a data byte leave `read = 2`; with capacity 2 a
complete note-on leaves `read = 3`: for each capacity below 3 the read cursor passes the
capacity. -/
theorem C15_read_exceeds_small_capacity :
    (feed (new_state 0) zero_event [0x90]).map (fun r => (r.2.1.read, r.2.1.bufsize)) =
      [(1, 0)] ∧
    (feed (new_state 1) zero_event [0x90, 0x40]).map (fun r => (r.2.1.read, r.2.1.bufsize)) =
      [(1, 1), (2, 1)] ∧
    (feed (new_state 2) zero_event [0x90, 0x40, 0x41]).map
        (fun r => (r.2.1.read, r.2.1.bufsize)) = [(1, 2), (2, 2), (3, 2)] ∧
    ¬ (∀ r ∈ feed (new_state 0) zero_event [0x90], r.2.1.read ≤ r.2.1.bufsize) := by
  decide

/-- C15, amended.  For every buffer capacity of at least 3 and every sequence of input bytes fed
to `snd_midi_event_encode_byte` from an initialised state, after every step the capacity is
the one the state was created with and `0 ≤ read ≤ bufsize`. -/
theorem C15_read_within_capacity (dev : snd_midi_event) (ev : snd_seq_event_t)
    (bytes : List Int) (hcap : 3 ≤ dev.bufsize) :
    ∀ r ∈ feed (snd_midi_event_init dev) ev bytes,
      r.2.1.bufsize = dev.bufsize ∧ 0 ≤ r.2.1.read ∧ r.2.1.read ≤ r.2.1.bufsize := by
  intro r hr
  have h := feed_invariant (fun s => encode_inv s ∧ s.bufsize = dev.bufsize)
    (fun s c ev hs => ⟨encode_inv_step s c ev hs.1, by rw [encode_byte_bufsize]; exact hs.2⟩)
    bytes (snd_midi_event_init dev) ev ⟨encode_inv_init dev hcap, rfl⟩ r hr
  exact ⟨h.2, encode_inv_read_le _ h.1⟩

/-- Witness of C15: capacity 3 and a complete note-on. -/
theorem C15_read_within_capacity_witness :
    3 ≤ (new_state 3).bufsize ∧
    ∀ r ∈ feed (snd_midi_event_init (new_state 3)) zero_event [0x90, 0x40, 0x41],
      r.2.1.bufsize = (new_state 3).bufsize ∧ 0 ≤ r.2.1.read ∧ r.2.1.read ≤ r.2.1.bufsize :=
  ⟨by decide, C15_read_within_capacity (new_state 3) zero_event [0x90, 0x40, 0x41] (by decide)⟩

/-- C16, counterexample to the claim as stated.  After the status byte 0xF6 (tune request, no
data bytes) or the undefined status byte 0xF4, a data byte is taken as the first data byte of
a message of the same type and sets `qlen` to `0 - 1`. -/
theorem C16_pending_length_negative :
    (feed (new_state 16) zero_event [0xF6, 0x00]).map (fun r => r.2.1.qlen) = [0, -1] ∧
    (feed (new_state 16) zero_event [0xF4, 0x00]).map (fun r => r.2.1.qlen) = [0, -1] ∧
    ¬ (∀ r ∈ feed (new_state 16) zero_event [0xF6, 0x00], 0 ≤ r.2.1.qlen) := by
  decide

/-- C16, amended.  For every capacity and every sequence of input bytes fed to
`snd_midi_event_encode_byte` from an initialised state, after every step `qlen` is at least -1
and at most 2, the current type is a table index, and `qlen` is -1 only while the current
type is one whose table entry has no data bytes. -/
theorem C16_pending_length_bounds (dev : snd_midi_event) (ev : snd_seq_event_t)
    (bytes : List Int) :
    ∀ r ∈ feed (snd_midi_event_init dev) ev bytes,
      -1 ≤ r.2.1.qlen ∧ r.2.1.qlen ≤ 2 ∧ status_index_ok r.2.1.type ∧
      (r.2.1.qlen = -1 → (status_event_at r.2.1.type).qlen = 0) := by
  intro r hr
  have h := feed_invariant qlen_inv qlen_inv_step bytes (snd_midi_event_init dev) ev
    (qlen_inv_init dev) r hr
  exact ⟨h.2.1, h.2.2.1, h.1, h.2.2.2⟩

/-- Witness of C16: a tune request followed by a data byte, where `qlen` reaches -1. -/
theorem C16_pending_length_bounds_witness :
    (feed (snd_midi_event_init (new_state 16)) zero_event [0xF6, 0x00]).map
        (fun r => r.2.1.qlen) = [0, -1] ∧
    ∀ r ∈ feed (snd_midi_event_init (new_state 16)) zero_event [0xF6, 0x00],
      -1 ≤ r.2.1.qlen ∧ r.2.1.qlen ≤ 2 ∧ status_index_ok r.2.1.type ∧
      (r.2.1.qlen = -1 → (status_event_at r.2.1.type).qlen = 0) :=
  ⟨by decide, C16_pending_length_bounds (new_state 16) zero_event [0xF6, 0x00]⟩

/-- C17. Index safety of the encoder.  For every buffer capacity of at least 3, every sequence
of input bytes fed to `snd_midi_event_encode_byte` from an initialised state and every next
byte `c`: the capacity is unchanged; the only change the next call makes to the accumulation
buffer is one store, at an index from 0 up to but excluding the capacity; the positions 0, 1
and 2, the only ones a pack routine reads, are below the capacity; the current type is a
table index (0..23), is not 7 and is at most 15; and the table access of the next call is
inside the table. -/
theorem C17_encoder_index_safety (dev : snd_midi_event) (ev : snd_seq_event_t)
    (bytes : List Int) (c : Int) (hcap : 3 ≤ dev.bufsize) :
    (feed_end (snd_midi_event_init dev) ev bytes).1.bufsize = dev.bufsize ∧
    (∀ ev2, (snd_midi_event_encode_byte (feed_end (snd_midi_event_init dev) ev bytes).1 c
        ev2).2.1.buf =
      match encode_byte_store_index (feed_end (snd_midi_event_init dev) ev bytes).1 c with
      | some i => store (feed_end (snd_midi_event_init dev) ev bytes).1.buf i (c % 256).toNat
      | none => (feed_end (snd_midi_event_init dev) ev bytes).1.buf) ∧
    (∀ i, encode_byte_store_index (feed_end (snd_midi_event_init dev) ev bytes).1 c = some i →
      0 ≤ i ∧ i < (feed_end (snd_midi_event_init dev) ev bytes).1.bufsize) ∧
    (∀ i : Int, 0 ≤ i → i ≤ 2 → i < (feed_end (snd_midi_event_init dev) ev bytes).1.bufsize) ∧
    (∀ (S : snd_midi_event) (ev2 : snd_seq_event_t),
      S.type = (feed_end (snd_midi_event_init dev) ev bytes).1.type →
      S.buf 0 = (feed_end (snd_midi_event_init dev) ev bytes).1.buf 0 →
      S.buf 1 = (feed_end (snd_midi_event_init dev) ev bytes).1.buf 1 →
      S.buf 2 = (feed_end (snd_midi_event_init dev) ev bytes).1.buf 2 →
      fixed_event S ev2 = fixed_event (feed_end (snd_midi_event_init dev) ev bytes).1 ev2) ∧
    status_index_ok (feed_end (snd_midi_event_init dev) ev bytes).1.type ∧
    (feed_end (snd_midi_event_init dev) ev bytes).1.type ≠ 7 ∧
    (feed_end (snd_midi_event_init dev) ev bytes).1.type ≤ 15 ∧
    status_index_ok
      (encode_byte_table_index (feed_end (snd_midi_event_init dev) ev bytes).1 c) := by
  have h := feed_end_invariant (fun s => encode_inv s ∧ s.bufsize = dev.bufsize)
    (fun s c ev hs => ⟨encode_inv_step s c ev hs.1, by rw [encode_byte_bufsize]; exact hs.2⟩)
    bytes (snd_midi_event_init dev) ev ⟨encode_inv_init dev hcap, rfl⟩
  obtain ⟨hinv, hbuf⟩ := h
  have hty := encode_inv_type _ hinv
  refine ⟨hbuf, fun ev2 => encode_byte_store_index_sound _ c ev2,
    encode_inv_store_index _ c hinv, fun i _ hi => by rw [hbuf]; omega,
    fun S ev2 ht h0 h1 h2 => fixed_event_reads_0_to_2 _ S ev2 ht h0 h1 h2,
    hty.1, hty.2.1, hty.2.2, encode_inv_table_index _ c hinv⟩

/-- Witness of C17: capacity 3, after a SysEx start and one data byte, next byte 0x02: the
store goes to index 2. -/
theorem C17_encoder_index_safety_witness :
    encode_byte_store_index (feed_end (snd_midi_event_init (new_state 3)) zero_event
      [0xF0, 0x01]).1 0x02 = some 2 ∧
    (0 : Int) ≤ 2 ∧
    (2 : Int) < (feed_end (snd_midi_event_init (new_state 3)) zero_event
      [0xF0, 0x01]).1.bufsize :=
  ⟨by decide,
    (C17_encoder_index_safety (new_state 3) zero_event [0xF0, 0x01] 0x02 (by decide)).2.2.1
      2 (by decide)⟩

/-- C18, the code at the failing input.  A note-on on channel 0 (note 60, velocity 100) decoded
on a fresh state with capacity 1: the call fails with `-ENOMEM`, yet `lastcmd` has changed
from 0xff to the status byte 0x90, because `dev->lastcmd = cmd` is executed before the
capacity test.  The retry with capacity 3 on the state the failed call left emits the two data
bytes only, whereas the first call with capacity 3 emits the status byte and the data
bytes. -/
theorem C18_failed_decode_sets_lastcmd :
    (snd_midi_event_decode (new_state 16) (fun _ => 0) 1
      { zero_event with type := SND_SEQ_EVENT_NOTEON, note := 60, velocity := 100 }).1 =
        -ENOMEM ∧
    (new_state 16).lastcmd = 0xff ∧
    (snd_midi_event_decode (new_state 16) (fun _ => 0) 1
      { zero_event with type := SND_SEQ_EVENT_NOTEON, note := 60, velocity := 100 }).2.1.lastcmd =
        0x90 ∧
    decoded_bytes
      (snd_midi_event_decode (new_state 16) (fun _ => 0) 1
        { zero_event with type := SND_SEQ_EVENT_NOTEON, note := 60, velocity := 100 }).2.1
      (fun _ => 0) 3
      { zero_event with type := SND_SEQ_EVENT_NOTEON, note := 60, velocity := 100 } =
        [60, 100] ∧
    decoded_bytes (new_state 16) (fun _ => 0) 3
      { zero_event with type := SND_SEQ_EVENT_NOTEON, note := 60, velocity := 100 } =
        [0x90, 60, 100] := by
  decide

/-- C19, the code at the failing input.  The SysEx message 0xF0 0x01 0xF7 fed to a fresh state
of capacity 16: the call on the terminator returns 1 with variable-length framing and the
chunk 0xF0 0x01 0xF7, but the kind of the event is still the `NONE` it was before, and on an
event structure whose kind was `NOTEON` it is still `NOTEON`; the same holds for the chunk
handed out when a buffer of capacity 2 is full; and the bulk `snd_midi_event_encode` returns 3
with the kind `NONE`.  The SysEx branch of `snd_midi_event_encode_byte` never assigns
`ev->type`. -/
theorem C19_sysex_chunk_kind_not_set :
    (feed (new_state 16) zero_event [0xF0, 0x01, 0xF7]).map
        (fun r => (r.1, r.2.2.type, r.2.2.length)) =
      [(0, SND_SEQ_EVENT_NONE, SND_SEQ_EVENT_LENGTH_FIXED),
       (0, SND_SEQ_EVENT_NONE, SND_SEQ_EVENT_LENGTH_FIXED),
       (1, SND_SEQ_EVENT_NONE, SND_SEQ_EVENT_LENGTH_VARIABLE)] ∧
    emitted_bytes (feed (new_state 16) zero_event [0xF0, 0x01, 0xF7]) = [0xF0, 0x01, 0xF7] ∧
    (feed (new_state 16) { zero_event with type := SND_SEQ_EVENT_NOTEON }
        [0xF0, 0x01, 0xF7]).map (fun r => (r.1, r.2.2.type)) =
      [(0, SND_SEQ_EVENT_NOTEON), (0, SND_SEQ_EVENT_NOTEON), (1, SND_SEQ_EVENT_NOTEON)] ∧
    (feed (new_state 2) zero_event [0xF0, 0x01]).map
        (fun r => (r.1, r.2.2.type, r.2.2.length)) =
      [(0, SND_SEQ_EVENT_NONE, SND_SEQ_EVENT_LENGTH_FIXED),
       (1, SND_SEQ_EVENT_NONE, SND_SEQ_EVENT_LENGTH_VARIABLE)] ∧
    (snd_midi_event_encode (new_state 16) [0xF0, 0x01, 0xF7]
      { zero_event with type := SND_SEQ_EVENT_SYSEX }).1 = 3 ∧
    (snd_midi_event_encode (new_state 16) [0xF0, 0x01, 0xF7]
      { zero_event with type := SND_SEQ_EVENT_SYSEX }).2.2.type = SND_SEQ_EVENT_NONE ∧
    (snd_midi_event_encode (new_state 16) [0xF0, 0x01, 0xF7]
      { zero_event with type := SND_SEQ_EVENT_SYSEX }).2.2.type ≠ SND_SEQ_EVENT_SYSEX := by
  decide

/-- C20, counterexample to the claim as stated.  Two data bytes fed to a freshly reset-encode
state: the second call returns 1 with a note-off event of note 0x40 and velocity 0x41, because
`reset_encode` sets `type` to 0, the slot of note off. -/
theorem C20_data_bytes_complete_note_off :
    (snd_midi_event_reset_encode (new_state 16)).type = (ST_NOTEOFF : Int) ∧
    (feed (snd_midi_event_reset_encode (new_state 16)) zero_event [0x40, 0x41]).map
        (fun r => (r.1, r.2.2.type, r.2.2.note, r.2.2.velocity)) =
      [(0, SND_SEQ_EVENT_NONE, 0, 0), (1, SND_SEQ_EVENT_NOTEOFF, 0x40, 0x41)] ∧
    ¬ (∀ r ∈ feed (snd_midi_event_reset_encode (new_state 16)) zero_event [0x40, 0x41],
        r.1 = 0) := by
  decide

/-- C20, amended.  After reset-encode the current type is 0, the slot of note off.  For every
sequence of data bytes (each in 0..127) fed to `snd_midi_event_encode_byte` from a freshly
reset-encode state, the calls return 0, 1, 0, 1, ..: every call at an even position (counted
from 0) returns 0 and every call at an odd position returns 1 with a fixed-length note-off
event whose note and velocity are the two last bytes. -/
theorem C20_data_bytes_after_reset (dev : snd_midi_event) (ev : snd_seq_event_t)
    (ds : List Nat) (hds : ∀ d ∈ ds, d < 128) :
    (snd_midi_event_reset_encode dev).type = (ST_NOTEOFF : Int) ∧
    (feed (snd_midi_event_reset_encode dev) ev (ds.map Int.ofNat)).length = ds.length ∧
    ∀ (i : Nat) (r : Int × snd_midi_event × snd_seq_event_t),
      (feed (snd_midi_event_reset_encode dev) ev (ds.map Int.ofNat))[i]? = some r →
      (i % 2 = 0 → r.1 = 0) ∧
      (i % 2 = 1 → r.1 = 1 ∧ r.2.2.type = SND_SEQ_EVENT_NOTEOFF ∧
        r.2.2.length = SND_SEQ_EVENT_LENGTH_FIXED ∧
        r.2.2.note = ds.getD (i - 1) 0 ∧ r.2.2.velocity = ds.getD i 0) := by
  refine ⟨rfl, ?_, ?_⟩
  · rw [feed_length, List.length_map]
  · exact feed_data_noteoff ds.length ds rfl (snd_midi_event_reset_encode dev) ev rfl
      (le_refl (0 : Int)) hds

/-- Witness of C20: the data bytes 0x40 0x41 0x42 on a fresh state. -/
theorem C20_data_bytes_after_reset_witness :
    (snd_midi_event_reset_encode (new_state 16)).type = (ST_NOTEOFF : Int) ∧
    (feed (snd_midi_event_reset_encode (new_state 16)) zero_event
      (([0x40, 0x41, 0x42] : List Nat).map Int.ofNat)).length =
        ([0x40, 0x41, 0x42] : List Nat).length ∧
    ∀ (i : Nat) (r : Int × snd_midi_event × snd_seq_event_t),
      (feed (snd_midi_event_reset_encode (new_state 16)) zero_event
        (([0x40, 0x41, 0x42] : List Nat).map Int.ofNat))[i]? = some r →
      (i % 2 = 0 → r.1 = 0) ∧
      (i % 2 = 1 → r.1 = 1 ∧ r.2.2.type = SND_SEQ_EVENT_NOTEOFF ∧
        r.2.2.length = SND_SEQ_EVENT_LENGTH_FIXED ∧
        r.2.2.note = ([0x40, 0x41, 0x42] : List Nat).getD (i - 1) 0 ∧
        r.2.2.velocity = ([0x40, 0x41, 0x42] : List Nat).getD i 0) :=
  C20_data_bytes_after_reset (new_state 16) zero_event [0x40, 0x41, 0x42] (by decide)

end SeqMidiEvent
